import Mathlib

/-! Identity service of `lib/services/local/users.go`.

A shallow embedding of the credential repository (`IdentityService`) over an
explicit key-value backend, followed by theorems about its MFA-device,
user and session-data accessors.

Conventions of the embedding:
* Go `string` and `[]byte` are both `Bytes`, a list of byte values (`Nat`).
* A Go function returning `(T, error)` returns `Except Error T`; a Go function
  returning only `error` returns `Option Error` (`none` is `nil`) paired with
  the backend state it leaves behind.
* `time.Time` is a `Nat`; `0` is the zero time (an item with `Expires = 0`
  never expires).
-/

namespace Teleport

/-! ## Bytes and errors -/

/-- Byte strings: Go `string` and `[]byte`. -/
abbrev Bytes := List Nat

/-- The bytes of an ASCII string literal. -/
def str (s : String) : Bytes := s.toList.map Char.toNat

/-- Error kinds of the `trace` package that the service distinguishes. -/
inductive ErrorKind where
  | BadParameter
  | NotFound
  | AlreadyExists
  | ConnectionProblem
  | LimitExceeded
  | CompareFailed
  | AccessDenied
  | Other
  deriving DecidableEq, Repr

/-- A `trace` error: its kind, its format string and the formatted arguments. -/
structure Error where
  kind : ErrorKind
  message : String
  args : List Bytes
  deriving DecidableEq, Repr

instance instDecidableEqExcept {ε α : Type} [DecidableEq ε] [DecidableEq α] :
    DecidableEq (Except ε α)
  | .ok a, .ok b => if h : a = b then isTrue (by rw [h]) else isFalse (fun h2 => h (Except.ok.inj h2))
  | .error a, .error b =>
    if h : a = b then isTrue (by rw [h]) else isFalse (fun h2 => h (Except.error.inj h2))
  | .ok _, .error _ => isFalse (fun h => Except.noConfusion h)
  | .error _, .ok _ => isFalse (fun h => Except.noConfusion h)

namespace trace

def BadParameter (message : String) (args : List Bytes) : Error :=
  ⟨ErrorKind.BadParameter, message, args⟩

def NotFound (message : String) (args : List Bytes) : Error :=
  ⟨ErrorKind.NotFound, message, args⟩

def AlreadyExists (message : String) (args : List Bytes) : Error :=
  ⟨ErrorKind.AlreadyExists, message, args⟩

/-- The function `trace.Wrap` adds a stack trace and keeps the error and its kind. -/
def Wrap (err : Error) : Error := err

def IsNotFound (err : Error) : Bool := decide (err.kind = ErrorKind.NotFound)

def IsAlreadyExists (err : Error) : Bool := decide (err.kind = ErrorKind.AlreadyExists)

def IsBadParameter (err : Error) : Bool := decide (err.kind = ErrorKind.BadParameter)

end trace

/-! ## Keys of the backend -/

namespace backend

/-- The key separator `/`. -/
def Separator : Nat := 47

/-- Modelled from the spec: `backend.Key` is declared in `lib/backend`, outside the
sources at hand. Keys are "hierarchical, slash-delimited": every part is preceded
by the separator, as `strings.Join` of the empty string and the parts. -/
def Key : List Bytes → Bytes
  | [] => []
  | p :: ps => Separator :: p ++ Key ps

/-- The result of `RangeEnd` for a key of `0xff` bytes only. -/
def noEnd : Bytes := [0]

/-- Scan of `RangeEnd` from the last byte of the key, given reversed: the first
byte below `0xff` is incremented and everything after it is dropped. -/
def RangeEnd.go : Bytes → Option Bytes
  | [] => none
  | b :: rest => if b < 255 then some ((b + 1) :: rest) else RangeEnd.go rest

/-- Modelled from the spec: `backend.RangeEnd` is declared in `lib/backend`, outside
the sources at hand; it is the end of the range of keys that start with `key`
(the key with its last byte below `0xff` incremented). -/
def RangeEnd (key : Bytes) : Bytes :=
  match RangeEnd.go key.reverse with
  | some e => e.reverse
  | none => noEnd

/-- Lexicographic comparison of byte strings, `bytes.Compare a b < 0`. -/
def bytesLt : Bytes → Bytes → Bool
  | [], [] => false
  | [], _ :: _ => true
  | _ :: _, [] => false
  | a :: as, b :: bs => if a < b then true else if b < a then false else bytesLt as bs

/-- Lexicographic comparison of byte strings, `bytes.Compare a b <= 0`. -/
def bytesLe (a b : Bytes) : Bool := !bytesLt b a

/-- Whether `key` lies in the half-open range from `startKey` to `endKey`. -/
def inRange (startKey endKey key : Bytes) : Bool :=
  bytesLe startKey key && bytesLt key endKey

/-- No limit on the number of items of a range read. -/
def NoLimit : Nat := 0

/-- An item of the backend: `backend.Item`. -/
structure Item where
  Key : Bytes
  Value : Bytes
  Expires : Nat
  ID : Nat
  deriving DecidableEq, Repr

end backend

open backend

/-! ## The backend interface and the in-memory store -/

/-- The interface `backend.Backend` over a state of type `σ`: reads return a
result, writes return the new state or fail leaving the state as it was. -/
structure Backend (σ : Type) where
  Get : σ → Bytes → Except Error Item
  GetRange : σ → Bytes → Bytes → Nat → Except Error (List Item)
  Put : σ → Item → Except Error σ
  Create : σ → Item → Except Error σ
  Update : σ → Item → Except Error σ
  Delete : σ → Bytes → Except Error σ
  DeleteRange : σ → Bytes → Bytes → Except Error σ
  Now : σ → Nat

/-- State of the in-memory store: the stored items, the most recently written
first, and the reading of the clock. -/
structure Store where
  items : List Item
  now : Nat
  deriving DecidableEq, Repr

namespace Store

/-- An item is live unless its expiry timestamp is set and in the past. -/
def live (now : Nat) (it : Item) : Bool :=
  decide (it.Expires = 0) || decide (now ≤ it.Expires)

/-- The live item stored at `key`, if any. -/
def lookup (s : Store) (key : Bytes) : Option Item :=
  s.items.find? (fun it => decide (it.Key = key) && live s.now it)

/-- The items stored at other keys than `key`. -/
def erase (items : List Item) (key : Bytes) : List Item :=
  items.filter (fun it => !decide (it.Key = key))

/-- Order of items by key. -/
def keyLe (a b : Item) : Prop := bytesLe a.Key b.Key = true

instance : DecidableRel keyLe := fun a b => inferInstanceAs (Decidable (bytesLe a.Key b.Key = true))

/-- The live items with a key in the range, in key order. -/
def range (s : Store) (startKey endKey : Bytes) : List Item :=
  (s.items.filter (fun it => inRange startKey endKey it.Key && live s.now it)).insertionSort keyLe

def get (s : Store) (key : Bytes) : Except Error Item :=
  match s.lookup key with
  | some it => .ok it
  | none => .error (trace.NotFound "key %q is not found" [key])

def getRange (s : Store) (startKey endKey : Bytes) (limit : Nat) : Except Error (List Item) :=
  let items := s.range startKey endKey
  .ok (if limit = 0 then items else items.take limit)

def put (s : Store) (item : Item) : Except Error Store :=
  .ok { s with items := item :: erase s.items item.Key }

def create (s : Store) (item : Item) : Except Error Store :=
  match s.lookup item.Key with
  | some _ => .error (trace.AlreadyExists "key %q already exists" [item.Key])
  | none => .ok { s with items := item :: erase s.items item.Key }

def update (s : Store) (item : Item) : Except Error Store :=
  match s.lookup item.Key with
  | some _ => .ok { s with items := item :: erase s.items item.Key }
  | none => .error (trace.NotFound "key %q is not found" [item.Key])

def delete (s : Store) (key : Bytes) : Except Error Store :=
  match s.lookup key with
  | some _ => .ok { s with items := erase s.items key }
  | none => .error (trace.NotFound "key %q is not found" [key])

def deleteRange (s : Store) (startKey endKey : Bytes) : Except Error Store :=
  .ok { s with items := s.items.filter (fun it => !inRange startKey endKey it.Key) }

end Store

/-- Modelled from the spec: the keyed store is implemented in `lib/backend`, outside
the sources at hand. It is an ordered key-value map with `get`, `put` (upsert),
`create` (fails with AlreadyExists if the key is present), `update` (fails with
NotFound if the key is absent), `delete`, `deleteRange` and `getRange` returning
items in key order; an item whose expiry timestamp is in the past reads as absent. -/
def memory : Backend Store where
  Get := Store.get
  GetRange := Store.getRange
  Put := Store.put
  Create := Store.create
  Update := Store.update
  Delete := Store.delete
  DeleteRange := Store.deleteRange
  Now := Store.now

/-- A write that a backend has carried out. -/
inductive WriteOp where
  | Put (item : Item)
  | Create (item : Item)
  | Update (item : Item)
  | Delete (key : Bytes)
  | DeleteRange (startKey endKey : Bytes)
  deriving DecidableEq, Repr

/-- The key a write of one item is made at. -/
def WriteOp.key? : WriteOp → Option Bytes
  | .Put item => some item.Key
  | .Create item => some item.Key
  | .Update item => some item.Key
  | .Delete key => some key
  | .DeleteRange _ _ => none

/-- The backend `B` with a log of the writes it has carried out, oldest first: every
operation is that of `B`, and a write that succeeds is added to the log. -/
def Backend.traced {σ : Type} (B : Backend σ) : Backend (σ × List WriteOp) where
  Get st key := B.Get st.1 key
  GetRange st startKey endKey limit := B.GetRange st.1 startKey endKey limit
  Put st item :=
    match B.Put st.1 item with
    | .error err => .error err
    | .ok s => .ok (s, st.2 ++ [WriteOp.Put item])
  Create st item :=
    match B.Create st.1 item with
    | .error err => .error err
    | .ok s => .ok (s, st.2 ++ [WriteOp.Create item])
  Update st item :=
    match B.Update st.1 item with
    | .error err => .error err
    | .ok s => .ok (s, st.2 ++ [WriteOp.Update item])
  Delete st key :=
    match B.Delete st.1 key with
    | .error err => .error err
    | .ok s => .ok (s, st.2 ++ [WriteOp.Delete key])
  DeleteRange st startKey endKey :=
    match B.DeleteRange st.1 startKey endKey with
    | .error err => .error err
    | .ok s => .ok (s, st.2 ++ [WriteOp.DeleteRange startKey endKey])
  Now st := B.Now st.1

/-! ## Types of `api/types` used by the service -/

namespace types

/-- Resource metadata; `Name` is the device name. -/
structure Metadata where
  Name : Bytes
  Namespace : Bytes
  Description : Bytes
  deriving DecidableEq, Repr

structure TOTPDevice where
  Key : Bytes
  deriving DecidableEq, Repr

structure U2FDevice where
  KeyHandle : Bytes
  PubKey : Bytes
  Counter : Nat
  deriving DecidableEq, Repr

structure WebauthnDevice where
  CredentialId : Bytes
  PublicKeyCbor : Bytes
  AttestationType : Bytes
  Aaguid : Bytes
  SignatureCounter : Nat
  deriving DecidableEq, Repr

/-- The variant field `MFADevice.Device`: nil, one of the three known wrapper
types, or a type the code does not know (`other`, with its tag). The payload of
a known variant is taken to be non-nil. -/
inductive isMFADevice_Device where
  | nil
  | MFADevice_Totp (Totp : TOTPDevice)
  | MFADevice_U2F (U2F : U2FDevice)
  | MFADevice_Webauthn (Webauthn : WebauthnDevice)
  | other (tag : Nat)
  deriving DecidableEq, Repr

structure MFADevice where
  Kind : Bytes
  Version : Bytes
  Metadata : Metadata
  Id : Bytes
  AddedAt : Nat
  LastUsed : Nat
  Device : isMFADevice_Device
  deriving DecidableEq, Repr

/-- The getter `GetWebauthn`: the payload of a WebAuthn device, nil otherwise. -/
def MFADevice.GetWebauthn (d : MFADevice) : Option WebauthnDevice :=
  match d.Device with
  | .MFADevice_Webauthn w => some w
  | _ => none

/-- Whether the variant is one of the three the code knows. -/
def isMFADevice_Device.recognised : isMFADevice_Device → Bool
  | .MFADevice_Totp _ => true
  | .MFADevice_U2F _ => true
  | .MFADevice_Webauthn _ => true
  | _ => false

structure WebauthnLocalAuth where
  UserID : Bytes
  deriving DecidableEq, Repr

/-- The secrets of a local user: `types.LocalAuthSecrets`. -/
structure LocalAuthSecrets where
  PasswordHash : Bytes
  TOTPKey : Bytes
  MFA : List MFADevice
  Webauthn : Option WebauthnLocalAuth
  deriving DecidableEq, Repr

/-- A user resource, `types.User`; `LocalAuth` is a nilable pointer. -/
structure User where
  Metadata : Metadata
  Roles : List Bytes
  Expires : Nat
  ResourceID : Nat
  LocalAuth : Option LocalAuthSecrets
  deriving DecidableEq, Repr

def User.GetName (u : User) : Bytes := u.Metadata.Name

def User.SetLocalAuth (u : User) (auth : Option LocalAuthSecrets) : User :=
  { u with LocalAuth := auth }

/-- The session data of a WebAuthn ceremony, `wantypes.SessionData`. -/
structure SessionData where
  Challenge : Bytes
  UserId : Bytes
  AllowCredentials : List Bytes
  deriving DecidableEq, Repr

structure RecoveryCode where
  HashedCode : Bytes
  IsUsed : Bool
  deriving DecidableEq, Repr

structure RecoveryCodesSpecV1 where
  Codes : List RecoveryCode
  Created : Nat
  deriving DecidableEq, Repr

structure RecoveryCodesV1 where
  Kind : Bytes
  Version : Bytes
  Metadata : Metadata
  Spec : RecoveryCodesSpecV1
  deriving DecidableEq, Repr

/-- An attempt at account recovery, `types.RecoveryAttempt`. -/
structure RecoveryAttempt where
  Time : Nat
  Expires : Nat
  deriving DecidableEq, Repr

/-- Modelled from the spec: `(*UserV2).WithoutSecrets` is declared in `api/types`,
outside the sources at hand; it "strips secrets", the local-auth bundle, from
the user. -/
def User.WithoutSecrets (u : User) : User := { u with LocalAuth := none }

def User.Expiry (u : User) : Nat := u.Expires

def User.GetResourceID (u : User) : Nat := u.ResourceID

def User.GetLocalAuth (u : User) : Option LocalAuthSecrets := u.LocalAuth

end types

open types

/-- The calls of the device operations into `api/types` and `encoding/json`, which
are outside the sources at hand: `(*MFADevice).CheckAndSetDefaults` (the device
with its defaults set, or an error), `json.Marshal` and `json.Unmarshal` of a
device. -/
structure MFADeviceLib where
  CheckAndSetDefaults : MFADevice → Except Error MFADevice
  Marshal : MFADevice → Except Error Bytes
  Unmarshal : Bytes → Except Error MFADevice

/-- The calls of the user operations into `lib/services`, outside the sources at
hand: `services.ValidateUser` (the user with its defaults set, or an error),
`services.MarshalUser`, `services.UnmarshalUser` (with the resource id and the
expiry of the item) and `userFromUserItems`, which
builds a user with its secrets from the items found under the user, each with
its key suffix. -/
structure UserLib where
  ValidateUser : User → Except Error User
  MarshalUser : User → Except Error Bytes
  UnmarshalUser : Bytes → Nat → Nat → Except Error User
  userFromUserItems : Bytes → List (Bytes × Item) → Except Error User

/-- The call `json.Unmarshal` into a `wantypes.SessionData` and `json.Marshal` of one. -/
structure SessionDataLib where
  Marshal : SessionData → Except Error Bytes
  Unmarshal : Bytes → Except Error SessionData

/-- The calls on recovery codes into `api/types` and `encoding/json`. -/
structure RecoveryCodesLib where
  CheckAndSetDefaults : RecoveryCodesV1 → Except Error RecoveryCodesV1
  Marshal : RecoveryCodesV1 → Except Error Bytes
  Unmarshal : Bytes → Except Error RecoveryCodesV1

/-- The calls on recovery attempts into `api/types` and `encoding/json`. -/
structure RecoveryAttemptLib where
  Check : RecoveryAttempt → Option Error
  Marshal : RecoveryAttempt → Except Error Bytes
  Unmarshal : Bytes → Except Error RecoveryAttempt

/-- The calls of the operations on the secrets of a user into `api/types` and
`encoding/json`, outside the sources at hand: `types.NewUser` (a user with the
given name and its defaults, without secrets), and `Check`, `json.Marshal` and
`json.Unmarshal` of a `types.WebauthnLocalAuth`. -/
structure SecretsLib where
  NewUser : Bytes → Except Error User
  CheckWebauthnLocalAuth : WebauthnLocalAuth → Option Error
  MarshalWebauthnLocalAuth : WebauthnLocalAuth → Except Error Bytes
  UnmarshalWebauthnLocalAuth : Bytes → Except Error WebauthnLocalAuth

/-- The call of `getUsersWithSecrets` into `collectUserItems`, outside the sources
at hand, which groups the items of the users by user name, each item with its
key suffix. -/
structure UserItemsLib where
  collectUserItems : List Item → Except Error (List (Bytes × List (Bytes × Item)))

/-! ## `lib/services/local/users.go` -/

def webPrefix : Bytes := str "web"
def usersPrefix : Bytes := str "users"
def pwdPrefix : Bytes := str "pwd"
def paramsPrefix : Bytes := str "params"
def mfaDevicePrefix : Bytes := str "mfa"
def webauthnSessionData : Bytes := str "webauthnsessiondata"
def recoveryCodesPrefix : Bytes := str "recoverycodes"
def recoveryAttemptsPrefix : Bytes := str "recoveryattempts"
def webauthnLocalAuthPrefix : Bytes := str "webauthnlocalauth"
def usedTOTPPrefix : Bytes := str "used_totp"
def attemptsPrefix : Bytes := str "attempts"

/-- The credential id of a device: the key handle of a U2F device, the credential
id of a WebAuthn device, none (`false`) for any other variant. -/
def getCredentialID (d : MFADevice) : Option Bytes :=
  match d.Device with
  | .MFADevice_U2F u => some u.KeyHandle
  | .MFADevice_Webauthn w => some w.CredentialId
  | _ => none

/-- The function `bytes.TrimPrefix`. -/
def trimPrefix (s pre : Bytes) : Bytes :=
  if pre.isPrefixOf s then s.drop pre.length else s

def sessionDataKey (user sessionID : Bytes) : Bytes :=
  Key [ webPrefix, usersPrefix, user, webauthnSessionData, sessionID]

namespace IdentityService

/-- The loop of `getUserWithSecrets`: every item of the range is set in the
user items under its key without the start key and separator. -/
def getUserWithSecrets.loop (startKey : Bytes) : List Item → List (Bytes × Item)
  | [] => []
  | item :: rest =>
    (trimPrefix item.Key (startKey ++ [Separator]), item) :: getUserWithSecrets.loop startKey rest

def getUserWithSecrets {σ : Type} (B : Backend σ) (L : UserLib) (s : σ) (user : Bytes) :
    Except Error User :=
  if user = [] then .error (trace.BadParameter "missing user name" [])
  else
    let startKey := Key [ webPrefix, usersPrefix, user]
    match B.GetRange s startKey (RangeEnd startKey) NoLimit with
    | .error err => .error (trace.Wrap err)
    | .ok items =>
      match L.userFromUserItems user (getUserWithSecrets.loop startKey items) with
      | .error err => .error (trace.Wrap err)
      | .ok u => .ok u

def GetUser {σ : Type} (B : Backend σ) (L : UserLib) (s : σ) (user : Bytes)
    (withSecrets : Bool) : Except Error User :=
  if withSecrets then getUserWithSecrets B L s user
  else if user = [] then .error (trace.BadParameter "missing user name" [])
  else
    match B.Get s (Key [ webPrefix, usersPrefix, user, paramsPrefix]) with
    | .error _ => .error (trace.NotFound "user %q is not found" [user])
    | .ok item =>
      match L.UnmarshalUser item.Value item.ID item.Expires with
      | .error err => .error (trace.Wrap err)
      | .ok u => .ok (if !withSecrets then u.SetLocalAuth none else u)

def GetPasswordHash {σ : Type} (B : Backend σ) (s : σ) (user : Bytes) : Except Error Bytes :=
  if user = [] then .error (trace.BadParameter "missing user name" [])
  else
    match B.Get s (Key [ webPrefix, usersPrefix, user, pwdPrefix]) with
    | .error err =>
      if trace.IsNotFound err then .error (trace.NotFound "user %q is not found" [user])
      else .error (trace.Wrap err)
    | .ok item => .ok item.Value

def GetWebauthnSessionData {σ : Type} (B : Backend σ) (L : SessionDataLib) (s : σ)
    (user sessionID : Bytes) : Except Error SessionData :=
  if user = [] then .error (trace.BadParameter "missing parameter user" [])
  else if sessionID = [] then .error (trace.BadParameter "missing parameter sessionID" [])
  else
    match B.Get s (sessionDataKey user sessionID) with
    | .error err => .error (trace.Wrap err)
    | .ok item =>
      match L.Unmarshal item.Value with
      | .error err => .error (trace.Wrap err)
      | .ok sd => .ok sd

def GetRecoveryCodes {σ : Type} (B : Backend σ) (L : RecoveryCodesLib) (s : σ) (user : Bytes)
    (withSecrets : Bool) : Except Error RecoveryCodesV1 :=
  if user = [] then .error (trace.BadParameter "missing parameter user" [])
  else
    match B.Get s (Key [ webPrefix, usersPrefix, user, recoveryCodesPrefix]) with
    | .error err => .error (trace.Wrap err)
    | .ok item =>
      match L.Unmarshal item.Value with
      | .error err => .error (trace.Wrap err)
      | .ok rc =>
        .ok (if !withSecrets then { rc with Spec := { rc.Spec with Codes := [] } } else rc)

/-- The switch of `GetMFADevices` on a decoded device: without secrets
the seed of a TOTP device is cleared, U2F and WebAuthn devices pass and any other
variant is refused. -/
def GetMFADevices.strip (withSecrets : Bool) (d : MFADevice) : Except Error MFADevice :=
  if !withSecrets then
    match d.Device with
    | .MFADevice_Totp t => .ok { d with Device := .MFADevice_Totp { t with Key := [] } }
    | .MFADevice_U2F _ => .ok d
    | .MFADevice_Webauthn _ => .ok d
    | _ => .error (trace.BadParameter "unsupported MFADevice type %T" [])
  else .ok d

/-- Body of the loop of `GetMFADevices`: the item is decoded, then stripped. -/
def GetMFADevices.body (L : MFADeviceLib) (withSecrets : Bool) (item : Item) :
    Except Error MFADevice :=
  match L.Unmarshal item.Value with
  | .error err => .error (trace.Wrap err)
  | .ok d => GetMFADevices.strip withSecrets d

/-- The loop of `GetMFADevices` over the items of the range: the devices of the
items in order, or the error of the first item that fails. -/
def GetMFADevices.loop (L : MFADeviceLib) (withSecrets : Bool) :
    List Item → Except Error (List MFADevice)
  | [] => .ok []
  | item :: rest =>
    match GetMFADevices.body L withSecrets item with
    | .error err => .error err
    | .ok d =>
      match GetMFADevices.loop L withSecrets rest with
      | .error err => .error err
      | .ok devices => .ok (d :: devices)

def GetMFADevices {σ : Type} (B : Backend σ) (L : MFADeviceLib) (s : σ) (user : Bytes)
    (withSecrets : Bool) : Except Error (List MFADevice) :=
  if user = [] then .error (trace.BadParameter "missing parameter user" [])
  else
    let startKey := Key [ webPrefix, usersPrefix, user, mfaDevicePrefix]
    match B.GetRange s startKey (RangeEnd startKey) NoLimit with
    | .error err => .error (trace.Wrap err)
    | .ok items => GetMFADevices.loop L withSecrets items

/-- The loop of `UpsertMFADevice` over the devices already stored: `none` when
every device passes, the error of the first device that does not. -/
def UpsertMFADevice.loop (d : MFADevice) : List MFADevice → Option Error
  | [] => none
  | dd :: devs =>
    if d.Metadata.Name = dd.Metadata.Name ∧ d.Id = dd.Id then
      UpsertMFADevice.loop d devs
    else if d.Metadata.Name = dd.Metadata.Name ∧ d.Id ≠ dd.Id then
      some (trace.AlreadyExists "MFA device with name %q already exists" [d.Metadata.Name])
    else if d.GetWebauthn = none then
      UpsertMFADevice.loop d devs
    else
      match getCredentialID d with
      | none => UpsertMFADevice.loop d devs
      | some id1 =>
        match getCredentialID dd with
        | none => UpsertMFADevice.loop d devs
        | some id2 =>
          if id1 = id2 then
            some (trace.AlreadyExists "credential ID already in use by device %q"
              [dd.Metadata.Name])
          else UpsertMFADevice.loop d devs

/-- The key of the record of device `id` of `user`. -/
def mfaDeviceKey (user id : Bytes) : Bytes :=
  Key [ webPrefix, usersPrefix, user, mfaDevicePrefix, id]

/-- The method `UpsertMFADevice`: the error it returns (`none` for nil) and the
state of the backend afterwards. The device is validated first and is used with
its defaults set from then on. -/
def UpsertMFADevice {σ : Type} (B : Backend σ) (L : MFADeviceLib) (s : σ) (user : Bytes)
    (d : MFADevice) : Option Error × σ :=
  if user = [] then (some (trace.BadParameter "missing parameter user" []), s)
  else
    match L.CheckAndSetDefaults d with
    | .error err => (some (trace.Wrap err), s)
    | .ok d =>
      match GetMFADevices B L s user false with
      | .error err => (some (trace.Wrap err), s)
      | .ok devs =>
        match UpsertMFADevice.loop d devs with
        | some err => (some err, s)
        | none =>
          match L.Marshal d with
          | .error err => (some (trace.Wrap err), s)
          | .ok value =>
            let item : Item :=
              { Key := mfaDeviceKey user d.Id, Value := value, Expires := 0, ID := 0 }
            match B.Put s item with
            | .error err => (some (trace.Wrap err), s)
            | .ok s' => (none, s')

def DeleteMFADevice {σ : Type} (B : Backend σ) (s : σ) (user id : Bytes) : Option Error × σ :=
  if user = [] then (some (trace.BadParameter "missing parameter user" []), s)
  else if id = [] then (some (trace.BadParameter "missing parameter id" []), s)
  else
    match B.Delete s (mfaDeviceKey user id) with
    | .error err => (some (trace.Wrap err), s)
    | .ok s' => (none, s')

def webauthnLocalAuthKey (user : Bytes) : Bytes :=
  Key [ webPrefix, usersPrefix, user, webauthnLocalAuthPrefix]

def UpsertWebauthnLocalAuth {σ : Type} (B : Backend σ) (N : SecretsLib) (s : σ) (user : Bytes)
    (wla : Option WebauthnLocalAuth) : Option Error × σ :=
  if user = [] then (some (trace.BadParameter "missing parameter user" []), s)
  else
    match wla with
    | none => (some (trace.BadParameter "missing parameter webauthn local auth" []), s)
    | some wla =>
      match N.CheckWebauthnLocalAuth wla with
      | some err => (some (trace.Wrap err), s)
      | none =>
        match N.MarshalWebauthnLocalAuth wla with
        | .error err => (some (trace.Wrap err), s)
        | .ok value =>
          match B.Put s { Key := webauthnLocalAuthKey user, Value := value, Expires := 0, ID := 0 } with
          | .error err => (some (trace.Wrap err), s)
          | .ok s' => (none, s')

def GetWebauthnLocalAuth {σ : Type} (B : Backend σ) (N : SecretsLib) (s : σ) (user : Bytes) :
    Except Error WebauthnLocalAuth :=
  if user = [] then .error (trace.BadParameter "missing parameter user" [])
  else
    match B.Get s (webauthnLocalAuthKey user) with
    | .error err => .error (trace.Wrap err)
    | .ok item =>
      match N.UnmarshalWebauthnLocalAuth item.Value with
      | .error err => .error (trace.Wrap err)
      | .ok wal => .ok wal

/-- The method `UpsertWebauthnSessionData`; `sd` is a nilable pointer and
`WebauthnChallengeTimeout` is the constant of that name of `lib/defaults`. -/
def UpsertWebauthnSessionData {σ : Type} (B : Backend σ) (L : SessionDataLib)
    (WebauthnChallengeTimeout : Nat) (s : σ) (user sessionID : Bytes)
    (sd : Option SessionData) : Option Error × σ :=
  if user = [] then (some (trace.BadParameter "missing parameter user" []), s)
  else if sessionID = [] then (some (trace.BadParameter "missing parameter sessionID" []), s)
  else
    match sd with
    | none => (some (trace.BadParameter "missing parameter sd" []), s)
    | some sd =>
      match L.Marshal sd with
      | .error err => (some (trace.Wrap err), s)
      | .ok value =>
        match B.Put s { Key := sessionDataKey user sessionID, Value := value,
                        Expires := B.Now s + WebauthnChallengeTimeout, ID := 0 } with
        | .error err => (some (trace.Wrap err), s)
        | .ok s' => (none, s')

def DeleteWebauthnSessionData {σ : Type} (B : Backend σ) (s : σ) (user sessionID : Bytes) :
    Option Error × σ :=
  if user = [] then (some (trace.BadParameter "missing parameter user" []), s)
  else if sessionID = [] then (some (trace.BadParameter "missing parameter sessionID" []), s)
  else
    match B.Delete s (sessionDataKey user sessionID) with
    | .error err => (some (trace.Wrap err), s)
    | .ok s' => (none, s')

/-- The method `UpsertRecoveryCodes`; the record is validated first and is used
with its defaults set from then on. -/
def UpsertRecoveryCodes {σ : Type} (B : Backend σ) (L : RecoveryCodesLib) (s : σ)
    (user : Bytes) (recovery : RecoveryCodesV1) : Option Error × σ :=
  if user = [] then (some (trace.BadParameter "missing parameter user" []), s)
  else
    match L.CheckAndSetDefaults recovery with
    | .error err => (some (trace.Wrap err), s)
    | .ok recovery =>
      match L.Marshal recovery with
      | .error err => (some (trace.Wrap err), s)
      | .ok value =>
        match B.Put s { Key := Key [ webPrefix, usersPrefix, user, recoveryCodesPrefix],
                        Value := value, Expires := 0, ID := 0 } with
        | .error err => (some (trace.Wrap err), s)
        | .ok s' => (none, s')

/-- The order `Less` of `recoveryAttemptsChronologically`: `a.Time.Before(b.Time)`. -/
def recoveryAttemptsChronologically.Less (a b : RecoveryAttempt) : Bool :=
  decide (a.Time < b.Time)

/-- The call `sort.Sort` with the order `Less`, as an insertion sort (the way Go
sorts a short slice): every element is moved to the left past the elements it
is `Less` than. Go leaves open the order of elements of which none is `Less`
than the other; here they stay in the order they had. -/
def sortSort {α : Type} (Less : α → α → Bool) (data : List α) : List α :=
  data.insertionSort (fun a b => Less b a = false)

/-- The loop of `GetUserRecoveryAttempts` over the items of the range: every item
is decoded in turn, the first failure ends the loop. -/
def GetUserRecoveryAttempts.loop (L : RecoveryAttemptLib) :
    List Item → Except Error (List RecoveryAttempt)
  | [] => .ok []
  | item :: rest =>
    match L.Unmarshal item.Value with
    | .error err => .error (trace.Wrap err)
    | .ok a =>
      match GetUserRecoveryAttempts.loop L rest with
      | .error err => .error err
      | .ok out => .ok (a :: out)

def GetUserRecoveryAttempts {σ : Type} (B : Backend σ) (L : RecoveryAttemptLib) (s : σ)
    (user : Bytes) : Except Error (List RecoveryAttempt) :=
  if user = [] then .error (trace.BadParameter "missing parameter user" [])
  else
    let startKey := Key [ webPrefix, usersPrefix, user, recoveryAttemptsPrefix]
    match B.GetRange s startKey (RangeEnd startKey) NoLimit with
    | .error err => .error (trace.Wrap err)
    | .ok items =>
      match GetUserRecoveryAttempts.loop L items with
      | .error err => .error err
      | .ok out => .ok (sortSort recoveryAttemptsChronologically.Less out)

def DeleteUserRecoveryAttempts {σ : Type} (B : Backend σ) (s : σ) (user : Bytes) :
    Option Error × σ :=
  if user = [] then (some (trace.BadParameter "missing parameter user" []), s)
  else
    let startKey := Key [ webPrefix, usersPrefix, user, recoveryAttemptsPrefix]
    match B.DeleteRange s startKey (RangeEnd startKey) with
    | .error err => (some (trace.Wrap err), s)
    | .ok s' => (none, s')

/-- The primary record of a user: the item `CreateUser`, `UpdateUser` and
`UpsertUser` build, with the resource id they give it. -/
def userItem (user : User) (value : Bytes) (id : Nat) : Item :=
  { Key := Key [ webPrefix, usersPrefix, user.GetName, paramsPrefix], Value := value,
    Expires := user.Expiry, ID := id }

/-- The method `CreateUser` up to and with the creation of the primary record: the
validated user when the record is created, the error otherwise. -/
def CreateUser.create {σ : Type} (B : Backend σ) (L : UserLib) (s : σ) (user : User) :
    Except Error User × σ :=
  match L.ValidateUser user with
  | .error err => (.error (trace.Wrap err), s)
  | .ok user =>
    match GetUser B L s user.GetName false with
    | .ok _ => (.error (trace.AlreadyExists "user %q already registered" [user.GetName]), s)
    | .error err =>
      if !trace.IsNotFound err then (.error (trace.Wrap err), s)
      else
        match L.MarshalUser user.WithoutSecrets with
        | .error err => (.error (trace.Wrap err), s)
        | .ok value =>
          match B.Create s (userItem user value 0) with
          | .error err => (.error (trace.Wrap err), s)
          | .ok s' => (.ok user, s')

/-- The last step of `UpsertPasswordHash`: the hash is put under the key of the
password of the user. -/
def UpsertPasswordHash.put {σ : Type} (B : Backend σ) (s : σ) (username hash : Bytes) :
    Option Error × σ :=
  match B.Put s { Key := Key [ webPrefix, usersPrefix, username, pwdPrefix],
                  Value := hash, Expires := 0, ID := 0 } with
  | .error err => (some (trace.Wrap err), s)
  | .ok s' => (none, s')

/-- The method `UpsertPasswordHash`. The user prototype of `types.NewUser` has no
local-auth secrets, so the call of `CreateUser` on it ends with the creation of
the primary record. -/
def UpsertPasswordHash {σ : Type} (B : Backend σ) (L : UserLib) (N : SecretsLib) (s : σ)
    (username hash : Bytes) : Option Error × σ :=
  match N.NewUser username with
  | .error err => (some (trace.Wrap err), s)
  | .ok userPrototype =>
    match CreateUser.create B L s userPrototype with
    | (.error err, s1) =>
      if !trace.IsAlreadyExists err then (some (trace.Wrap err), s1)
      else UpsertPasswordHash.put B s1 username hash
    | (.ok _, s1) => UpsertPasswordHash.put B s1 username hash

/-- The loop of `upsertLocalAuthSecrets` over the devices of the bundle. -/
def upsertLocalAuthSecrets.loop {σ : Type} (B : Backend σ) (M : MFADeviceLib) (user : Bytes) :
    σ → List MFADevice → Option Error × σ
  | s, [] => (none, s)
  | s, d :: rest =>
    match UpsertMFADevice B M s user d with
    | (some err, s1) => (some (trace.Wrap err), s1)
    | (none, s1) => upsertLocalAuthSecrets.loop B M user s1 rest

/-- The steps of `upsertLocalAuthSecrets` after the password hash: the devices of
the bundle are upserted in turn, then its WebAuthn local auth when it is not
nil. -/
def upsertLocalAuthSecrets.devices {σ : Type} (B : Backend σ) (N : SecretsLib)
    (M : MFADeviceLib) (s : σ) (user : Bytes) (auth : LocalAuthSecrets) : Option Error × σ :=
  match upsertLocalAuthSecrets.loop B M user s auth.MFA with
  | (some err, s1) => (some err, s1)
  | (none, s1) =>
    match auth.Webauthn with
    | none => (none, s1)
    | some wla =>
      match UpsertWebauthnLocalAuth B N s1 user (some wla) with
      | (some err, s2) => (some (trace.Wrap err), s2)
      | (none, s2) => (none, s2)

def upsertLocalAuthSecrets {σ : Type} (B : Backend σ) (L : UserLib) (N : SecretsLib)
    (M : MFADeviceLib) (s : σ) (user : Bytes) (auth : LocalAuthSecrets) : Option Error × σ :=
  if auth.PasswordHash.length > 0 then
    match UpsertPasswordHash B L N s user auth.PasswordHash with
    | (some err, s1) => (some (trace.Wrap err), s1)
    | (none, s1) => upsertLocalAuthSecrets.devices B N M s1 user auth
  else upsertLocalAuthSecrets.devices B N M s user auth

/-- The last step of `CreateUser`, `UpdateUser` and `UpsertUser`: the secrets of the
user, when it has a bundle of them, are upserted. -/
def upsertUserSecrets {σ : Type} (B : Backend σ) (L : UserLib) (N : SecretsLib)
    (M : MFADeviceLib) (s : σ) (user : User) : Option Error × σ :=
  match user.GetLocalAuth with
  | none => (none, s)
  | some auth =>
    match upsertLocalAuthSecrets B L N M s user.GetName auth with
    | (some err, s1) => (some (trace.Wrap err), s1)
    | (none, s1) => (none, s1)

def CreateUser {σ : Type} (B : Backend σ) (L : UserLib) (N : SecretsLib) (M : MFADeviceLib)
    (s : σ) (user : User) : Option Error × σ :=
  match CreateUser.create B L s user with
  | (.error err, s1) => (some err, s1)
  | (.ok user, s1) => upsertUserSecrets B L N M s1 user

def UpdateUser {σ : Type} (B : Backend σ) (L : UserLib) (N : SecretsLib) (M : MFADeviceLib)
    (s : σ) (user : User) : Option Error × σ :=
  match L.ValidateUser user with
  | .error err => (some (trace.Wrap err), s)
  | .ok user =>
    match GetUser B L s user.GetName false with
    | .error err => (some (trace.Wrap err), s)
    | .ok _ =>
      match L.MarshalUser user.WithoutSecrets with
      | .error err => (some (trace.Wrap err), s)
      | .ok value =>
        match B.Update s (userItem user value user.GetResourceID) with
        | .error err => (some (trace.Wrap err), s)
        | .ok s1 => upsertUserSecrets B L N M s1 user

def UpsertUser {σ : Type} (B : Backend σ) (L : UserLib) (N : SecretsLib) (M : MFADeviceLib)
    (s : σ) (user : User) : Option Error × σ :=
  match L.ValidateUser user with
  | .error err => (some (trace.Wrap err), s)
  | .ok user =>
    match L.MarshalUser user.WithoutSecrets with
    | .error err => (some (trace.Wrap err), s)
    | .ok value =>
      match B.Put s (userItem user value user.GetResourceID) with
      | .error err => (some (trace.Wrap err), s)
      | .ok s1 => upsertUserSecrets B L N M s1 user

def DeleteUser {σ : Type} (B : Backend σ) (L : UserLib) (s : σ) (user : Bytes) :
    Option Error × σ :=
  match GetUser B L s user false with
  | .error err => (some (trace.Wrap err), s)
  | .ok _ =>
    let startKey := Key [ webPrefix, usersPrefix, user]
    match B.DeleteRange s startKey (RangeEnd startKey) with
    | .error err => (some (trace.Wrap err), s)
    | .ok s' => (none, s')

end IdentityService

/-- The duration `time.Second`, in nanoseconds. -/
def time.Second : Nat := 1000000000

def usedTOTPTTL : Nat := 30 * time.Second

namespace IdentityService

/-- The loop of `getUsersWithSecrets` over the collected users. -/
def getUsersWithSecrets.loop (L : UserLib) :
    List (Bytes × List (Bytes × Item)) → Except Error (List User)
  | [] => .ok []
  | (uname, uitems) :: rest =>
    match L.userFromUserItems uname uitems with
    | .error err => .error (trace.Wrap err)
    | .ok user =>
      match getUsersWithSecrets.loop L rest with
      | .error err => .error err
      | .ok users => .ok (user :: users)

def getUsersWithSecrets {σ : Type} (B : Backend σ) (L : UserLib) (C : UserItemsLib) (s : σ) :
    Except Error (List User) :=
  let startKey := Key [ webPrefix, usersPrefix]
  match B.GetRange s startKey (RangeEnd startKey) NoLimit with
  | .error err => .error (trace.Wrap err)
  | .ok items =>
    match C.collectUserItems items with
    | .error err => .error (trace.Wrap err)
    | .ok collected => getUsersWithSecrets.loop L collected

/-- The loop of `GetUsers` over the items of the range: an item whose key does not
end with `params` is skipped, any other item is decoded as a user. -/
def GetUsers.loop (L : UserLib) (withSecrets : Bool) : List Item → Except Error (List User)
  | [] => .ok []
  | item :: rest =>
    if !paramsPrefix.isSuffixOf item.Key then GetUsers.loop L withSecrets rest
    else
      match L.UnmarshalUser item.Value item.ID item.Expires with
      | .error err => .error (trace.Wrap err)
      | .ok u =>
        match GetUsers.loop L withSecrets rest with
        | .error err => .error err
        | .ok out => .ok ((if !withSecrets then u.SetLocalAuth none else u) :: out)

def GetUsers {σ : Type} (B : Backend σ) (L : UserLib) (C : UserItemsLib) (s : σ)
    (withSecrets : Bool) : Except Error (List User) :=
  if withSecrets then getUsersWithSecrets B L C s
  else
    let startKey := Key [ webPrefix, usersPrefix]
    match B.GetRange s startKey (RangeEnd startKey) NoLimit with
    | .error err => .error (trace.Wrap err)
    | .ok items => GetUsers.loop L withSecrets items

def UpsertUsedTOTPToken {σ : Type} (B : Backend σ) (s : σ) (user otpToken : Bytes) :
    Option Error × σ :=
  if user = [] then (some (trace.BadParameter "missing user name" []), s)
  else
    match B.Put s { Key := Key [ webPrefix, usersPrefix, user, usedTOTPPrefix],
                    Value := otpToken, Expires := B.Now s + usedTOTPTTL, ID := 0 } with
    | .error err => (some (trace.Wrap err), s)
    | .ok s' => (none, s')

def GetUsedTOTPToken {σ : Type} (B : Backend σ) (s : σ) (user : Bytes) : Except Error Bytes :=
  if user = [] then .error (trace.BadParameter "missing user name" [])
  else
    match B.Get s (Key [ webPrefix, usersPrefix, user, usedTOTPPrefix]) with
    | .error err =>
      if trace.IsNotFound err then .ok (str "0") else .error (trace.Wrap err)
    | .ok item => .ok item.Value

end IdentityService

/-! ## The registration flow of `lib/auth/webauthn` -/

namespace webauthn

/-- The credential-creation request that `Begin` returns: the challenge, the
relying-party id and the WebAuthn user handle. -/
structure CredentialCreation where
  Challenge : Bytes
  RelyingPartyID : Bytes
  UserID : Bytes
  deriving DecidableEq, Repr

/-- The signed response of an authenticator, parsed: the origin and the challenge
of the client data, the relying-party id of the authenticator data, the new
credential, and the signature. -/
structure CredentialCreationResponse where
  Origin : Bytes
  RPID : Bytes
  Challenge : Bytes
  CredentialId : Bytes
  PublicKeyCbor : Bytes
  AttestationType : Bytes
  Aaguid : Option Bytes
  Signature : Bytes
  deriving DecidableEq, Repr

/-- The operations of the credential repository that the flow calls (the field
`Identity` of the flow). -/
structure RegistrationIdentity (σ : Type) where
  GetWebauthnLocalAuth : σ → Bytes → Except Error WebauthnLocalAuth
  UpsertWebauthnLocalAuth : σ → Bytes → Option WebauthnLocalAuth → Option Error × σ
  UpsertWebauthnSessionData : σ → Bytes → Bytes → Option SessionData → Option Error × σ
  GetWebauthnSessionData : σ → Bytes → Bytes → Except Error SessionData
  DeleteWebauthnSessionData : σ → Bytes → Bytes → Option Error × σ
  UpsertMFADevice : σ → Bytes → MFADevice → Option Error × σ

/-- Modelled from the spec: the type `RegistrationFlow` is declared in
`lib/auth/webauthn`, of which only the tests are at hand. A flow holds the
relying-party id of its configuration and its identity; the values that a
ceremony draws (the random challenge, the session id, the user handle of a user
without one, the id of the new device, the time) and the cryptographic checks
of the WebAuthn library are fields of the model. -/
structure RegistrationFlow (σ : Type) where
  RPID : Bytes
  Identity : RegistrationIdentity σ
  NewChallenge : Bytes
  SessionID : Bytes
  NewUserHandle : Bytes
  NewDeviceID : Bytes
  Now : Nat
  ValidOrigin : Bytes → Bytes → Bool
  VerifySignature : CredentialCreationResponse → Bool

/-- The user handle of `Begin`: the stored handle of the user, or a new handle,
"created on first use, persisted via WebauthnLocalAuth". -/
def RegistrationFlow.userHandle {σ : Type} (F : RegistrationFlow σ) (s : σ) (user : Bytes) :
    Except Error Bytes × σ :=
  match F.Identity.GetWebauthnLocalAuth s user with
  | .ok wla => (.ok wla.UserID, s)
  | .error err =>
    if !trace.IsNotFound err then (.error (trace.Wrap err), s)
    else
      match F.Identity.UpsertWebauthnLocalAuth s user (some { UserID := F.NewUserHandle }) with
      | (some err, s1) => (.error (trace.Wrap err), s1)
      | (none, s1) => (.ok F.NewUserHandle, s1)

/-- Modelled from the spec: the method `RegistrationFlow.Begin` is implemented in
`lib/auth/webauthn`, of which only the tests are at hand. It fails with
BadParameter ("user required") on an empty user, assembles a request with a
random challenge, the relying-party id and the user handle, persists the
session data under the user and a new session id, and returns the request. -/
def RegistrationFlow.Begin {σ : Type} (F : RegistrationFlow σ) (s : σ) (user : Bytes) :
    Except Error CredentialCreation × σ :=
  if user = [] then (.error (trace.BadParameter "user required" []), s)
  else
    match F.userHandle s user with
    | (.error err, s1) => (.error err, s1)
    | (.ok handle, s1) =>
      let sd : SessionData :=
        { Challenge := F.NewChallenge, UserId := handle, AllowCredentials := [] }
      match F.Identity.UpsertWebauthnSessionData s1 user F.SessionID (some sd) with
      | (some err, s2) => (.error (trace.Wrap err), s2)
      | (none, s2) =>
        (.ok { Challenge := F.NewChallenge, RelyingPartyID := F.RPID, UserID := handle }, s2)

/-- The device that `Finish` builds from a validated response: a WebAuthn device
with the credential of the response, a signature counter of zero, and an AAGUID
of 16 zero bytes when the authenticator supplies none. -/
def RegistrationFlow.newDevice {σ : Type} (F : RegistrationFlow σ) (deviceName : Bytes)
    (resp : CredentialCreationResponse) : MFADevice :=
  { Kind := [], Version := [],
    Metadata := { Name := deviceName, Namespace := [], Description := [] },
    Id := F.NewDeviceID, AddedAt := F.Now, LastUsed := F.Now,
    Device := .MFADevice_Webauthn
      { CredentialId := resp.CredentialId, PublicKeyCbor := resp.PublicKeyCbor,
        AttestationType := resp.AttestationType,
        Aaguid := resp.Aaguid.getD (List.replicate 16 0), SignatureCounter := 0 } }

/-- The validation of a signed response against the stored session data: `none`
when the response passes, the failure of the first check that does not, in the
order origin, relying-party id, challenge, signature. -/
def RegistrationFlow.validate {σ : Type} (F : RegistrationFlow σ) (sd : SessionData)
    (resp : CredentialCreationResponse) : Option Error :=
  if !F.ValidOrigin resp.Origin F.RPID then
    some ⟨ErrorKind.Other, "validating origin", []⟩
  else if resp.RPID ≠ F.RPID then
    some ⟨ErrorKind.Other, "validating authenticator response: relying party id", []⟩
  else if resp.Challenge ≠ sd.Challenge then
    some ⟨ErrorKind.Other, "validating challenge", []⟩
  else if !F.VerifySignature resp then
    some ⟨ErrorKind.Other, "validating authenticator response: signature", []⟩
  else none

/-- Modelled from the spec: the method `RegistrationFlow.Finish` is implemented in
`lib/auth/webauthn`, of which only the tests are at hand. Its preconditions are
checked in order, each a BadParameter failure ("user required", "device name
required", "response required"); it looks up the session data of the user,
validates the response against it, and on success builds the device, calls
`UpsertMFADevice`, deletes the session data and returns the device. -/
def RegistrationFlow.Finish {σ : Type} (F : RegistrationFlow σ) (s : σ)
    (user deviceName : Bytes) (resp : Option CredentialCreationResponse) :
    Except Error MFADevice × σ :=
  if user = [] then (.error (trace.BadParameter "user required" []), s)
  else if deviceName = [] then (.error (trace.BadParameter "device name required" []), s)
  else
    match resp with
    | none => (.error (trace.BadParameter "response required" []), s)
    | some resp =>
      match F.Identity.GetWebauthnSessionData s user F.SessionID with
      | .error err => (.error (trace.Wrap err), s)
      | .ok sd =>
        match F.validate sd resp with
        | some err => (.error err, s)
        | none =>
          match F.Identity.UpsertMFADevice s user (F.newDevice deviceName resp) with
          | (some err, s1) => (.error (trace.Wrap err), s1)
          | (none, s1) =>
            match F.Identity.DeleteWebauthnSessionData s1 user F.SessionID with
            | (some err, s2) => (.error (trace.Wrap err), s2)
            | (none, s2) => (.ok (F.newDevice deviceName resp), s2)

end webauthn

/-- The identity service over a backend, as the identity of a registration flow. -/
def IdentityService.registrationIdentity {σ : Type} (B : Backend σ) (N : SecretsLib)
    (S : SessionDataLib) (M : MFADeviceLib) (WebauthnChallengeTimeout : Nat) :
    webauthn.RegistrationIdentity σ where
  GetWebauthnLocalAuth := IdentityService.GetWebauthnLocalAuth B N
  UpsertWebauthnLocalAuth := IdentityService.UpsertWebauthnLocalAuth B N
  UpsertWebauthnSessionData := IdentityService.UpsertWebauthnSessionData B S WebauthnChallengeTimeout
  GetWebauthnSessionData := IdentityService.GetWebauthnSessionData B S
  DeleteWebauthnSessionData := IdentityService.DeleteWebauthnSessionData B
  UpsertMFADevice := IdentityService.UpsertMFADevice B M

/-! ## Properties of the devices of a user -/

/-- No two devices of the list share a credential id (a U2F key handle or a
WebAuthn credential id). -/
def credentialIDsUnique (devs : List MFADevice) : Prop :=
  devs.Pairwise (fun a b => getCredentialID a = none ∨ getCredentialID a ≠ getCredentialID b)

instance (devs : List MFADevice) : Decidable (credentialIDsUnique devs) :=
  inferInstanceAs (Decidable (List.Pairwise _ devs))

/-- No two devices of the list share a name. -/
def deviceNamesUnique (devs : List MFADevice) : Prop :=
  devs.Pairwise (fun a b => a.Metadata.Name ≠ b.Metadata.Name)

instance (devs : List MFADevice) : Decidable (deviceNamesUnique devs) :=
  inferInstanceAs (Decidable (List.Pairwise _ devs))

/-- Every record that decodes is stored under the key of the id of its device: the
store holds one record per device id, as `UpsertMFADevice` writes them. -/
def recordsKeyedByID (L : MFADeviceLib) (user : Bytes) (items : List Item) : Bool :=
  items.all (fun it =>
    match L.Unmarshal it.Value with
    | .ok dd => decide (it.Key = IdentityService.mfaDeviceKey user dd.Id)
    | .error _ => true)

/-- The records of the devices of `user` in the store, in key order. -/
def Store.mfaRecords (s : Store) (user : Bytes) : List Item :=
  s.range (Key [ webPrefix, usersPrefix, user, mfaDevicePrefix])
    (RangeEnd (Key [ webPrefix, usersPrefix, user, mfaDevicePrefix]))

/-- The writes `ops` hold the secrets of the bundle `auth` of `user`, each under a
key of its own: the password hash under the key of the password, and only
when it is not empty; the record of every device of the bundle, validated and
encoded, under the key of the device; and, when it is not nil, the encoded
WebAuthn local auth under its key. -/
def secretsWritten (N : SecretsLib) (M : MFADeviceLib) (user : Bytes) (auth : LocalAuthSecrets)
    (ops : List WriteOp) : Prop :=
  (auth.PasswordHash ≠ [] →
    WriteOp.Put ⟨Key [ webPrefix, usersPrefix, user, pwdPrefix], auth.PasswordHash, 0, 0⟩
      ∈ ops) ∧
  (auth.PasswordHash = [] →
    ∀ op ∈ ops, op.key? ≠ some (Key [ webPrefix, usersPrefix, user, pwdPrefix])) ∧
  (∀ d ∈ auth.MFA, ∃ d' v, M.CheckAndSetDefaults d = .ok d' ∧ M.Marshal d' = .ok v ∧
    WriteOp.Put ⟨IdentityService.mfaDeviceKey user d'.Id, v, 0, 0⟩ ∈ ops) ∧
  (∀ wla, auth.Webauthn = some wla → ∃ v, N.MarshalWebauthnLocalAuth wla = .ok v ∧
    WriteOp.Put ⟨IdentityService.webauthnLocalAuthKey user, v, 0, 0⟩ ∈ ops)

/-- The store at a later reading of the clock. -/
def Store.advance (s : Store) (elapsed : Nat) : Store := { s with now := s.now + elapsed }

/-- Whether `key` is a key of a record of `user`: it starts with the key of the
user and a separator. -/
def underUser (user key : Bytes) : Bool :=
  (Key [ webPrefix, usersPrefix, user] ++ [Separator]).isPrefixOf key

/-- The records of the recovery attempts of `user` in the store, in key order. -/
def Store.recoveryAttemptRecords (s : Store) (user : Bytes) : List Item :=
  s.range (Key [ webPrefix, usersPrefix, user, recoveryAttemptsPrefix])
    (RangeEnd (Key [ webPrefix, usersPrefix, user, recoveryAttemptsPrefix]))

/-! ## Example data -/

namespace Example

/-- A device record with the static fields set. -/
def mkDevice (id name : Bytes) (dev : isMFADevice_Device) : MFADevice :=
  { Kind := str "mfa_device", Version := str "v1",
    Metadata := { Name := name, Namespace := str "default", Description := [] },
    Id := id, AddedAt := 1, LastUsed := 1, Device := dev }

/-- A library whose codec is a finite table of encodings, and whose validation
asks for a device id and a device name. -/
def tableLib (table : List (Bytes × MFADevice)) : MFADeviceLib where
  CheckAndSetDefaults d :=
    if d.Id = [] then .error (trace.BadParameter "MFADevice missing ID" [])
    else if d.Metadata.Name = [] then .error (trace.BadParameter "missing parameter Name" [])
    else .ok d
  Marshal d :=
    match table.find? (fun e => decide (e.2 = d)) with
    | some e => .ok e.1
    | none => .error ⟨ErrorKind.Other, "json: unsupported value", []⟩
  Unmarshal v :=
    match table.find? (fun e => decide (e.1 = v)) with
    | some e => .ok e.2
    | none => .error ⟨ErrorKind.Other, "json: cannot unmarshal", []⟩

def alice : Bytes := str "alice"

def credential : Bytes := [1, 2, 3]

def webauthn1 : MFADevice :=
  mkDevice (str "id1") (str "key1")
    (.MFADevice_Webauthn ⟨credential, [4], str "none", List.replicate 16 0, 0⟩)

/-- Another device with the credential id of `webauthn1`. -/
def webauthn2 : MFADevice :=
  mkDevice (str "id2") (str "key2")
    (.MFADevice_Webauthn ⟨credential, [5], str "none", List.replicate 16 0, 0⟩)

/-- The device `webauthn1` under a new name. -/
def renamed1 : MFADevice :=
  mkDevice (str "id1") (str "renamed")
    (.MFADevice_Webauthn ⟨credential, [4], str "none", List.replicate 16 0, 0⟩)

/-- A U2F device whose key handle is the credential id of `webauthn1`. -/
def u2f3 : MFADevice :=
  mkDevice (str "id3") (str "key3") (.MFADevice_U2F ⟨credential, [6], 0⟩)

def totp4 : MFADevice :=
  mkDevice (str "id4") (str "otp") (.MFADevice_Totp ⟨[9, 9]⟩)

/-- A device with the name of `webauthn1` and another id. -/
def sameName5 : MFADevice :=
  mkDevice (str "id5") (str "key1") (.MFADevice_Totp ⟨[8]⟩)

/-- A device of a variant the code does not know. -/
def unknown6 : MFADevice :=
  mkDevice (str "id6") (str "future") (.other 7)

/-- A WebAuthn device with a credential id of its own. -/
def webauthn7 : MFADevice :=
  mkDevice (str "id7") (str "key7")
    (.MFADevice_Webauthn ⟨[7, 7], [4], str "none", List.replicate 16 0, 0⟩)

def table : List (Bytes × MFADevice) :=
  [([1], webauthn1), ([2], webauthn2), ([3], renamed1), ([4], u2f3), ([5], totp4),
    ([6], sameName5), ([7], unknown6), ([8], webauthn7)]

def lib : MFADeviceLib := tableLib table

/-- The record of a device of `alice`, as `UpsertMFADevice` writes it. -/
def record (id value : Bytes) : Item :=
  { Key := IdentityService.mfaDeviceKey alice id, Value := value, Expires := 0, ID := 0 }

/-- A store with the device `webauthn1` of `alice`. -/
def store1 : Store := { items := [record (str "id1") [1]], now := 100 }

/-- A store with the devices `webauthn1` and `totp4` of `alice`. -/
def store14 : Store := { items := [record (str "id4") [5], record (str "id1") [1]], now := 100 }

/-- A store with the devices `webauthn1` and `unknown6` of `alice`. -/
def store16 : Store := { items := [record (str "id6") [7], record (str "id1") [1]], now := 100 }

/-- The user `alice` as stored, with a bundle of secrets in the record. -/
def aliceUser (id expires : Nat) : User :=
  { Metadata := { Name := alice, Namespace := str "default", Description := [] },
    Roles := [str "admin"], Expires := expires, ResourceID := id,
    LocalAuth := some { PasswordHash := [1, 1], TOTPKey := [], MFA := [], Webauthn := none } }

/-- A user library that decodes the single encoding `[1]`, to `aliceUser`. -/
def userLib : UserLib where
  ValidateUser u :=
    if u.Metadata.Name = [] then .error (trace.BadParameter "missing user name" []) else .ok u
  MarshalUser u :=
    if u = (aliceUser u.ResourceID u.Expires).SetLocalAuth none then .ok [1]
    else .error ⟨ErrorKind.Other, "json: unsupported value", []⟩
  UnmarshalUser v id expires :=
    if v = [1] then .ok (aliceUser id expires)
    else .error ⟨ErrorKind.Other, "json: cannot unmarshal", []⟩
  userFromUserItems _ _ := .error ⟨ErrorKind.Other, "not supported", []⟩

/-- A session-data library with the single encoding `[1]`. -/
def sessionDataLib : SessionDataLib where
  Marshal _ := .ok [1]
  Unmarshal v :=
    if v = [1] then .ok { Challenge := [1], UserId := [2], AllowCredentials := [] }
    else .error ⟨ErrorKind.Other, "json: cannot unmarshal", []⟩

/-- A recovery-codes library with the single encoding `[1]`. -/
def recoveryCodesLib : RecoveryCodesLib where
  CheckAndSetDefaults rc := .ok rc
  Marshal _ := .ok [1]
  Unmarshal v :=
    if v = [1] then
      .ok { Kind := str "recovery_codes", Version := str "v1",
            Metadata := { Name := alice, Namespace := str "default", Description := [] },
            Spec := { Codes := [⟨[3], false⟩], Created := 1 } }
    else .error ⟨ErrorKind.Other, "json: cannot unmarshal", []⟩

/-- A store with the primary record of `alice`. -/
def storeUser : Store :=
  { items := [{ Key := Key [ webPrefix, usersPrefix, alice, paramsPrefix], Value := [1],
                Expires := 0, ID := 5 }],
    now := 100 }

/-- The error of a backend that cannot be reached. -/
def connectionProblem : Error := ⟨ErrorKind.ConnectionProblem, "connection problem", []⟩

/-- A backend that cannot be reached: every operation fails with a connection
problem. -/
def unavailable : Backend Unit where
  Get _ _ := .error connectionProblem
  GetRange _ _ _ _ := .error connectionProblem
  Put _ _ := .error connectionProblem
  Create _ _ := .error connectionProblem
  Update _ _ := .error connectionProblem
  Delete _ _ := .error connectionProblem
  DeleteRange _ _ _ := .error connectionProblem
  Now _ := 0

/-- A user with a name only. -/
def userNamed (name : Bytes) (id expires : Nat) : User :=
  { Metadata := { Name := name, Namespace := str "default", Description := [] },
    Roles := [], Expires := expires, ResourceID := id, LocalAuth := none }

/-- A password hash of the shape of a bcrypt hash: version, cost, salt and digest. -/
def bcryptHash : Bytes := str "$2a$10$N9qo8uLOickgx2ZMRZoMyeIjZAgcfl7p92ldGxad68LJZdL17lhWy"

/-- The check of a device of a bundle of secrets: an id, a name, the two times, and
a TOTP key or the credential of a U2F or WebAuthn device with its public key. -/
def validDevice (d : MFADevice) : Bool :=
  decide (d.Id ≠ []) && decide (d.Metadata.Name ≠ []) && decide (d.AddedAt ≠ 0) &&
    decide (d.LastUsed ≠ 0) &&
    match d.Device with
    | .MFADevice_Totp t => decide (t.Key ≠ [])
    | .MFADevice_U2F u => decide (u.KeyHandle ≠ []) && decide (u.PubKey ≠ [])
    | .MFADevice_Webauthn w => decide (w.CredentialId ≠ []) && decide (w.PublicKeyCbor ≠ [])
    | _ => false

/-- The check of a bundle of secrets, after `services.ValidateLocalAuthSecrets`: a
password hash, when there is one, has the shape of a bcrypt hash; every device
is valid; no two devices of the bundle have one name; the WebAuthn local auth,
when there is one, has a user handle. -/
def validateLocalAuthSecrets (auth : LocalAuthSecrets) : Option Error :=
  if auth.PasswordHash ≠ [] ∧
      ¬ (59 ≤ auth.PasswordHash.length ∧ (str "$2").isPrefixOf auth.PasswordHash = true) then
    some (trace.BadParameter "invalid password hash" [])
  else if auth.MFA.all validDevice = false then
    some (trace.BadParameter "MFA device is invalid" [])
  else if ¬ (auth.MFA.map (fun d => d.Metadata.Name)).Nodup then
    some (trace.BadParameter "MFA device named %q already exists" [])
  else
    match auth.Webauthn with
    | some wla =>
      if wla.UserID = [] then some (trace.BadParameter "missing UserID field" []) else none
    | none => none

/-- A user library whose encoding of a user is the name of the user; validation
asks for a name and, of a user with a bundle of secrets, for a valid bundle. -/
def namesLib : UserLib where
  ValidateUser u :=
    if u.Metadata.Name = [] then .error (trace.BadParameter "missing user name" [])
    else
      match u.LocalAuth with
      | none => .ok u
      | some auth =>
        match validateLocalAuthSecrets auth with
        | some err => .error err
        | none => .ok u
  MarshalUser u :=
    if u = userNamed u.Metadata.Name u.ResourceID u.Expires then .ok u.Metadata.Name
    else .error ⟨ErrorKind.Other, "json: unsupported value", []⟩
  UnmarshalUser v id expires :=
    if v = [] then .error ⟨ErrorKind.Other, "json: cannot unmarshal", []⟩
    else .ok (userNamed v id expires)
  userFromUserItems _ _ := .error ⟨ErrorKind.Other, "not supported", []⟩

/-- A library for the secrets of a user: the encoding of a WebAuthn local auth is
its user handle. -/
def secretsLib : SecretsLib where
  NewUser name :=
    if name = [] then .error (trace.BadParameter "missing user name" [])
    else .ok (userNamed name 0 0)
  CheckWebauthnLocalAuth wla :=
    if wla.UserID = [] then some (trace.BadParameter "missing UserID field" []) else none
  MarshalWebauthnLocalAuth wla := .ok wla.UserID
  UnmarshalWebauthnLocalAuth v := .ok { UserID := v }

/-- A session-data library whose encoding of session data is its challenge. -/
def challengeLib : SessionDataLib where
  Marshal sd :=
    if sd = { Challenge := sd.Challenge, UserId := [], AllowCredentials := [] } then
      .ok sd.Challenge
    else .error ⟨ErrorKind.Other, "json: unsupported value", []⟩
  Unmarshal v := .ok { Challenge := v, UserId := [], AllowCredentials := [] }

/-- A recovery-attempt library: the encoding of an attempt is its two times. -/
def attemptLib : RecoveryAttemptLib where
  Check a := if a.Time = 0 then some (trace.BadParameter "missing Time" []) else none
  Marshal a := .ok [a.Time, a.Expires]
  Unmarshal v :=
    match v with
    | [t, e] => .ok { Time := t, Expires := e }
    | _ => .error ⟨ErrorKind.Other, "json: cannot unmarshal", []⟩

/-- The primary record of a user, encoded by `namesLib`. -/
def primary (name : Bytes) : Item :=
  { Key := Key [ webPrefix, usersPrefix, name, paramsPrefix], Value := name, Expires := 0,
    ID := 0 }

/-- A store with the users `alice` and `alice2`. -/
def storeTwoUsers : Store := { items := [primary (str "alice2"), primary alice], now := 100 }

/-- The recovery codes of `alice`, as `recoveryCodesLib` decodes them. -/
def aliceCodes : RecoveryCodesV1 :=
  { Kind := str "recovery_codes", Version := str "v1",
    Metadata := { Name := alice, Namespace := str "default", Description := [] },
    Spec := { Codes := [⟨[3], false⟩], Created := 1 } }

/-- A store with the recovery codes of `alice`. -/
def storeCodes : Store :=
  { items := [{ Key := Key [ webPrefix, usersPrefix, alice, recoveryCodesPrefix],
                Value := [1], Expires := 0, ID := 0 }],
    now := 100 }

/-- An empty store. -/
def emptyStore : Store := { items := [], now := 100 }

/-- The user `bob` with a password hash and a device without a name. -/
def bob : User :=
  { userNamed (str "bob") 0 0 with
    LocalAuth := some { PasswordHash := [1, 1], TOTPKey := [],
                        MFA := [mkDevice (str "id9") [] (.MFADevice_Totp ⟨[8]⟩)],
                        Webauthn := none } }

/-- The user `carol` with a password hash, the device `webauthn1` and a WebAuthn
user handle. -/
def carol : User :=
  { userNamed (str "carol") 0 0 with
    LocalAuth := some { PasswordHash := bcryptHash, TOTPKey := [], MFA := [webauthn1],
                        Webauthn := some { UserID := [3, 3] } } }

/-- The user `alice` with two TOTP devices of different names; the second has the
name of the device `webauthn1`. -/
def aliceTwoDevices : User :=
  { userNamed alice 0 0 with
    LocalAuth := some { PasswordHash := [], TOTPKey := [], MFA := [totp4, sameName5],
                        Webauthn := none } }

/-- The user `erin` with a password hash and an expiry of 50, which is before the
reading 100 of the clock of the example stores. -/
def erin : User :=
  { userNamed (str "erin") 0 50 with
    LocalAuth := some { PasswordHash := bcryptHash, TOTPKey := [], MFA := [],
                        Webauthn := none } }

/-- The encoding of a list of recovery codes: of every code the flag of its use,
the length of its hash and the hash. -/
def encodeCodes : List RecoveryCode → Bytes
  | [] => []
  | c :: cs => (if c.IsUsed then 1 else 0) :: c.HashedCode.length :: c.HashedCode ++ encodeCodes cs

/-- The decoding of a list of recovery codes, with a bound on the number of codes. -/
def decodeCodes : Nat → Bytes → Option (List RecoveryCode)
  | _, [] => some []
  | 0, _ :: _ => none
  | _ + 1, [_] => none
  | fuel + 1, used :: n :: rest =>
    if n ≤ rest.length then
      (decodeCodes fuel (rest.drop n)).map
        (fun cs => ({ HashedCode := rest.take n, IsUsed := decide (used = 1) } : RecoveryCode) :: cs)
    else none

/-- The decoding of a record of recovery codes: the name, the time of creation and
the codes; the namespace of the metadata is not part of the encoding. -/
def decodeRecoveryCodes : Bytes → Except Error RecoveryCodesV1
  | [] => .error ⟨ErrorKind.Other, "json: cannot unmarshal", []⟩
  | n :: rest =>
    match rest.drop n with
    | [] => .error ⟨ErrorKind.Other, "json: cannot unmarshal", []⟩
    | created :: codes =>
      match decodeCodes codes.length codes with
      | none => .error ⟨ErrorKind.Other, "json: cannot unmarshal", []⟩
      | some cs =>
        .ok { Kind := str "recovery_codes", Version := str "v1",
              Metadata := { Name := rest.take n, Namespace := [], Description := [] },
              Spec := { Codes := cs, Created := created } }

/-- A recovery-codes library whose encoding holds the name, the time of creation
and the codes of a record, and not the namespace of its metadata; validation
sets the static fields and the namespace, and asks for a name, for codes and
for a time of creation. -/
def codesLib : RecoveryCodesLib where
  CheckAndSetDefaults rc :=
    if rc.Metadata.Name = [] then .error (trace.BadParameter "missing parameter Name" [])
    else if rc.Spec.Codes = [] then
      .error (trace.BadParameter "RecoveryCodes missing Codes field" [])
    else if rc.Spec.Created = 0 then
      .error (trace.BadParameter "RecoveryCodes missing Created field" [])
    else
      .ok { rc with Kind := str "recovery_codes", Version := str "v1",
                    Metadata := { rc.Metadata with Namespace := str "default" } }
  Marshal rc :=
    .ok (rc.Metadata.Name.length :: rc.Metadata.Name ++ rc.Spec.Created ::
      encodeCodes rc.Spec.Codes)
  Unmarshal := decodeRecoveryCodes

/-- Two recovery codes, the second used. -/
def twoCodes : List RecoveryCode := [⟨[3, 3], false⟩, ⟨[4], true⟩]

/-- The record of recovery codes that is passed for `alice`: the static fields and
the namespace are left to validation. -/
def passedCodes : RecoveryCodesV1 :=
  { Kind := [], Version := [],
    Metadata := { Name := alice, Namespace := [], Description := [] },
    Spec := { Codes := twoCodes, Created := 7 } }

/-- A store with three recovery attempts of `alice`, not in order of time. -/
def storeAttempts : Store :=
  { items :=
      [{ Key := Key [ webPrefix, usersPrefix, alice, recoveryAttemptsPrefix, str "a"],
         Value := [30, 0], Expires := 0, ID := 0 },
       { Key := Key [ webPrefix, usersPrefix, alice, recoveryAttemptsPrefix, str "b"],
         Value := [10, 0], Expires := 0, ID := 0 },
       { Key := Key [ webPrefix, usersPrefix, alice, recoveryAttemptsPrefix, str "c"],
         Value := [20, 0], Expires := 0, ID := 0 }],
    now := 100 }

/-- A registration flow over the identity service on the in-memory store. -/
def flow : webauthn.RegistrationFlow Store where
  RPID := str "localhost"
  Identity := IdentityService.registrationIdentity memory secretsLib challengeLib lib 300
  NewChallenge := [4, 2]
  SessionID := str "registration"
  NewUserHandle := [5, 5]
  NewDeviceID := str "id1"
  Now := 100
  ValidOrigin origin rpid := decide (origin = str "https://" ++ rpid)
  VerifySignature resp := decide (resp.Signature = resp.Challenge ++ resp.CredentialId)

/-- A session-data library: the encoding of session data without allowed
credentials is the length of its challenge, the challenge and the user id. -/
def sessionLib : SessionDataLib where
  Marshal sd :=
    if sd.AllowCredentials = [] then .ok (sd.Challenge.length :: sd.Challenge ++ sd.UserId)
    else .error ⟨ErrorKind.Other, "json: unsupported value", []⟩
  Unmarshal v :=
    match v with
    | [] => .error ⟨ErrorKind.Other, "json: cannot unmarshal", []⟩
    | n :: rest =>
      .ok { Challenge := rest.take n, UserId := rest.drop n, AllowCredentials := [] }

/-- The response of an authenticator to the challenge `[4, 2]` of `registration`. -/
def response : webauthn.CredentialCreationResponse :=
  { Origin := str "https://localhost", RPID := str "localhost", Challenge := [4, 2],
    CredentialId := credential, PublicKeyCbor := [4], AttestationType := str "none",
    Aaguid := none, Signature := [4, 2] ++ credential }

/-- The device that `registration` builds from `response` under the name
`webauthn1`. -/
def registered : MFADevice :=
  { Kind := [], Version := [],
    Metadata := { Name := str "webauthn1", Namespace := [], Description := [] },
    Id := str "id1", AddedAt := 100, LastUsed := 100,
    Device := .MFADevice_Webauthn ⟨credential, [4], str "none", List.replicate 16 0, 0⟩ }

/-- A registration flow over the identity service on the traced in-memory store. -/
def registration : webauthn.RegistrationFlow (Store × List WriteOp) where
  RPID := str "localhost"
  Identity := IdentityService.registrationIdentity memory.traced secretsLib sessionLib
    (tableLib [([9], registered)]) 300
  NewChallenge := [4, 2]
  SessionID := str "registration"
  NewUserHandle := [5, 5]
  NewDeviceID := str "id1"
  Now := 100
  ValidOrigin origin rpid := decide (origin = str "https://" ++ rpid)
  VerifySignature resp := decide (resp.Signature = resp.Challenge ++ resp.CredentialId)

/-- A user-items library that collects nothing. -/
def userItemsLib : UserItemsLib where
  collectUserItems _ := .ok []

/-- A store with the user `alice` and session data of `alice` under the session id
`params`, as `UpsertUser` and `UpsertWebauthnSessionData` write them. -/
def storeSessionParams : Store :=
  { items := [{ Key := sessionDataKey alice (str "params"), Value := [2, 4, 2, 5, 5],
                Expires := 400, ID := 0 },
              primary alice],
    now := 100 }

/-- A store with the device `webauthn1` of `alice` and the device `webauthn7` of
`bob`, each under the id of the device. -/
def storeAliceBob : Store :=
  { items := [{ Key := IdentityService.mfaDeviceKey (str "bob") (str "id7"), Value := [8],
                Expires := 0, ID := 0 },
              record (str "id1") [1]],
    now := 100 }

/-- A store with the devices `webauthn1` and `webauthn7` of `alice`. -/
def store17 : Store := { items := [record (str "id7") [8], record (str "id1") [1]], now := 100 }

end Example

/-! ## Order of keys and ranges -/

theorem bytesLt_irrefl (a : Bytes) : bytesLt a a = false := by
  induction a with
  | nil => rfl
  | cons x xs ih => simp [bytesLt, ih]

theorem bytesLt_asymm : ∀ (a b : Bytes), bytesLt a b = true → bytesLt b a = false
  | [], [], h => by simp [bytesLt] at h
  | [], _ :: _, _ => by simp [bytesLt]
  | _ :: _, [], h => by simp [bytesLt] at h
  | x :: xs, y :: ys, h => by
    simp only [bytesLt] at h ⊢
    by_cases h1 : x < y
    · have h2 : ¬ y < x := by omega
      simp [h2, h1]
    · by_cases h2 : y < x
      · simp [h1, h2] at h
      · simp only [h1, h2, if_false] at h ⊢
        exact bytesLt_asymm xs ys h

theorem bytesLt_trans : ∀ (a b c : Bytes), bytesLt a b = true → bytesLt b c = true →
    bytesLt a c = true
  | [], [], _, h, _ => by simp [bytesLt] at h
  | [], _ :: _, [], _, h => by simp [bytesLt] at h
  | [], _ :: _, _ :: _, _, _ => by simp [bytesLt]
  | _ :: _, [], _, h, _ => by simp [bytesLt] at h
  | _ :: _, _ :: _, [], _, h => by simp [bytesLt] at h
  | x :: xs, y :: ys, z :: zs, h, h' => by
    simp only [bytesLt] at h h' ⊢
    by_cases hxy : x < y
    · by_cases hyz : y < z
      · have : x < z := by omega
        simp [this]
      · by_cases hzy : z < y
        · simp [hyz, hzy] at h'
        · have : x < z := by omega
          simp [this]
    · by_cases hyx : y < x
      · simp [hxy, hyx] at h
      · simp only [hxy, hyx, if_false] at h
        have hxy' : x = y := by omega
        subst hxy'
        by_cases hxz : x < z
        · simp [hxz]
        · by_cases hzx : z < x
          · simp [hxz, hzx] at h'
          · simp only [hxz, hzx, if_false] at h' ⊢
            exact bytesLt_trans xs ys zs h h'

theorem bytesLt_connex : ∀ (a b : Bytes), bytesLt a b = false → bytesLt b a = false → a = b
  | [], [], _, _ => rfl
  | [], _ :: _, h, _ => by simp [bytesLt] at h
  | _ :: _, [], _, h => by simp [bytesLt] at h
  | x :: xs, y :: ys, h, h' => by
    simp only [bytesLt] at h h'
    by_cases hxy : x < y
    · simp [hxy] at h
    · by_cases hyx : y < x
      · simp [hyx] at h'
      · simp only [hxy, hyx, if_false] at h h'
        have hxy' : x = y := by omega
        rw [hxy', bytesLt_connex xs ys h h']

theorem bytesLe_total (a b : Bytes) : bytesLe a b = true ∨ bytesLe b a = true := by
  unfold bytesLe
  cases h : bytesLt b a with
  | false => left; rfl
  | true => right; simp [bytesLt_asymm b a h]

theorem bytesLe_trans (a b c : Bytes) (hab : bytesLe a b = true) (hbc : bytesLe b c = true) :
    bytesLe a c = true := by
  unfold bytesLe at *
  simp only [Bool.not_eq_true', Bool.not_eq_eq_eq_not, Bool.not_true] at *
  cases hca : bytesLt c a with
  | false => rfl
  | true =>
    cases hab' : bytesLt a b with
    | false =>
      have : a = b := bytesLt_connex a b hab' hab
      subst this
      rw [hca] at hbc
      exact absurd hbc (by decide)
    | true =>
      have := bytesLt_trans c a b hca hab'
      rw [this] at hbc
      exact absurd hbc (by decide)

instance keyLe_isTotal : IsTotal Item Store.keyLe := ⟨fun a b => bytesLe_total a.Key b.Key⟩

instance keyLe_isTrans : IsTrans Item Store.keyLe :=
  ⟨fun a b c hab hbc => bytesLe_trans a.Key b.Key c.Key hab hbc⟩

/-- The items of a range read of the store are sorted by key. -/
theorem Store.range_sorted (s : Store) (startKey endKey : Bytes) :
    (s.range startKey endKey).Sorted Store.keyLe :=
  List.sorted_insertionSort _ _

/-- The items of a range read are the live items of the store with a key in the range. -/
theorem Store.range_perm (s : Store) (startKey endKey : Bytes) :
    (s.range startKey endKey).Perm
      (s.items.filter (fun it => inRange startKey endKey it.Key && Store.live s.now it)) :=
  List.perm_insertionSort _ _

/-- A key lies in the range of a start key that ends in a byte below `0xff`
exactly when it starts with the start key. -/
theorem inRange_iff_isPrefix (c : Nat) : ∀ (p key : Bytes),
    inRange (p ++ [c]) (p ++ [c + 1]) key = true ↔ (p ++ [c]) <+: key
  | [], [] => by simp [inRange, bytesLe, bytesLt]
  | [], k :: t => by
    simp only [inRange, bytesLe, bytesLt, List.nil_append, Bool.and_eq_true,
      Bool.not_eq_true', List.cons_prefix_cons, List.nil_prefix, and_true]
    by_cases h1 : k < c
    · simp [h1]; omega
    · by_cases h2 : c < k
      · have h3 : ¬ k < c + 1 := by omega
        have h4 : c ≠ k := by omega
        cases t <;> simp [h1, h2, h3, h4, bytesLt]
      · have h3 : k < c + 1 := by omega
        have h4 : c = k := by omega
        cases t <;> simp [h1, h2, h3, h4, bytesLt]
  | a :: p, [] => by simp [inRange, bytesLe, bytesLt]
  | a :: p, k :: t => by
    have ih := inRange_iff_isPrefix c p t
    simp only [inRange, bytesLe, Bool.and_eq_true, Bool.not_eq_true'] at ih
    simp only [inRange, bytesLe, bytesLt, List.cons_append, Bool.and_eq_true,
      Bool.not_eq_true', List.cons_prefix_cons]
    by_cases h1 : k < a
    · have : a ≠ k := by omega
      simp [h1, this]
    · by_cases h2 : a < k
      · have : a ≠ k := by omega
        simp [h1, h2, this]
      · have : a = k := by omega
        simp [h1, h2, this, ih]

theorem RangeEnd_snoc (p : Bytes) (c : Nat) (hc : c < 255) :
    RangeEnd (p ++ [c]) = p ++ [c + 1] := by
  simp [RangeEnd, RangeEnd.go, hc]

/-! ## Keys of the device records -/

theorem Key_append (ps qs : List Bytes) : Key (ps ++ qs) = Key ps ++ Key qs := by
  induction ps with
  | nil => rfl
  | cons p ps ih => simp [Key, ih]

theorem mfaDeviceKey_eq (user id : Bytes) :
    IdentityService.mfaDeviceKey user id
      = Key [ webPrefix, usersPrefix, user, mfaDevicePrefix] ++ Separator :: id := by
  simp [IdentityService.mfaDeviceKey, Key]

theorem mfaDeviceKey_injective (user id id' : Bytes)
    (h : IdentityService.mfaDeviceKey user id = IdentityService.mfaDeviceKey user id') :
    id = id' := by
  rw [mfaDeviceKey_eq, mfaDeviceKey_eq] at h
  simpa using h

/-- The range read by `GetMFADevices` holds exactly the keys that start with the
device prefix of the user. -/
theorem mfa_inRange_iff (user key : Bytes) :
    inRange (Key [ webPrefix, usersPrefix, user, mfaDevicePrefix])
      (RangeEnd (Key [ webPrefix, usersPrefix, user, mfaDevicePrefix])) key = true
      ↔ Key [ webPrefix, usersPrefix, user, mfaDevicePrefix] <+: key := by
  have hk : Key [ webPrefix, usersPrefix, user, mfaDevicePrefix]
      = (Key [ webPrefix, usersPrefix, user] ++ [Separator, 109, 102]) ++ [97] := by
    have : mfaDevicePrefix = [109, 102, 97] := by decide
    simp [Key, this]
  rw [hk, RangeEnd_snoc _ 97 (by decide)]
  exact inRange_iff_isPrefix 97 _ key

theorem mfaDeviceKey_inRange (user id : Bytes) :
    inRange (Key [ webPrefix, usersPrefix, user, mfaDevicePrefix])
      (RangeEnd (Key [ webPrefix, usersPrefix, user, mfaDevicePrefix]))
      (IdentityService.mfaDeviceKey user id) = true := by
  rw [mfa_inRange_iff, mfaDeviceKey_eq]
  exact List.prefix_append _ _

/-! ## The uniqueness loop of `UpsertMFADevice` -/

open IdentityService

theorem getCredentialID_webauthn (d : MFADevice) (w : WebauthnDevice)
    (h : d.Device = .MFADevice_Webauthn w) : getCredentialID d = some w.CredentialId := by
  simp [getCredentialID, h]

theorem GetWebauthn_eq_none_iff (d : MFADevice) :
    d.GetWebauthn = none ↔ ∀ w, d.Device ≠ .MFADevice_Webauthn w := by
  unfold MFADevice.GetWebauthn
  cases d.Device <;> simp

/-- The loop passes exactly when every stored device with the name of `d` has the
id of `d`, and, for a WebAuthn `d`, no stored device of another name has the
credential id of `d`. -/
theorem UpsertMFADevice_loop_eq_none_iff (d : MFADevice) (devs : List MFADevice) :
    UpsertMFADevice.loop d devs = none ↔
      ∀ dd ∈ devs, (d.Metadata.Name = dd.Metadata.Name → d.Id = dd.Id) ∧
        (d.Metadata.Name ≠ dd.Metadata.Name → ∀ w, d.Device = .MFADevice_Webauthn w →
          getCredentialID dd ≠ some w.CredentialId) := by
  induction devs with
  | nil => simp [UpsertMFADevice.loop]
  | cons dd devs ih =>
    rw [List.forall_mem_cons, ← ih]
    simp only [UpsertMFADevice.loop]
    by_cases hn : d.Metadata.Name = dd.Metadata.Name
    · by_cases hi : d.Id = dd.Id
      · simp [hn, hi]
      · simp [hn, hi]
    · simp only [hn, false_and, if_false, not_false_eq_true, true_implies, false_implies,
        true_and, ne_eq]
      cases hd : d.Device with
      | MFADevice_Webauthn w =>
        have hw : d.GetWebauthn ≠ none := by simp [MFADevice.GetWebauthn, hd]
        have hc : getCredentialID d = some w.CredentialId := getCredentialID_webauthn d w hd
        simp only [hw, if_false, hc]
        cases hcc : getCredentialID dd with
        | none => simp
        | some c =>
          by_cases hcw : w.CredentialId = c
          · simp [hcw]
          · have hcw' : c ≠ w.CredentialId := fun h => hcw h.symm
            simp [hcw, hcw']
      | nil => simp [MFADevice.GetWebauthn, hd]
      | MFADevice_Totp t => simp [MFADevice.GetWebauthn, hd]
      | MFADevice_U2F u => simp [MFADevice.GetWebauthn, hd]
      | other tag => simp [MFADevice.GetWebauthn, hd]

/-- Every error of the loop is an AlreadyExists error. -/
theorem UpsertMFADevice_loop_error_kind (d : MFADevice) (devs : List MFADevice) (err : Error)
    (h : UpsertMFADevice.loop d devs = some err) : err.kind = ErrorKind.AlreadyExists := by
  induction devs with
  | nil => simp [UpsertMFADevice.loop] at h
  | cons dd devs ih =>
    unfold UpsertMFADevice.loop at h
    split_ifs at h with h1 h2 h3
    · exact ih h
    · simp only [Option.some.injEq] at h
      rw [← h]; rfl
    · exact ih h
    · split at h
      · exact ih h
      · split at h
        · exact ih h
        · split_ifs at h with h4
          · simp only [Option.some.injEq] at h
            rw [← h]; rfl
          · exact ih h

/-- The error of the loop about a credential id is raised for a WebAuthn device
against a stored device of another name with the same credential id. -/
theorem UpsertMFADevice_loop_credential_error (d : MFADevice) (devs : List MFADevice)
    (err : Error) (h : UpsertMFADevice.loop d devs = some err)
    (hmsg : err.message = "credential ID already in use by device %q") :
    ∃ w, d.Device = .MFADevice_Webauthn w ∧
      ∃ dd ∈ devs, d.Metadata.Name ≠ dd.Metadata.Name ∧
        getCredentialID dd = some w.CredentialId := by
  induction devs with
  | nil => simp [UpsertMFADevice.loop] at h
  | cons dd devs ih =>
    have step : (UpsertMFADevice.loop d devs = some err) →
        ∃ w, d.Device = .MFADevice_Webauthn w ∧
          ∃ dd' ∈ dd :: devs, d.Metadata.Name ≠ dd'.Metadata.Name ∧
            getCredentialID dd' = some w.CredentialId := by
      intro h'
      obtain ⟨w, hw, dd', hmem, hr⟩ := ih h'
      exact ⟨w, hw, dd', List.mem_cons_of_mem _ hmem, hr⟩
    unfold UpsertMFADevice.loop at h
    split_ifs at h with h1 h2 h3
    · exact step h
    · simp only [Option.some.injEq] at h
      rw [← h] at hmsg
      simp [trace.AlreadyExists] at hmsg
    · exact step h
    · split at h
      · exact step h
      · rename_i id1 hid1
        split at h
        · exact step h
        · rename_i id2 hid2
          split_ifs at h with h4
          · have hn : d.Metadata.Name ≠ dd.Metadata.Name := by
              intro hn
              by_cases hi : d.Id = dd.Id
              · exact h1 ⟨hn, hi⟩
              · exact h2 ⟨hn, hi⟩
            cases hd : d.Device with
            | MFADevice_Webauthn w =>
              refine ⟨w, rfl, dd, List.mem_cons_self _ _, hn, ?_⟩
              rw [getCredentialID_webauthn d w hd] at hid1
              simp only [Option.some.injEq] at hid1
              rw [hid2, hid1, h4]
            | nil => simp [MFADevice.GetWebauthn, hd] at h3
            | MFADevice_Totp t => simp [MFADevice.GetWebauthn, hd] at h3
            | MFADevice_U2F u => simp [MFADevice.GetWebauthn, hd] at h3
            | other tag => simp [MFADevice.GetWebauthn, hd] at h3
          · exact step h

/-! ## The listing loop of `GetMFADevices` -/

theorem GetMFADevices_loop_ok_iff (L : MFADeviceLib) (withSecrets : Bool) (items : List Item)
    (devs : List MFADevice) :
    GetMFADevices.loop L withSecrets items = .ok devs ↔
      List.Forall₂ (fun it d => GetMFADevices.body L withSecrets it = .ok d) items devs := by
  induction items generalizing devs with
  | nil =>
    simp only [GetMFADevices.loop, List.forall₂_nil_left_iff]
    constructor
    · intro h; injection h with h; exact h.symm
    · intro h; rw [h]
  | cons it items ih =>
    simp only [GetMFADevices.loop, List.forall₂_cons_left_iff]
    cases hb : GetMFADevices.body L withSecrets it with
    | error e => simp
    | ok d =>
      cases hl : GetMFADevices.loop L withSecrets items with
      | error e =>
        simp only [false_iff, reduceCtorEq]
        rintro ⟨b, u, -, hu, -⟩
        rw [hl] at ih
        exact absurd ((ih u).2 hu) (by simp)
      | ok ds =>
        simp only [Except.ok.injEq]
        constructor
        · intro h
          exact ⟨d, ds, rfl, (ih ds).1 hl, h.symm⟩
        · rintro ⟨b, u, hb', hu, rfl⟩
          rw [hl] at ih
          have := (ih u).2 hu
          simp only [Except.ok.injEq] at this
          rw [hb', this]

theorem forall₂_filter_sublist {α β : Type} (R : α → β → Prop) (q : α → Bool) :
    ∀ (l : List α) (ds : List β), List.Forall₂ R l ds →
      ∃ ds₁, List.Forall₂ R (l.filter q) ds₁ ∧ ds₁.Sublist ds
  | [], _, h => by
    cases h
    exact ⟨[], List.Forall₂.nil, List.Sublist.refl _⟩
  | x :: l, _, h => by
    cases h with
    | cons hx hl =>
      rename_i d ds
      obtain ⟨ds₁, h1, h2⟩ := forall₂_filter_sublist R q l ds hl
      by_cases hq : q x = true
      · exact ⟨d :: ds₁, by simpa [List.filter, hq] using List.Forall₂.cons hx h1, h2.cons₂ _⟩
      · exact ⟨ds₁, by simpa [List.filter, hq] using h1, h2.cons _⟩

theorem forall₂_mem_right {α β : Type} (R : α → β → Prop) :
    ∀ (l : List α) (ds : List β), List.Forall₂ R l ds → ∀ d ∈ ds, ∃ x ∈ l, R x d
  | _, _, .nil, d, hd => by simp at hd
  | _, _, .cons hx hl, d, hd => by
    rename_i x d0 l ds
    rcases List.mem_cons.1 hd with rfl | hd
    · exact ⟨x, List.mem_cons_self _ _, hx⟩
    · obtain ⟨y, hy, hr⟩ := forall₂_mem_right R l ds hl d hd
      exact ⟨y, List.mem_cons_of_mem _ hy, hr⟩

/-- The listing of the items that remain after the record at `key` is removed: it
succeeds and returns, up to order, devices listed before, each from a record at
another key. -/
theorem GetMFADevices_loop_erase (L : MFADeviceLib) (withSecrets : Bool)
    (items items' : List Item) (devs : List MFADevice) (key : Bytes)
    (h : GetMFADevices.loop L withSecrets items = .ok devs)
    (hp : items'.Perm (Store.erase items key)) :
    ∃ devs' rest, GetMFADevices.loop L withSecrets items' = .ok devs' ∧ devs'.Perm rest ∧
      rest.Sublist devs ∧
      ∀ d ∈ rest, ∃ it ∈ items, it.Key ≠ key ∧ GetMFADevices.body L withSecrets it = .ok d := by
  rw [GetMFADevices_loop_ok_iff] at h
  obtain ⟨rest, hrest, hsub⟩ := forall₂_filter_sublist _ (fun it => !decide (it.Key = key)) _ _ h
  obtain ⟨devs', hdevs', hperm⟩ := List.perm_comp_forall₂ hp hrest
  refine ⟨devs', rest, (GetMFADevices_loop_ok_iff _ _ _ _).2 hdevs', hperm, hsub, ?_⟩
  intro d hd
  obtain ⟨it, hit, hr⟩ := forall₂_mem_right _ _ _ hrest d hd
  rw [List.mem_filter] at hit
  exact ⟨it, hit.1, by simpa using hit.2, hr⟩

/-- The listing after the record `item` replaces the record at its key. -/
theorem GetMFADevices_loop_put (L : MFADeviceLib) (withSecrets : Bool)
    (items items' : List Item) (devs : List MFADevice) (item : Item) (d1 : MFADevice)
    (h : GetMFADevices.loop L withSecrets items = .ok devs)
    (h1 : GetMFADevices.body L withSecrets item = .ok d1)
    (hp : items'.Perm (item :: Store.erase items item.Key)) :
    ∃ devs' rest, GetMFADevices.loop L withSecrets items' = .ok devs' ∧
      devs'.Perm (d1 :: rest) ∧ rest.Sublist devs ∧
      ∀ d ∈ rest, ∃ it ∈ items, it.Key ≠ item.Key ∧
        GetMFADevices.body L withSecrets it = .ok d := by
  rw [GetMFADevices_loop_ok_iff] at h
  obtain ⟨rest, hrest, hsub⟩ :=
    forall₂_filter_sublist _ (fun it => !decide (it.Key = item.Key)) _ _ h
  obtain ⟨devs', hdevs', hperm⟩ := List.perm_comp_forall₂ hp (List.Forall₂.cons h1 hrest)
  refine ⟨devs', rest, (GetMFADevices_loop_ok_iff _ _ _ _).2 hdevs', hperm, hsub, ?_⟩
  intro d hd
  obtain ⟨it, hit, hr⟩ := forall₂_mem_right _ _ _ hrest d hd
  rw [List.mem_filter] at hit
  exact ⟨it, hit.1, by simpa using hit.2, hr⟩

/-! ## Range reads of the in-memory store after a write -/

theorem Store.erase_filter (p : Item → Bool) (items : List Item) (key : Bytes) :
    (Store.erase items key).filter p = Store.erase (items.filter p) key := by
  simp only [Store.erase, List.filter_filter]
  congr 1
  funext it
  exact Bool.and_comm _ _

theorem Store.range_erase (s : Store) (startKey endKey key : Bytes) :
    (Store.range { s with items := Store.erase s.items key } startKey endKey).Perm
      (Store.erase (s.range startKey endKey) key) := by
  refine (Store.range_perm _ _ _).trans ?_
  simp only [Store.erase_filter]
  exact ((Store.range_perm s startKey endKey).filter _).symm

theorem Store.range_put (s : Store) (startKey endKey : Bytes) (item : Item)
    (hr : inRange startKey endKey item.Key = true) (he : item.Expires = 0) :
    (Store.range { s with items := item :: Store.erase s.items item.Key } startKey endKey).Perm
      (item :: Store.erase (s.range startKey endKey) item.Key) := by
  refine (Store.range_perm _ _ _).trans ?_
  have hl : Store.live s.now item = true := by simp [Store.live, he]
  simp only [List.filter_cons, hr, hl, Bool.and_self, if_true, Store.erase_filter]
  exact List.Perm.cons _ ((Store.range_perm s startKey endKey).filter _).symm

/-! ## Uniqueness of device names and credential ids -/

/-- The result of `UpsertMFADevice` once validation and listing have succeeded. -/
theorem UpsertMFADevice_of_listed {σ : Type} (B : Backend σ) (L : MFADeviceLib) (s : σ)
    (user : Bytes) (d d' : MFADevice) (devs : List MFADevice) (huser : user ≠ [])
    (hvalid : L.CheckAndSetDefaults d = .ok d')
    (hdevs : GetMFADevices B L s user false = .ok devs) :
    UpsertMFADevice B L s user d =
      match UpsertMFADevice.loop d' devs with
      | some err => (some err, s)
      | none =>
        match L.Marshal d' with
        | .error err => (some (trace.Wrap err), s)
        | .ok value =>
          match B.Put s
            { Key := mfaDeviceKey user d'.Id, Value := value, Expires := 0, ID := 0 } with
          | .error err => (some (trace.Wrap err), s)
          | .ok s' => (none, s') := by
  simp only [UpsertMFADevice, huser, if_false, hvalid, hdevs]

/-- C1: for a non-empty user and a device `d` that passes validation (`d'` is `d`
with its defaults set), if the devices stored for the user are all listed
(decodable, of a recognised variant) and one of them has the name of the device
and another device id, then `UpsertMFADevice` fails with an AlreadyExists error. -/
theorem UpsertMFADevice_same_name_other_id_AlreadyExists {σ : Type} (B : Backend σ)
    (L : MFADeviceLib) (s : σ) (user : Bytes) (d d' : MFADevice) (devs : List MFADevice)
    (huser : user ≠ []) (hvalid : L.CheckAndSetDefaults d = .ok d')
    (hdevs : GetMFADevices B L s user false = .ok devs)
    (hdup : ∃ dd ∈ devs, dd.Metadata.Name = d'.Metadata.Name ∧ dd.Id ≠ d'.Id) :
    ∃ err, (UpsertMFADevice B L s user d).1 = some err ∧
      err.kind = ErrorKind.AlreadyExists := by
  rw [UpsertMFADevice_of_listed B L s user d d' devs huser hvalid hdevs]
  cases hl : UpsertMFADevice.loop d' devs with
  | some err => exact ⟨err, rfl, UpsertMFADevice_loop_error_kind d' devs err hl⟩
  | none =>
    obtain ⟨dd, hmem, hname, hid⟩ := hdup
    have := ((UpsertMFADevice_loop_eq_none_iff d' devs).1 hl dd hmem).1 hname.symm
    exact absurd this.symm hid

/-- Witness of C1: `alice` holds `webauthn1`, named `key1`; a device of another id
with that name is refused. -/
theorem UpsertMFADevice_same_name_other_id_witness :
    ∃ err, (UpsertMFADevice memory Example.lib Example.store1 Example.alice
        Example.sameName5).1 = some err ∧ err.kind = ErrorKind.AlreadyExists :=
  UpsertMFADevice_same_name_other_id_AlreadyExists memory Example.lib Example.store1
    Example.alice Example.sameName5 Example.sameName5 [Example.webauthn1]
    (by decide) (by decide) (by decide) ⟨Example.webauthn1, by decide, by decide, by decide⟩

/-- C2: for a non-empty user and a valid WebAuthn device (`d'` is the device with
its defaults set, `w` its WebAuthn payload), if the listed devices of the user
include a U2F or WebAuthn device of another device id whose key handle or
credential id equals the credential id of the device, then `UpsertMFADevice`
fails with an AlreadyExists error. -/
theorem UpsertMFADevice_same_credential_AlreadyExists {σ : Type} (B : Backend σ)
    (L : MFADeviceLib) (s : σ) (user : Bytes) (d d' : MFADevice) (w : WebauthnDevice)
    (devs : List MFADevice) (huser : user ≠ [])
    (hvalid : L.CheckAndSetDefaults d = .ok d') (hw : d'.Device = .MFADevice_Webauthn w)
    (hdevs : GetMFADevices B L s user false = .ok devs)
    (hdup : ∃ dd ∈ devs, dd.Id ≠ d'.Id ∧
      ((∃ u, dd.Device = .MFADevice_U2F u ∧ u.KeyHandle = w.CredentialId) ∨
        (∃ w2, dd.Device = .MFADevice_Webauthn w2 ∧ w2.CredentialId = w.CredentialId))) :
    ∃ err, (UpsertMFADevice B L s user d).1 = some err ∧
      err.kind = ErrorKind.AlreadyExists := by
  rw [UpsertMFADevice_of_listed B L s user d d' devs huser hvalid hdevs]
  cases hl : UpsertMFADevice.loop d' devs with
  | some err => exact ⟨err, rfl, UpsertMFADevice_loop_error_kind d' devs err hl⟩
  | none =>
    exfalso
    obtain ⟨dd, hmem, hid, hcred⟩ := hdup
    have hpass := (UpsertMFADevice_loop_eq_none_iff d' devs).1 hl dd hmem
    have hc : getCredentialID dd = some w.CredentialId := by
      rcases hcred with ⟨u, hu, hk⟩ | ⟨w2, hw2, hk⟩
      · simp [getCredentialID, hu, hk]
      · simp [getCredentialID, hw2, hk]
    by_cases hname : d'.Metadata.Name = dd.Metadata.Name
    · exact hid (hpass.1 hname).symm
    · exact hpass.2 hname w hw hc

/-- Witness of C2: `alice` holds `webauthn1`; the device `webauthn2`, of another id
and name and with the same credential id, is refused. -/
theorem UpsertMFADevice_same_credential_witness :
    ∃ err, (UpsertMFADevice memory Example.lib Example.store1 Example.alice
        Example.webauthn2).1 = some err ∧ err.kind = ErrorKind.AlreadyExists :=
  UpsertMFADevice_same_credential_AlreadyExists memory Example.lib Example.store1
    Example.alice Example.webauthn2 Example.webauthn2
    ⟨Example.credential, [5], str "none", List.replicate 16 0, 0⟩ [Example.webauthn1]
    (by decide) (by decide) (by decide) (by decide)
    ⟨Example.webauthn1, by decide, by decide,
      Or.inr ⟨⟨Example.credential, [4], str "none", List.replicate 16 0, 0⟩,
        by decide, by decide⟩⟩

/-! ## The devices listed after a successful `UpsertMFADevice` -/

theorem GetMFADevices_memory (L : MFADeviceLib) (s : Store) (user : Bytes)
    (withSecrets : Bool) (huser : user ≠ []) :
    GetMFADevices memory L s user withSecrets
      = GetMFADevices.loop L withSecrets (s.mfaRecords user) := by
  simp [GetMFADevices, huser, memory, Store.getRange, NoLimit, Store.mfaRecords]

theorem GetMFADevices_user_ne_nil {σ : Type} (B : Backend σ) (L : MFADeviceLib) (s : σ)
    (user : Bytes) (withSecrets : Bool) (devs : List MFADevice)
    (h : GetMFADevices B L s user withSecrets = .ok devs) : user ≠ [] := by
  intro hu
  simp [GetMFADevices, hu] at h

theorem GetMFADevices_strip_fields (withSecrets : Bool) (d0 d : MFADevice)
    (h : GetMFADevices.strip withSecrets d0 = .ok d) :
    d.Id = d0.Id ∧ d.Metadata = d0.Metadata ∧ getCredentialID d = getCredentialID d0 := by
  unfold GetMFADevices.strip at h
  split_ifs at h
  · split at h
    · rename_i t ht
      injection h with h
      subst h
      simp [getCredentialID, ht]
    · injection h with h; subst h; exact ⟨rfl, rfl, rfl⟩
    · injection h with h; subst h; exact ⟨rfl, rfl, rfl⟩
    · exact absurd h (by simp)
  · injection h with h; subst h; exact ⟨rfl, rfl, rfl⟩

theorem GetMFADevices_body_ok (L : MFADeviceLib) (withSecrets : Bool) (it : Item)
    (d : MFADevice) (h : GetMFADevices.body L withSecrets it = .ok d) :
    ∃ d0, L.Unmarshal it.Value = .ok d0 ∧ GetMFADevices.strip withSecrets d0 = .ok d := by
  unfold GetMFADevices.body at h
  split at h
  · exact absurd h (by simp)
  · rename_i d0 hd0
    exact ⟨d0, hd0, h⟩

theorem recordsKeyedByID_key (L : MFADeviceLib) (user : Bytes) (items : List Item)
    (h : recordsKeyedByID L user items = true) (it : Item) (hit : it ∈ items)
    (d0 : MFADevice) (hd0 : L.Unmarshal it.Value = .ok d0) :
    it.Key = mfaDeviceKey user d0.Id := by
  unfold recordsKeyedByID at h
  rw [List.all_eq_true] at h
  have := h it hit
  simpa [hd0] using this

/-- What a successful `UpsertMFADevice` leaves in the in-memory store: the record
of the device replaces the record at its key, and the devices listed afterwards
are, up to order, the device itself (stripped) and devices listed before, each
from a record at another key. -/
theorem UpsertMFADevice_memory_success (L : MFADeviceLib) (s s' : Store) (user : Bytes)
    (d d' d1 : MFADevice) (devs : List MFADevice)
    (hvalid : L.CheckAndSetDefaults d = .ok d')
    (hstrip : GetMFADevices.strip false d' = .ok d1)
    (hcodec : ∀ v, L.Marshal d' = .ok v → L.Unmarshal v = .ok d')
    (hdevs : GetMFADevices memory L s user false = .ok devs)
    (hok : UpsertMFADevice memory L s user d = (none, s')) :
    UpsertMFADevice.loop d' devs = none ∧
    (∃ v, L.Marshal d' = .ok v ∧
      s' = { s with items := (⟨mfaDeviceKey user d'.Id, v, 0, 0⟩ ::
        Store.erase s.items (mfaDeviceKey user d'.Id)) }) ∧
    ∃ devs' rest, GetMFADevices memory L s' user false = .ok devs' ∧
      devs'.Perm (d1 :: rest) ∧ rest.Sublist devs ∧
      ∀ dd ∈ rest, ∃ it ∈ s.mfaRecords user, it.Key ≠ mfaDeviceKey user d'.Id ∧
        GetMFADevices.body L false it = .ok dd := by
  have huser := GetMFADevices_user_ne_nil memory L s user false devs hdevs
  rw [UpsertMFADevice_of_listed memory L s user d d' devs huser hvalid hdevs] at hok
  cases hl : UpsertMFADevice.loop d' devs with
  | some err => simp [hl] at hok
  | none =>
    simp only [hl] at hok
    cases hm : L.Marshal d' with
    | error err => simp [hm] at hok
    | ok v =>
      simp only [hm, memory, Store.put, Prod.mk.injEq, true_and] at hok
      refine ⟨rfl, ⟨v, rfl, hok.symm⟩, ?_⟩
      rw [GetMFADevices_memory L s user false huser] at hdevs
      have hbody : GetMFADevices.body L false ⟨mfaDeviceKey user d'.Id, v, 0, 0⟩ = .ok d1 := by
        simp [GetMFADevices.body, hcodec v hm, hstrip]
      obtain ⟨devs', rest, h1, h2, h3, h4⟩ :=
        GetMFADevices_loop_put L false (s.mfaRecords user) (s'.mfaRecords user) devs
          ⟨mfaDeviceKey user d'.Id, v, 0, 0⟩ d1 hdevs hbody (by
            rw [← hok]
            exact Store.range_put s _ _ _ (mfaDeviceKey_inRange user d'.Id) rfl)
      refine ⟨devs', rest, ?_, h2, h3, h4⟩
      rw [GetMFADevices_memory L s' user false huser]
      exact h1

theorem GetMFADevices_strip_of_recognised (d : MFADevice)
    (h : d.Device.recognised = true) : ∃ d1, GetMFADevices.strip false d = .ok d1 := by
  unfold GetMFADevices.strip
  cases hd : d.Device with
  | MFADevice_Totp t => exact ⟨_, rfl⟩
  | MFADevice_U2F u => exact ⟨_, rfl⟩
  | MFADevice_Webauthn w => exact ⟨_, rfl⟩
  | nil => simp [hd, isMFADevice_Device.recognised] at h
  | other tag => simp [hd, isMFADevice_Device.recognised] at h

theorem UpsertMFADevice_ok_listed {σ : Type} (B : Backend σ) (L : MFADeviceLib) (s s' : σ)
    (user : Bytes) (d : MFADevice) (hok : UpsertMFADevice B L s user d = (none, s')) :
    ∃ devs, GetMFADevices B L s user false = .ok devs := by
  unfold UpsertMFADevice at hok
  split_ifs at hok with hu
  · simp at hok
  · split at hok
    · simp at hok
    · cases hg : GetMFADevices B L s user false with
      | error e => simp [hg] at hok
      | ok devs => exact ⟨devs, rfl⟩

theorem credentialIDs_rel_symm {a b : MFADevice}
    (h : getCredentialID a = none ∨ getCredentialID a ≠ getCredentialID b) :
    getCredentialID b = none ∨ getCredentialID b ≠ getCredentialID a := by
  rcases h with h | h
  · by_cases hb : getCredentialID b = none
    · exact Or.inl hb
    · exact Or.inr (by rw [h]; exact hb)
  · exact Or.inr (fun h' => h h'.symm)

/-- The devices of other records than the one written have another device id,
when the records are keyed by device id. -/
theorem other_record_other_id (L : MFADeviceLib) (user id : Bytes) (items : List Item)
    (hkeys : recordsKeyedByID L user items = true) (dd : MFADevice)
    (h : ∃ it ∈ items, it.Key ≠ mfaDeviceKey user id ∧ GetMFADevices.body L false it = .ok dd) :
    dd.Id ≠ id := by
  obtain ⟨it, hit, hkey, hbody⟩ := h
  obtain ⟨d0, hd0, hs⟩ := GetMFADevices_body_ok L false it dd hbody
  have hk := recordsKeyedByID_key L user items hkeys it hit d0 hd0
  rw [(GetMFADevices_strip_fields false d0 dd hs).1]
  intro hid
  rw [hk, hid] at hkey
  exact hkey rfl

/-- Counterexample to C3 as stated: `alice` holds the WebAuthn device `webauthn1`;
a U2F device of another name and id whose key handle is the credential id of
`webauthn1` is accepted, and the two listed devices then share a credential id. -/
theorem UpsertMFADevice_U2F_shares_credential :
    GetMFADevices memory Example.lib Example.store1 Example.alice false
        = .ok [Example.webauthn1] ∧
      credentialIDsUnique [Example.webauthn1] ∧
      (UpsertMFADevice memory Example.lib Example.store1 Example.alice Example.u2f3).1 = none ∧
      GetMFADevices memory Example.lib
          (UpsertMFADevice memory Example.lib Example.store1 Example.alice Example.u2f3).2
          Example.alice false = .ok [Example.webauthn1, Example.u2f3] ∧
      ¬ credentialIDsUnique [Example.webauthn1, Example.u2f3] := by
  decide

/-- C3, amended: over the in-memory store, when every record of the user is stored
under the key of its device id and no two listed devices share a credential id,
a successful `UpsertMFADevice` of a TOTP or WebAuthn device (`d'` is the device
with its defaults set, and decodes from its encoding) leaves a store whose
devices are listed and of which no two share a credential id. -/
theorem UpsertMFADevice_keeps_credentialIDs_unique (L : MFADeviceLib) (s s' : Store)
    (user : Bytes) (d d' : MFADevice) (devs : List MFADevice)
    (hvalid : L.CheckAndSetDefaults d = .ok d')
    (hkind : (∃ t, d'.Device = .MFADevice_Totp t) ∨ (∃ w, d'.Device = .MFADevice_Webauthn w))
    (hcodec : ∀ v, L.Marshal d' = .ok v → L.Unmarshal v = .ok d')
    (hdevs : GetMFADevices memory L s user false = .ok devs)
    (hkeys : recordsKeyedByID L user (s.mfaRecords user) = true)
    (huniq : credentialIDsUnique devs)
    (hok : UpsertMFADevice memory L s user d = (none, s')) :
    ∃ devs', GetMFADevices memory L s' user false = .ok devs' ∧ credentialIDsUnique devs' := by
  have hrec : d'.Device.recognised = true := by
    rcases hkind with ⟨t, ht⟩ | ⟨w, hw⟩
    · simp [ht, isMFADevice_Device.recognised]
    · simp [hw, isMFADevice_Device.recognised]
  obtain ⟨d1, hstrip⟩ := GetMFADevices_strip_of_recognised d' hrec
  obtain ⟨hloop, -, devs', rest, hlist, hperm, hsub, hrest⟩ :=
    UpsertMFADevice_memory_success L s s' user d d' d1 devs hvalid hstrip hcodec hdevs hok
  refine ⟨devs', hlist, ?_⟩
  unfold credentialIDsUnique at huniq ⊢
  rw [hperm.pairwise_iff credentialIDs_rel_symm, List.pairwise_cons]
  refine ⟨?_, huniq.sublist hsub⟩
  intro dd hdd
  have hfields := GetMFADevices_strip_fields false d' d1 hstrip
  rw [hfields.2.2]
  rcases hkind with ⟨t, ht⟩ | ⟨w, hw⟩
  · left
    simp [getCredentialID, ht]
  · right
    have hid : dd.Id ≠ d'.Id :=
      other_record_other_id L user d'.Id (s.mfaRecords user) hkeys dd (hrest dd hdd)
    have hpass := (UpsertMFADevice_loop_eq_none_iff d' devs).1 hloop dd (hsub.subset hdd)
    have hname : d'.Metadata.Name ≠ dd.Metadata.Name := fun hn => hid (hpass.1 hn).symm
    rw [getCredentialID_webauthn d' w hw]
    exact fun h => hpass.2 hname w hw h.symm

/-- Witness of C3, amended: `alice` holds `webauthn1` and enrolls the WebAuthn
device `webauthn7`, which has another credential id. -/
theorem UpsertMFADevice_keeps_credentialIDs_unique_witness :
    ∃ devs', GetMFADevices memory Example.lib Example.store17 Example.alice false = .ok devs' ∧
      credentialIDsUnique devs' :=
  UpsertMFADevice_keeps_credentialIDs_unique Example.lib Example.store1 Example.store17
    Example.alice Example.webauthn7 Example.webauthn7 [Example.webauthn1] (by decide)
    (Or.inr ⟨⟨[7, 7], [4], str "none", List.replicate 16 0, 0⟩, by decide⟩)
    (fun v hv => by
      have h8 : Example.lib.Marshal Example.webauthn7 = .ok [8] := by decide
      rw [h8] at hv
      rw [← Except.ok.inj hv]
      decide)
    (by decide) (by decide) (by decide) (by decide)

theorem deviceNames_rel_symm {a b : MFADevice} (h : a.Metadata.Name ≠ b.Metadata.Name) :
    b.Metadata.Name ≠ a.Metadata.Name := fun h' => h h'.symm

/-- The in-memory store after `DeleteMFADevice`: unchanged when the call fails,
without the record of the device when it succeeds. -/
theorem DeleteMFADevice_memory_state (s : Store) (user id : Bytes) :
    (DeleteMFADevice memory s user id).2 = s ∨
      (DeleteMFADevice memory s user id).2
        = { s with items := Store.erase s.items (mfaDeviceKey user id) } := by
  unfold DeleteMFADevice
  split_ifs
  · exact Or.inl rfl
  · exact Or.inl rfl
  · simp only [memory, Store.delete]
    cases s.lookup (mfaDeviceKey user id) with
    | none => exact Or.inl rfl
    | some it => exact Or.inr rfl

/-- The devices listed after `DeleteMFADevice`, whether it succeeds or fails, are
listed and are, up to order, among the devices listed before. -/
theorem DeleteMFADevice_memory_listing (L : MFADeviceLib) (s : Store) (user id : Bytes)
    (devs : List MFADevice) (hdevs : GetMFADevices memory L s user false = .ok devs) :
    ∃ devs' rest, GetMFADevices memory L (DeleteMFADevice memory s user id).2 user false
        = .ok devs' ∧ devs'.Perm rest ∧ rest.Sublist devs := by
  have huser := GetMFADevices_user_ne_nil memory L s user false devs hdevs
  rcases DeleteMFADevice_memory_state s user id with h | h
  · rw [h]
    exact ⟨devs, devs, hdevs, List.Perm.refl _, List.Sublist.refl _⟩
  · rw [h]
    rw [GetMFADevices_memory L s user false huser] at hdevs
    obtain ⟨devs', rest, h1, h2, h3, -⟩ :=
      GetMFADevices_loop_erase L false (s.mfaRecords user)
        (Store.mfaRecords { s with items := Store.erase s.items (mfaDeviceKey user id) } user)
        devs (mfaDeviceKey user id) hdevs (Store.range_erase s _ _ _)
    refine ⟨devs', rest, ?_, h2, h3⟩
    rw [GetMFADevices_memory L _ user false huser]
    exact h1

/-- C4: over the in-memory store, when the stored devices of the user are listed,
are stored one record per device id (each record under the key of the id of its
device) and have pairwise distinct names, then after a successful
`UpsertMFADevice` (of a device of a recognised variant that decodes from its
encoding; `d'` is the device with its defaults set) and after any
`DeleteMFADevice` the stored devices are listed and still have pairwise distinct
names. -/
theorem device_names_stay_unique (L : MFADeviceLib) (s : Store) (user : Bytes)
    (devs : List MFADevice) (hdevs : GetMFADevices memory L s user false = .ok devs)
    (hkeys : recordsKeyedByID L user (s.mfaRecords user) = true)
    (huniq : deviceNamesUnique devs) :
    (∀ (d d' : MFADevice) (s' : Store), L.CheckAndSetDefaults d = .ok d' →
      d'.Device.recognised = true →
      (∀ v, L.Marshal d' = .ok v → L.Unmarshal v = .ok d') →
      UpsertMFADevice memory L s user d = (none, s') →
      ∃ devs', GetMFADevices memory L s' user false = .ok devs' ∧ deviceNamesUnique devs') ∧
    (∀ id : Bytes, ∃ devs',
      GetMFADevices memory L (DeleteMFADevice memory s user id).2 user false = .ok devs' ∧
        deviceNamesUnique devs') := by
  constructor
  · intro d d' s' hvalid hrec hcodec hok
    obtain ⟨d1, hstrip⟩ := GetMFADevices_strip_of_recognised d' hrec
    obtain ⟨hloop, -, devs', rest, hlist, hperm, hsub, hrest⟩ :=
      UpsertMFADevice_memory_success L s s' user d d' d1 devs hvalid hstrip hcodec hdevs hok
    refine ⟨devs', hlist, ?_⟩
    unfold deviceNamesUnique at huniq ⊢
    rw [hperm.pairwise_iff deviceNames_rel_symm, List.pairwise_cons]
    refine ⟨?_, huniq.sublist hsub⟩
    intro dd hdd
    have hid : dd.Id ≠ d'.Id :=
      other_record_other_id L user d'.Id (s.mfaRecords user) hkeys dd (hrest dd hdd)
    have hpass := (UpsertMFADevice_loop_eq_none_iff d' devs).1 hloop dd (hsub.subset hdd)
    rw [(GetMFADevices_strip_fields false d' d1 hstrip).2.1]
    exact fun hn => hid (hpass.1 hn).symm
  · intro id
    obtain ⟨devs', rest, hlist, hperm, hsub⟩ := DeleteMFADevice_memory_listing L s user id devs hdevs
    refine ⟨devs', hlist, ?_⟩
    unfold deviceNamesUnique at huniq ⊢
    rw [hperm.pairwise_iff deviceNames_rel_symm]
    exact huniq.sublist hsub

/-- Witness of C4: `alice` holds `webauthn1` and `totp4`; the device `webauthn7` is
enrolled, and the device `totp4` is deleted. -/
theorem device_names_stay_unique_witness :
    (∃ devs', GetMFADevices memory Example.lib
        (UpsertMFADevice memory Example.lib Example.store14 Example.alice Example.webauthn7).2
        Example.alice false = .ok devs' ∧ deviceNamesUnique devs') ∧
    (∃ devs', GetMFADevices memory Example.lib
        (DeleteMFADevice memory Example.store14 Example.alice (str "id4")).2
        Example.alice false = .ok devs' ∧ deviceNamesUnique devs') :=
  have h := device_names_stay_unique Example.lib Example.store14 Example.alice
    [Example.webauthn1, Example.mkDevice (str "id4") (str "otp") (.MFADevice_Totp ⟨[]⟩)]
    (by decide) (by decide) (by decide)
  ⟨h.1 Example.webauthn7 Example.webauthn7 _ (by decide) (by decide)
      (fun v hv => by
        have h8 : Example.lib.Marshal Example.webauthn7 = .ok [8] := by decide
        rw [h8] at hv
        rw [← Except.ok.inj hv]
        decide)
      (by decide :
        UpsertMFADevice memory Example.lib Example.store14 Example.alice Example.webauthn7
          = (none, (UpsertMFADevice memory Example.lib Example.store14 Example.alice
              Example.webauthn7).2)),
    h.2 (str "id4")⟩

/-! ## Re-registering a device -/

theorem Store.erase_cons_erase (item : Item) (items : List Item) :
    Store.erase (item :: Store.erase items item.Key) item.Key = Store.erase items item.Key := by
  simp [Store.erase, List.filter_filter]

/-- C5: over the in-memory store, when `UpsertMFADevice` succeeds for a device (of a
recognised variant, that decodes from its encoding; `d'` is the device with
its defaults set), calling it again on the resulting store, with the device as
given or as validation left it, succeeds and leaves that store as it is. -/
theorem UpsertMFADevice_idempotent (L : MFADeviceLib) (s s' : Store) (user : Bytes)
    (d d' : MFADevice) (hvalid : L.CheckAndSetDefaults d = .ok d')
    (hrec : d'.Device.recognised = true)
    (hcodec : ∀ v, L.Marshal d' = .ok v → L.Unmarshal v = .ok d')
    (hok : UpsertMFADevice memory L s user d = (none, s')) :
    UpsertMFADevice memory L s' user d = (none, s') ∧
      (L.CheckAndSetDefaults d' = .ok d' → UpsertMFADevice memory L s' user d' = (none, s')) := by
  obtain ⟨devs, hdevs⟩ := UpsertMFADevice_ok_listed memory L s s' user d hok
  have huser := GetMFADevices_user_ne_nil memory L s user false devs hdevs
  obtain ⟨d1, hstrip⟩ := GetMFADevices_strip_of_recognised d' hrec
  obtain ⟨hloop, ⟨v, hv, hs'⟩, devs', rest, hlist, hperm, hsub, -⟩ :=
    UpsertMFADevice_memory_success L s s' user d d' d1 devs hvalid hstrip hcodec hdevs hok
  have hloop' : UpsertMFADevice.loop d' devs' = none := by
    rw [UpsertMFADevice_loop_eq_none_iff]
    intro dd hdd
    rcases List.mem_cons.1 (hperm.subset hdd) with rfl | hmem
    · have hf := GetMFADevices_strip_fields false d' dd hstrip
      refine ⟨fun _ => hf.1.symm, fun hn => absurd ?_ hn⟩
      rw [hf.2.1]
    · exact (UpsertMFADevice_loop_eq_none_iff d' devs).1 hloop dd (hsub.subset hmem)
  have hagain : ∀ d2, L.CheckAndSetDefaults d2 = .ok d' →
      UpsertMFADevice memory L s' user d2 = (none, s') := by
    intro d2 hd2
    rw [UpsertMFADevice_of_listed memory L s' user d2 d' devs' huser hd2 hlist]
    simp only [hloop', hv, memory, Store.put, Prod.mk.injEq, true_and]
    rw [hs']
    simp only [Store.mk.injEq, and_true]
    exact congrArg _ (Store.erase_cons_erase ⟨mfaDeviceKey user d'.Id, v, 0, 0⟩ s.items)
  exact ⟨hagain d hvalid, hagain d'⟩

/-- Witness of C5: `alice` holds `webauthn1` and enrolls `webauthn7` twice. -/
theorem UpsertMFADevice_idempotent_witness :
    UpsertMFADevice memory Example.lib Example.store17 Example.alice Example.webauthn7
        = (none, Example.store17) ∧
      (Example.lib.CheckAndSetDefaults Example.webauthn7 = .ok Example.webauthn7 →
        UpsertMFADevice memory Example.lib Example.store17 Example.alice Example.webauthn7
          = (none, Example.store17)) :=
  UpsertMFADevice_idempotent Example.lib Example.store1 Example.store17 Example.alice
    Example.webauthn7 Example.webauthn7 (by decide) (by decide)
    (fun v hv => by
      have h8 : Example.lib.Marshal Example.webauthn7 = .ok [8] := by decide
      rw [h8] at hv
      rw [← Except.ok.inj hv]
      decide)
    (by decide)

/-! ## The credential-id conflict -/

/-- Counterexample to C6 as stated: `alice` holds `webauthn1`; the same device (same
id and credential id) under a new name is refused with the credential-id error,
although no stored device of another id has its credential id. -/
theorem UpsertMFADevice_conflict_with_own_record :
    (UpsertMFADevice memory Example.lib Example.store1 Example.alice Example.renamed1).1
        = some (trace.AlreadyExists "credential ID already in use by device %q" [str "key1"]) ∧
      GetMFADevices memory Example.lib Example.store1 Example.alice false
        = .ok [Example.webauthn1] ∧
      ¬ ∃ dd ∈ [Example.webauthn1], dd.Id ≠ Example.renamed1.Id ∧
          getCredentialID dd = getCredentialID Example.renamed1 := by
  decide

/-- C6, amended: when validation and listing succeed and `UpsertMFADevice` fails with
the error "credential ID already in use" (an error that neither the encoder nor
the backend returns), the device is a WebAuthn device and some listed device
with a name other than its name has its credential id. -/
theorem UpsertMFADevice_credential_conflict {σ : Type} (B : Backend σ) (L : MFADeviceLib)
    (s : σ) (user : Bytes) (d d' : MFADevice) (devs : List MFADevice) (err : Error)
    (huser : user ≠ []) (hvalid : L.CheckAndSetDefaults d = .ok d')
    (hdevs : GetMFADevices B L s user false = .ok devs)
    (hmarshal : ∀ e, L.Marshal d' = .error e →
      e.message ≠ "credential ID already in use by device %q")
    (hput : ∀ it e, B.Put s it = .error e →
      e.message ≠ "credential ID already in use by device %q")
    (herr : (UpsertMFADevice B L s user d).1 = some err)
    (hmsg : err.message = "credential ID already in use by device %q") :
    err.kind = ErrorKind.AlreadyExists ∧
      ∃ w, d'.Device = .MFADevice_Webauthn w ∧
        ∃ dd ∈ devs, dd.Metadata.Name ≠ d'.Metadata.Name ∧
          getCredentialID dd = some w.CredentialId := by
  rw [UpsertMFADevice_of_listed B L s user d d' devs huser hvalid hdevs] at herr
  cases hl : UpsertMFADevice.loop d' devs with
  | some e =>
    simp only [hl, Option.some.injEq] at herr
    subst herr
    obtain ⟨w, hw, dd, hmem, hname, hc⟩ := UpsertMFADevice_loop_credential_error d' devs e hl hmsg
    exact ⟨UpsertMFADevice_loop_error_kind d' devs e hl, w, hw, dd, hmem,
      fun h => hname h.symm, hc⟩
  | none =>
    exfalso
    simp only [hl] at herr
    cases hm : L.Marshal d' with
    | error e =>
      simp only [hm, Option.some.injEq, trace.Wrap] at herr
      exact hmarshal e hm (herr ▸ hmsg)
    | ok v =>
      simp only [hm] at herr
      cases hp : B.Put s ⟨mfaDeviceKey user d'.Id, v, 0, 0⟩ with
      | error e =>
        simp only [hp, Option.some.injEq, trace.Wrap] at herr
        exact hput _ e hp (herr ▸ hmsg)
      | ok s' => simp [hp] at herr

/-- Witness of C6, amended: `alice` holds `webauthn1`; the device `webauthn2`, of
another name and with the same credential id, is refused. -/
theorem UpsertMFADevice_credential_conflict_witness :
    (trace.AlreadyExists "credential ID already in use by device %q" [str "key1"]).kind
        = ErrorKind.AlreadyExists ∧
      ∃ w, Example.webauthn2.Device = .MFADevice_Webauthn w ∧
        ∃ dd ∈ [Example.webauthn1], dd.Metadata.Name ≠ Example.webauthn2.Metadata.Name ∧
          getCredentialID dd = some w.CredentialId :=
  UpsertMFADevice_credential_conflict memory Example.lib Example.store1 Example.alice
    Example.webauthn2 Example.webauthn2 [Example.webauthn1]
    (trace.AlreadyExists "credential ID already in use by device %q" [str "key1"])
    (by decide) (by decide) (by decide)
    (fun e he => by
      have h2 : Example.lib.Marshal Example.webauthn2 = .ok [2] := by decide
      rw [h2] at he
      exact absurd he (by simp))
    (fun it e he => by simp [memory, Store.put] at he)
    (by decide) (by decide)

/-! ## Listing devices without secrets -/

theorem GetMFADevices_body_without_secrets (L : MFADeviceLib) (it : Item) (dev : MFADevice)
    (h : GetMFADevices.body L false it = .ok dev) :
    ∃ d0, L.Unmarshal it.Value = .ok d0 ∧
      ((∃ t, d0.Device = .MFADevice_Totp t ∧
          dev = { d0 with Device := .MFADevice_Totp { t with Key := [] } }) ∨
        (((∃ u, d0.Device = .MFADevice_U2F u) ∨ (∃ w, d0.Device = .MFADevice_Webauthn w)) ∧
          dev = d0)) := by
  obtain ⟨d0, hd0, hs⟩ := GetMFADevices_body_ok L false it dev h
  refine ⟨d0, hd0, ?_⟩
  unfold GetMFADevices.strip at hs
  simp only [Bool.not_false, if_true] at hs
  split at hs
  · rename_i t ht
    exact Or.inl ⟨t, ht, (Except.ok.inj hs).symm⟩
  · rename_i u hu
    exact Or.inr ⟨Or.inl ⟨u, hu⟩, (Except.ok.inj hs).symm⟩
  · rename_i w hw
    exact Or.inr ⟨Or.inr ⟨w, hw⟩, (Except.ok.inj hs).symm⟩
  · exact absurd hs (by simp)

/-- The records of the devices of a user are the live items of the store whose key
starts with the device prefix of the user. -/
theorem Store.mfaRecords_perm (s : Store) (user : Bytes) :
    (s.mfaRecords user).Perm
      (s.items.filter (fun it =>
        (Key [ webPrefix, usersPrefix, user, mfaDevicePrefix]).isPrefixOf it.Key
          && Store.live s.now it)) := by
  have hf : (fun it : Item =>
        (Key [ webPrefix, usersPrefix, user, mfaDevicePrefix]).isPrefixOf it.Key
          && Store.live s.now it)
      = (fun it : Item => inRange (Key [ webPrefix, usersPrefix, user, mfaDevicePrefix])
          (RangeEnd (Key [ webPrefix, usersPrefix, user, mfaDevicePrefix])) it.Key
          && Store.live s.now it) := by
    funext it
    congr 1
    rw [Bool.eq_iff_iff, mfa_inRange_iff, List.isPrefixOf_iff_prefix]
  rw [hf]
  exact Store.range_perm s _ _

/-- C7: over the in-memory store, when `GetMFADevices(user, false)` succeeds, the
result matches, one to one and in order, the stored records under the device
prefix of the user, which are in key order: each device is the decoded record,
unchanged for a U2F or WebAuthn device and with the key cleared for a TOTP
device; so every returned TOTP device has an empty key. -/
theorem GetMFADevices_without_secrets (L : MFADeviceLib) (s : Store) (user : Bytes)
    (devs : List MFADevice) (h : GetMFADevices memory L s user false = .ok devs) :
    user ≠ [] ∧
    List.Forall₂ (fun it dev => ∃ d0, L.Unmarshal it.Value = .ok d0 ∧
        ((∃ t, d0.Device = .MFADevice_Totp t ∧
            dev = { d0 with Device := .MFADevice_Totp { t with Key := [] } }) ∨
          (((∃ u, d0.Device = .MFADevice_U2F u) ∨ (∃ w, d0.Device = .MFADevice_Webauthn w)) ∧
            dev = d0)))
      (s.mfaRecords user) devs ∧
    (s.mfaRecords user).Sorted Store.keyLe ∧
    (s.mfaRecords user).Perm
      (s.items.filter (fun it =>
        (Key [ webPrefix, usersPrefix, user, mfaDevicePrefix]).isPrefixOf it.Key
          && Store.live s.now it)) ∧
    devs.length = (s.mfaRecords user).length ∧
    ∀ dev ∈ devs, ∀ t, dev.Device = .MFADevice_Totp t → t.Key = [] := by
  have huser := GetMFADevices_user_ne_nil memory L s user false devs h
  rw [GetMFADevices_memory L s user false huser, GetMFADevices_loop_ok_iff] at h
  have h2 := h.imp (GetMFADevices_body_without_secrets L)
  refine ⟨huser, h2, Store.range_sorted s _ _, Store.mfaRecords_perm s user,
    h.length_eq.symm, ?_⟩
  intro dev hdev t ht
  obtain ⟨it, -, d0, -, hcase⟩ := forall₂_mem_right _ _ _ h2 dev hdev
  rcases hcase with ⟨t0, -, hdev0⟩ | ⟨hvar, hdev0⟩
  · rw [hdev0] at ht
    simp only [isMFADevice_Device.MFADevice_Totp.injEq] at ht
    rw [← ht]
  · subst hdev0
    rcases hvar with ⟨u, hu⟩ | ⟨w, hw⟩
    · rw [hu] at ht; exact absurd ht (by simp)
    · rw [hw] at ht; exact absurd ht (by simp)

/-- Witness of C7: `alice` holds `webauthn1` and the TOTP device `totp4`, listed in
key order with the key of `totp4` cleared. -/
theorem GetMFADevices_without_secrets_witness :
    GetMFADevices memory Example.lib Example.store14 Example.alice false
        = .ok [Example.webauthn1,
            Example.mkDevice (str "id4") (str "otp") (.MFADevice_Totp ⟨[]⟩)] ∧
      ∀ dev ∈ [Example.webauthn1,
          Example.mkDevice (str "id4") (str "otp") (.MFADevice_Totp ⟨[]⟩)],
        ∀ t, dev.Device = .MFADevice_Totp t → t.Key = [] :=
  ⟨by decide,
    (GetMFADevices_without_secrets Example.lib Example.store14 Example.alice
      [Example.webauthn1, Example.mkDevice (str "id4") (str "otp") (.MFADevice_Totp ⟨[]⟩)]
      (by decide)).2.2.2.2.2⟩

/-! ## Devices of an unrecognised variant -/

/-- Counterexample to C8 as stated: `alice` holds `webauthn1` and a device of a
variant the code does not know; with secrets the listing succeeds and returns
that device. -/
theorem GetMFADevices_withSecrets_unrecognised :
    Example.lib.Unmarshal (Example.record (str "id6") [7]).Value = .ok Example.unknown6 ∧
      Example.unknown6.Device.recognised = false ∧
      GetMFADevices memory Example.lib Example.store16 Example.alice true
        = .ok [Example.webauthn1, Example.unknown6] := by
  decide

theorem GetMFADevices_loop_unrecognised (L : MFADeviceLib) (pre post : List Item) (it : Item)
    (d0 : MFADevice) (hpre : ∀ x ∈ pre, ∃ dx, L.Unmarshal x.Value = .ok dx)
    (hit : L.Unmarshal it.Value = .ok d0) (hvar : d0.Device.recognised = false) :
    ∃ err, GetMFADevices.loop L false (pre ++ it :: post) = .error err ∧
      err.kind = ErrorKind.BadParameter := by
  have hbad : ∀ (d : MFADevice) (e : Error), GetMFADevices.strip false d = .error e →
      e.kind = ErrorKind.BadParameter := by
    intro d e he
    unfold GetMFADevices.strip at he
    simp only [Bool.not_false, if_true] at he
    split at he
    · exact absurd he (by simp)
    · exact absurd he (by simp)
    · exact absurd he (by simp)
    · rw [← Except.error.inj he]; rfl
  induction pre with
  | nil =>
    have hs : ∃ e, GetMFADevices.strip false d0 = .error e := by
      unfold GetMFADevices.strip
      cases hd : d0.Device with
      | nil => exact ⟨_, rfl⟩
      | other tag => exact ⟨_, rfl⟩
      | MFADevice_Totp t => simp [hd, isMFADevice_Device.recognised] at hvar
      | MFADevice_U2F u => simp [hd, isMFADevice_Device.recognised] at hvar
      | MFADevice_Webauthn w => simp [hd, isMFADevice_Device.recognised] at hvar
    obtain ⟨e, he⟩ := hs
    refine ⟨e, ?_, hbad d0 e he⟩
    simp [GetMFADevices.loop, GetMFADevices.body, hit, he]
  | cons x pre ih =>
    obtain ⟨dx, hdx⟩ := hpre x (List.mem_cons_self _ _)
    obtain ⟨err, herr, hkind⟩ := ih (fun y hy => hpre y (List.mem_cons_of_mem _ hy))
    cases hs : GetMFADevices.strip false dx with
    | error e =>
      refine ⟨e, ?_, hbad dx e hs⟩
      simp [GetMFADevices.loop, GetMFADevices.body, hdx, hs]
    | ok d =>
      refine ⟨err, ?_, hkind⟩
      simp [GetMFADevices.loop, GetMFADevices.body, hdx, hs, herr]

/-- C8, amended: for a non-empty user and without secrets, if a record of the range
read decodes to a device whose variant is none of TOTP, U2F and WebAuthn, and
the records read before it decode, `GetMFADevices` fails with a BadParameter
error. -/
theorem GetMFADevices_unrecognised_BadParameter {σ : Type} (B : Backend σ) (L : MFADeviceLib)
    (s : σ) (user : Bytes) (pre post : List Item) (it : Item) (d0 : MFADevice)
    (huser : user ≠ [])
    (hrange : B.GetRange s (Key [ webPrefix, usersPrefix, user, mfaDevicePrefix])
      (RangeEnd (Key [ webPrefix, usersPrefix, user, mfaDevicePrefix])) NoLimit
        = .ok (pre ++ it :: post))
    (hpre : ∀ x ∈ pre, ∃ dx, L.Unmarshal x.Value = .ok dx)
    (hit : L.Unmarshal it.Value = .ok d0) (hvar : d0.Device.recognised = false) :
    ∃ err, GetMFADevices B L s user false = .error err ∧
      err.kind = ErrorKind.BadParameter := by
  simp only [GetMFADevices, huser, if_false, hrange]
  exact GetMFADevices_loop_unrecognised L pre post it d0 hpre hit hvar

/-- Witness of C8, amended: `alice` holds `webauthn1` and, after it in key order, a
device of a variant the code does not know. -/
theorem GetMFADevices_unrecognised_BadParameter_witness :
    ∃ err, GetMFADevices memory Example.lib Example.store16 Example.alice false = .error err ∧
      err.kind = ErrorKind.BadParameter :=
  GetMFADevices_unrecognised_BadParameter memory Example.lib Example.store16 Example.alice
    [Example.record (str "id1") [1]] [] (Example.record (str "id6") [7]) Example.unknown6
    (by decide) (by decide)
    (fun x hx => by
      rw [List.mem_singleton] at hx
      subst hx
      exact ⟨Example.webauthn1, by decide⟩)
    (by decide) (by decide)

/-! ## Reading a user without secrets -/

/-- C9: `GetUser(name, false)` fails with BadParameter when the name is empty; for
a non-empty name it fails with NotFound when the read of the primary record
fails, in particular when the in-memory store holds no live primary record;
and a user it returns has a nil local-auth bundle. -/
theorem GetUser_without_secrets {σ : Type} (B : Backend σ) (L : UserLib) (s : σ)
    (user : Bytes) :
    GetUser B L s [] false = .error (trace.BadParameter "missing user name" []) ∧
    (user ≠ [] → ∀ e, B.Get s (Key [ webPrefix, usersPrefix, user, paramsPrefix]) = .error e →
      GetUser B L s user false = .error (trace.NotFound "user %q is not found" [user])) ∧
    (∀ m : Store, user ≠ [] →
      m.lookup (Key [ webPrefix, usersPrefix, user, paramsPrefix]) = none →
      GetUser memory L m user false = .error (trace.NotFound "user %q is not found" [user])) ∧
    (∀ u, GetUser B L s user false = .ok u → u.LocalAuth = none) := by
  refine ⟨by simp [GetUser], ?_, ?_, ?_⟩
  · intro huser e he
    simp [GetUser, huser, he]
  · intro m huser hm
    simp [GetUser, huser, memory, Store.get, hm]
  · intro u hu
    unfold GetUser at hu
    simp only [Bool.false_eq_true, if_false, Bool.not_false, if_true] at hu
    by_cases h0 : user = []
    · simp [h0] at hu
    · simp only [h0, if_false] at hu
      split at hu
      · exact absurd hu (by simp)
      · split at hu
        · exact absurd hu (by simp)
        · rw [← Except.ok.inj hu]
          rfl

/-- Witness of C9: the stored record of `alice` decodes to a user with a bundle of
secrets, and the user returned has none; no record is stored for `bob`. -/
theorem GetUser_without_secrets_witness :
    (Example.userLib.UnmarshalUser [1] 5 0 = .ok (Example.aliceUser 5 0) ∧
      (Example.aliceUser 5 0).LocalAuth ≠ none ∧
      GetUser memory Example.userLib Example.storeUser Example.alice false
        = .ok ((Example.aliceUser 5 0).SetLocalAuth none) ∧
      ((Example.aliceUser 5 0).SetLocalAuth none).LocalAuth = none) ∧
    GetUser memory Example.userLib Example.storeUser (str "bob") false
      = .error (trace.NotFound "user %q is not found" [str "bob"]) :=
  ⟨⟨by decide, by decide, by decide,
      (GetUser_without_secrets memory Example.userLib Example.storeUser Example.alice).2.2.2
        ((Example.aliceUser 5 0).SetLocalAuth none) (by decide)⟩,
    (GetUser_without_secrets memory Example.userLib Example.storeUser (str "bob")).2.2.1
      Example.storeUser (by decide) (by decide)⟩

/-! ## Failures of the backend -/

/-- The accessors `GetPasswordHash`, `GetWebauthnSessionData` and `GetRecoveryCodes`
return a failure of the read of the backend that is not NotFound as it is. -/
theorem storage_failure_kept {σ : Type} (B : Backend σ) (S : SessionDataLib)
    (R : RecoveryCodesLib) (s : σ) (user sessionID : Bytes) (withSecrets : Bool) (e : Error)
    (huser : user ≠ []) (hid : sessionID ≠ []) (hkind : e.kind ≠ ErrorKind.NotFound) :
    (B.Get s (Key [ webPrefix, usersPrefix, user, pwdPrefix]) = .error e →
      GetPasswordHash B s user = .error e) ∧
    (B.Get s (sessionDataKey user sessionID) = .error e →
      GetWebauthnSessionData B S s user sessionID = .error e) ∧
    (B.Get s (Key [ webPrefix, usersPrefix, user, recoveryCodesPrefix]) = .error e →
      GetRecoveryCodes B R s user withSecrets = .error e) := by
  refine ⟨?_, ?_, ?_⟩
  · intro he
    simp [GetPasswordHash, huser, he, trace.IsNotFound, hkind, trace.Wrap]
  · intro he
    simp [GetWebauthnSessionData, huser, hid, he, trace.Wrap]
  · intro he
    simp [GetRecoveryCodes, huser, he, trace.Wrap]

/-- C10, at a backend that cannot be reached (every read fails with a connection
problem): `GetUser` without secrets fails with NotFound, while
`GetPasswordHash`, `GetWebauthnSessionData` and `GetRecoveryCodes` fail with the
connection problem. -/
theorem GetUser_masks_storage_failure :
    Example.connectionProblem.kind = ErrorKind.ConnectionProblem ∧
    Example.unavailable.Get () (Key [ webPrefix, usersPrefix, Example.alice, paramsPrefix])
      = .error Example.connectionProblem ∧
    GetUser Example.unavailable Example.userLib () Example.alice false
      = .error (trace.NotFound "user %q is not found" [Example.alice]) ∧
    GetPasswordHash Example.unavailable () Example.alice = .error Example.connectionProblem ∧
    GetWebauthnSessionData Example.unavailable Example.sessionDataLib () Example.alice
      (str "session") = .error Example.connectionProblem ∧
    GetRecoveryCodes Example.unavailable Example.recoveryCodesLib () Example.alice false
      = .error Example.connectionProblem := by
  decide

/-! ## Session data of a WebAuthn ceremony -/

/-- C11: with an empty user, or a non-empty user and an empty session id,
`UpsertWebauthnSessionData`, `GetWebauthnSessionData` and
`DeleteWebauthnSessionData` fail with BadParameter, and so does
`UpsertWebauthnSessionData` with nil session data; the result is the same
whatever the backend and its state, which a write operation returns unchanged:
no operation of the backend is carried out. -/
theorem WebauthnSessionData_missing_parameter {σ : Type} (B : Backend σ) (L : SessionDataLib)
    (timeout : Nat) (s : σ) (user sessionID : Bytes) (sd : Option SessionData) :
    UpsertWebauthnSessionData B L timeout s [] sessionID sd
      = (some (trace.BadParameter "missing parameter user" []), s) ∧
    GetWebauthnSessionData B L s [] sessionID
      = .error (trace.BadParameter "missing parameter user" []) ∧
    DeleteWebauthnSessionData B s [] sessionID
      = (some (trace.BadParameter "missing parameter user" []), s) ∧
    (user ≠ [] →
      UpsertWebauthnSessionData B L timeout s user [] sd
        = (some (trace.BadParameter "missing parameter sessionID" []), s) ∧
      GetWebauthnSessionData B L s user []
        = .error (trace.BadParameter "missing parameter sessionID" []) ∧
      DeleteWebauthnSessionData B s user []
        = (some (trace.BadParameter "missing parameter sessionID" []), s)) ∧
    (user ≠ [] → sessionID ≠ [] →
      UpsertWebauthnSessionData B L timeout s user sessionID none
        = (some (trace.BadParameter "missing parameter sd" []), s)) ∧
    (trace.BadParameter "missing parameter user" []).kind = ErrorKind.BadParameter ∧
    (trace.BadParameter "missing parameter sessionID" []).kind = ErrorKind.BadParameter ∧
    (trace.BadParameter "missing parameter sd" []).kind = ErrorKind.BadParameter := by
  refine ⟨by simp [UpsertWebauthnSessionData], by simp [GetWebauthnSessionData],
    by simp [DeleteWebauthnSessionData], ?_, ?_, rfl, rfl, rfl⟩
  · intro hu
    exact ⟨by simp [UpsertWebauthnSessionData, hu], by simp [GetWebauthnSessionData, hu],
      by simp [DeleteWebauthnSessionData, hu]⟩
  · intro hu hs
    simp [UpsertWebauthnSessionData, hu, hs]

/-- Witness of C11: on the traced in-memory store, with the user `alice` and an
empty session id, nothing is written. -/
theorem WebauthnSessionData_missing_parameter_witness :
    UpsertWebauthnSessionData memory.traced Example.challengeLib 300 (Example.emptyStore, [])
        Example.alice [] (some { Challenge := [1], UserId := [], AllowCredentials := [] })
      = (some (trace.BadParameter "missing parameter sessionID" []), (Example.emptyStore, [])) :=
  ((WebauthnSessionData_missing_parameter memory.traced Example.challengeLib 300
    (Example.emptyStore, []) Example.alice (str "session")
    (some { Challenge := [1], UserId := [], AllowCredentials := [] })).2.2.2.1 (by decide)).1

/-- C12: for a non-empty user and session id and session data that encodes,
`UpsertWebauthnSessionData` carries out one write, the `Put` of the item for
the key of the user and the session id, with the encoding as value and the
time of the clock plus `WebauthnChallengeTimeout` as expiry, an expiry in
which neither the session data nor the store takes part beyond the clock; if
that `Put` fails nothing is written. -/
theorem UpsertWebauthnSessionData_one_write {σ : Type} (B : Backend σ) (L : SessionDataLib)
    (timeout : Nat) (s : σ) (log : List WriteOp) (user sessionID : Bytes) (sd : SessionData)
    (value : Bytes) (huser : user ≠ []) (hid : sessionID ≠ [])
    (hvalue : L.Marshal sd = .ok value) :
    (∀ s', B.Put s ⟨sessionDataKey user sessionID, value, B.Now s + timeout, 0⟩ = .ok s' →
      UpsertWebauthnSessionData B.traced L timeout (s, log) user sessionID (some sd)
        = (none, (s', log ++
            [WriteOp.Put ⟨sessionDataKey user sessionID, value, B.Now s + timeout, 0⟩]))) ∧
    (∀ err, B.Put s ⟨sessionDataKey user sessionID, value, B.Now s + timeout, 0⟩ = .error err →
      UpsertWebauthnSessionData B.traced L timeout (s, log) user sessionID (some sd)
        = (some err, (s, log))) := by
  constructor
  · intro s' hput
    simp [UpsertWebauthnSessionData, huser, hid, hvalue, Backend.traced, hput]
  · intro err hput
    simp [UpsertWebauthnSessionData, huser, hid, hvalue, Backend.traced, hput, trace.Wrap]

/-- Witness of C12: session data of `alice` is written to the empty store at time
100 with a timeout of 300. -/
theorem UpsertWebauthnSessionData_one_write_witness :
    UpsertWebauthnSessionData memory.traced Example.challengeLib 300 (Example.emptyStore, [])
        Example.alice (str "session")
        (some { Challenge := [1], UserId := [], AllowCredentials := [] })
      = (none, (⟨[⟨sessionDataKey Example.alice (str "session"), [1], 400, 0⟩], 100⟩,
          [WriteOp.Put ⟨sessionDataKey Example.alice (str "session"), [1], 400, 0⟩])) :=
  (UpsertWebauthnSessionData_one_write memory Example.challengeLib 300 Example.emptyStore []
    Example.alice (str "session") { Challenge := [1], UserId := [], AllowCredentials := [] }
    [1] (by decide) (by decide) (by decide)).1 _ (by decide)

/-! ## Reads of one key of the in-memory store after a write -/

theorem Store.lookup_erase_other (items : List Item) (now : Nat) (key key' : Bytes)
    (h : key' ≠ key) :
    Store.lookup { items := Store.erase items key, now := now } key'
      = Store.lookup { items := items, now := now } key' := by
  simp only [Store.lookup, Store.erase]
  induction items with
  | nil => rfl
  | cons it items ih =>
    by_cases hk : it.Key = key
    · have hk' : ¬ it.Key = key' := fun h' => h (h'.symm.trans hk)
      have e1 : ¬ (!decide (it.Key = key)) = true := by simp [hk]
      have e2 : (decide (it.Key = key') && Store.live now it) = false := by simp [hk']
      rw [List.filter_cons, if_neg e1, List.find?_cons, e2]
      exact ih
    · have e1 : (!decide (it.Key = key)) = true := by simp [hk]
      rw [List.filter_cons, if_pos e1, List.find?_cons, List.find?_cons, ih]

theorem Store.lookup_erase_self (items : List Item) (now : Nat) (key : Bytes) :
    Store.lookup { items := Store.erase items key, now := now } key = none := by
  simp only [Store.lookup, Store.erase, List.find?_eq_none, List.mem_filter]
  intro it hit
  have hk : ¬ it.Key = key := by simpa using hit.2
  simp [hk]

theorem Store.lookup_put_self (s : Store) (item : Item)
    (hlive : Store.live s.now item = true) :
    Store.lookup { s with items := item :: Store.erase s.items item.Key } item.Key
      = some item := by
  simp [Store.lookup, List.find?_cons, hlive]

theorem Store.lookup_put_other (s : Store) (item : Item) (key' : Bytes)
    (h : key' ≠ item.Key) :
    Store.lookup { s with items := item :: Store.erase s.items item.Key } key'
      = s.lookup key' := by
  have h' : item.Key ≠ key' := fun e => h e.symm
  have := Store.lookup_erase_other s.items s.now item.Key key' h
  simp only [Store.lookup, List.find?_cons, h', decide_False, Bool.false_and] at this ⊢
  exact this

/-- Two byte strings without the separator byte that are followed by it are equal
when the whole strings are. -/
theorem append_separator_inj (x : Nat) : ∀ (a a' b b' : Bytes), x ∉ a → x ∉ a' →
    a ++ x :: b = a' ++ x :: b' → a = a' ∧ b = b'
  | [], [], b, b', _, _, h => by simpa using h
  | [], y :: a', b, b', _, ha', h => by
    simp only [List.nil_append, List.cons_append, List.cons.injEq] at h
    exact absurd (h.1 ▸ List.mem_cons_self _ _) ha'
  | y :: a, [], b, b', ha, _, h => by
    simp only [List.nil_append, List.cons_append, List.cons.injEq] at h
    exact absurd (h.1 ▸ List.mem_cons_self _ _) ha
  | y :: a, y' :: a', b, b', ha, ha', h => by
    simp only [List.cons_append, List.cons.injEq] at h
    obtain ⟨h1, h2⟩ := append_separator_inj x a a' b b'
      (fun hm => ha (List.mem_cons_of_mem _ hm)) (fun hm => ha' (List.mem_cons_of_mem _ hm)) h.2
    exact ⟨by rw [h.1, h1], h2⟩

theorem sessionDataKey_eq (user sessionID : Bytes) :
    sessionDataKey user sessionID
      = Key [ webPrefix, usersPrefix] ++ Separator :: user
          ++ Separator :: (webauthnSessionData ++ Separator :: sessionID) := by
  simp [sessionDataKey, Key]

/-- The keys of the session data of two pairs of a user and a session id, the
users without a separator, are equal only when the pairs are. -/
theorem sessionDataKey_injective (user user' sessionID sessionID' : Bytes)
    (hu : Separator ∉ user) (hu' : Separator ∉ user')
    (h : sessionDataKey user sessionID = sessionDataKey user' sessionID') :
    user = user' ∧ sessionID = sessionID' := by
  rw [sessionDataKey_eq, sessionDataKey_eq, List.append_assoc, List.append_assoc] at h
  have h1 := List.append_cancel_left h
  simp only [List.cons_append, List.cons.injEq, true_and] at h1
  obtain ⟨h2, h3⟩ := append_separator_inj Separator user user' _ _ hu hu' h1
  refine ⟨h2, ?_⟩
  have h4 := List.append_cancel_left h3
  simpa using h4

theorem UpsertWebauthnSessionData_memory_ok (L : SessionDataLib) (timeout : Nat)
    (s s' : Store) (user sessionID : Bytes) (sd : Option SessionData)
    (h : UpsertWebauthnSessionData memory L timeout s user sessionID sd = (none, s')) :
    user ≠ [] ∧ sessionID ≠ [] ∧ ∃ d v, sd = some d ∧ L.Marshal d = .ok v ∧
      s' = { s with items :=
        (⟨sessionDataKey user sessionID, v, s.now + timeout, 0⟩ ::
          Store.erase s.items (sessionDataKey user sessionID)) } := by
  unfold UpsertWebauthnSessionData at h
  by_cases hu : user = []
  · simp [hu] at h
  · by_cases hs : sessionID = []
    · simp [hu, hs] at h
    · simp only [hu, hs, if_false] at h
      cases sd with
      | none => simp at h
      | some d =>
        simp only at h
        cases hm : L.Marshal d with
        | error e => simp [hm] at h
        | ok v =>
          simp only [hm, memory, Store.put, Prod.mk.injEq, true_and] at h
          exact ⟨hu, hs, d, v, rfl, hm, h.symm⟩

theorem DeleteWebauthnSessionData_memory_ok (s s' : Store) (user sessionID : Bytes)
    (h : DeleteWebauthnSessionData memory s user sessionID = (none, s')) :
    user ≠ [] ∧ sessionID ≠ [] ∧
      s' = { s with items := Store.erase s.items (sessionDataKey user sessionID) } := by
  unfold DeleteWebauthnSessionData at h
  by_cases hu : user = []
  · simp [hu] at h
  · by_cases hs : sessionID = []
    · simp [hu, hs] at h
    · simp only [hu, hs, if_false, memory, Store.delete] at h
      cases hl : s.lookup (sessionDataKey user sessionID) with
      | none => simp [hl] at h
      | some it =>
        simp only [hl, Prod.mk.injEq, true_and] at h
        exact ⟨hu, hs, h.symm⟩

theorem GetWebauthnSessionData_memory (L : SessionDataLib) (s : Store)
    (user sessionID : Bytes) (hu : user ≠ []) (hs : sessionID ≠ []) :
    GetWebauthnSessionData memory L s user sessionID =
      match s.lookup (sessionDataKey user sessionID) with
      | none => .error (trace.NotFound "key %q is not found" [sessionDataKey user sessionID])
      | some item =>
        match L.Unmarshal item.Value with
        | .error err => .error err
        | .ok sd => .ok sd := by
  simp only [GetWebauthnSessionData, hu, hs, if_false, memory, Store.get]
  cases s.lookup (sessionDataKey user sessionID) with
  | none => rfl
  | some item => rfl

/-- C13: over the in-memory store, after a successful
`UpsertWebauthnSessionData(user, sessionID, sd)`, of session data that decodes
from its encoding, `GetWebauthnSessionData(user, sessionID)` returns `sd`;
after a successful `DeleteWebauthnSessionData(user, sessionID)` it fails with
NotFound; and neither changes the record, nor what is read, of another pair of
a user and a session id, the users being without a key separator. -/
theorem WebauthnSessionData_round_trip (L : SessionDataLib) (timeout : Nat) (s s' : Store)
    (user sessionID : Bytes) :
    (∀ sd, (∀ v, L.Marshal sd = .ok v → L.Unmarshal v = .ok sd) →
      UpsertWebauthnSessionData memory L timeout s user sessionID (some sd) = (none, s') →
      GetWebauthnSessionData memory L s' user sessionID = .ok sd) ∧
    (DeleteWebauthnSessionData memory s user sessionID = (none, s') →
      ∃ err, GetWebauthnSessionData memory L s' user sessionID = .error err ∧
        err.kind = ErrorKind.NotFound) ∧
    (∀ sd user' sessionID', Separator ∉ user → Separator ∉ user' →
      (user', sessionID') ≠ (user, sessionID) →
      (UpsertWebauthnSessionData memory L timeout s user sessionID sd = (none, s') ∨
        DeleteWebauthnSessionData memory s user sessionID = (none, s')) →
      s'.lookup (sessionDataKey user' sessionID') = s.lookup (sessionDataKey user' sessionID') ∧
        GetWebauthnSessionData memory L s' user' sessionID'
          = GetWebauthnSessionData memory L s user' sessionID') := by
  refine ⟨?_, ?_, ?_⟩
  · intro sd hcodec h
    obtain ⟨hu, hs, d, v, hd, hm, hs'⟩ := UpsertWebauthnSessionData_memory_ok L timeout _ _ _ _ _ h
    cases hd
    have hl : s'.lookup (sessionDataKey user sessionID)
        = some ⟨sessionDataKey user sessionID, v, s.now + timeout, 0⟩ := by
      rw [hs']
      exact Store.lookup_put_self s ⟨sessionDataKey user sessionID, v, s.now + timeout, 0⟩
        (by simp [Store.live])
    rw [GetWebauthnSessionData_memory L s' user sessionID hu hs, hl]
    simp [hcodec v hm]
  · intro h
    obtain ⟨hu, hs, hs'⟩ := DeleteWebauthnSessionData_memory_ok _ _ _ _ h
    have hl : s'.lookup (sessionDataKey user sessionID) = none := by
      rw [hs']
      exact Store.lookup_erase_self s.items s.now _
    rw [GetWebauthnSessionData_memory L s' user sessionID hu hs, hl]
    exact ⟨_, rfl, rfl⟩
  · intro sd user' sessionID' hsep hsep' hne h
    have hkey : sessionDataKey user' sessionID' ≠ sessionDataKey user sessionID := by
      intro hk
      obtain ⟨h1, h2⟩ := sessionDataKey_injective _ _ _ _ hsep' hsep hk
      exact hne (by rw [h1, h2])
    have hl : s'.lookup (sessionDataKey user' sessionID')
        = s.lookup (sessionDataKey user' sessionID') := by
      rcases h with h | h
      · obtain ⟨-, -, d, v, -, -, hs'⟩ := UpsertWebauthnSessionData_memory_ok L timeout _ _ _ _ _ h
        rw [hs']
        exact Store.lookup_put_other s ⟨sessionDataKey user sessionID, v, s.now + timeout, 0⟩
          _ hkey
      · obtain ⟨-, -, hs'⟩ := DeleteWebauthnSessionData_memory_ok _ _ _ _ h
        rw [hs']
        exact Store.lookup_erase_other s.items s.now _ _ hkey
    refine ⟨hl, ?_⟩
    by_cases hu : user' = []
    · simp [GetWebauthnSessionData, hu]
    · by_cases hs : sessionID' = []
      · simp [GetWebauthnSessionData, hu, hs]
      · rw [GetWebauthnSessionData_memory L s' user' sessionID' hu hs,
          GetWebauthnSessionData_memory L s user' sessionID' hu hs, hl]

/-- Witness of C13: session data of `alice` is written to the empty store and read
back. -/
theorem WebauthnSessionData_round_trip_witness :
    GetWebauthnSessionData memory Example.challengeLib
        (UpsertWebauthnSessionData memory Example.challengeLib 300 Example.emptyStore
          Example.alice (str "session")
          (some { Challenge := [1], UserId := [], AllowCredentials := [] })).2
        Example.alice (str "session")
      = .ok { Challenge := [1], UserId := [], AllowCredentials := [] } :=
  (WebauthnSessionData_round_trip Example.challengeLib 300 Example.emptyStore _
    Example.alice (str "session")).1 { Challenge := [1], UserId := [], AllowCredentials := [] }
    (fun v hv => by
      have h1 : Example.challengeLib.Marshal
          { Challenge := [1], UserId := [], AllowCredentials := [] } = .ok [1] := by decide
      rw [h1] at hv
      rw [← Except.ok.inj hv]
      decide)
    (by decide)

/-! ## Recovery attempts and recovery codes -/

/-- The result of `sort.Sort` by time is in ascending order of time. -/
theorem sortSort_chronologically_sorted (data : List RecoveryAttempt) :
    (sortSort recoveryAttemptsChronologically.Less data).Pairwise
      (fun a b => ¬ b.Time < a.Time) := by
  haveI : IsTotal RecoveryAttempt
      (fun a b => recoveryAttemptsChronologically.Less b a = false) :=
    ⟨fun a b => by
      simp only [recoveryAttemptsChronologically.Less, decide_eq_false_iff_not, not_lt]
      omega⟩
  haveI : IsTrans RecoveryAttempt
      (fun a b => recoveryAttemptsChronologically.Less b a = false) :=
    ⟨fun a b c => by
      simp only [recoveryAttemptsChronologically.Less, decide_eq_false_iff_not, not_lt]
      omega⟩
  have h := List.sorted_insertionSort
    (fun a b => recoveryAttemptsChronologically.Less b a = false) data
  refine List.Pairwise.imp ?_ h
  intro a b hab
  simpa [recoveryAttemptsChronologically.Less] using hab

theorem GetUserRecoveryAttempts_ok {σ : Type} (B : Backend σ) (L : RecoveryAttemptLib) (s : σ)
    (user : Bytes) (out : List RecoveryAttempt)
    (h : GetUserRecoveryAttempts B L s user = .ok out) :
    user ≠ [] ∧ ∃ items decoded,
      B.GetRange s (Key [ webPrefix, usersPrefix, user, recoveryAttemptsPrefix])
        (RangeEnd (Key [ webPrefix, usersPrefix, user, recoveryAttemptsPrefix])) NoLimit
          = .ok items ∧
      GetUserRecoveryAttempts.loop L items = .ok decoded ∧
      out = sortSort recoveryAttemptsChronologically.Less decoded := by
  unfold GetUserRecoveryAttempts at h
  by_cases hu : user = []
  · simp [hu] at h
  · simp only [hu, if_false] at h
    split at h
    · exact absurd h (by simp)
    · rename_i items hitems
      split at h
      · exact absurd h (by simp)
      · rename_i decoded hdecoded
        exact ⟨hu, items, decoded, hitems, hdecoded, (Except.ok.inj h).symm⟩

/-- C14: when `GetUserRecoveryAttempts` succeeds, the list it returns is sorted
oldest first: of two elements the later one in the list is not before the
earlier one in time, as a relation on the pairs of the list and on indices
`i < j`. -/
theorem GetUserRecoveryAttempts_sorted {σ : Type} (B : Backend σ) (L : RecoveryAttemptLib)
    (s : σ) (user : Bytes) (out : List RecoveryAttempt)
    (h : GetUserRecoveryAttempts B L s user = .ok out) :
    out.Pairwise (fun a b => ¬ b.Time < a.Time) ∧
      ∀ (i j : Fin out.length), i < j → ¬ (out.get j).Time < (out.get i).Time := by
  obtain ⟨-, items, decoded, -, -, hout⟩ := GetUserRecoveryAttempts_ok B L s user out h
  have hs : out.Pairwise (fun a b => ¬ b.Time < a.Time) := by
    rw [hout]
    exact sortSort_chronologically_sorted decoded
  exact ⟨hs, fun i j hij => List.pairwise_iff_get.1 hs i j hij⟩

/-- Witness of C14: three attempts of `alice` stored at times 30, 10 and 20 are
returned in the order 10, 20, 30. -/
theorem GetUserRecoveryAttempts_sorted_witness :
    GetUserRecoveryAttempts memory Example.attemptLib Example.storeAttempts Example.alice
        = .ok [⟨10, 0⟩, ⟨20, 0⟩, ⟨30, 0⟩] ∧
      List.Pairwise (fun a b : RecoveryAttempt => ¬ b.Time < a.Time)
        [⟨10, 0⟩, ⟨20, 0⟩, ⟨30, 0⟩] :=
  ⟨by decide,
    (GetUserRecoveryAttempts_sorted memory Example.attemptLib Example.storeAttempts
      Example.alice [⟨10, 0⟩, ⟨20, 0⟩, ⟨30, 0⟩] (by decide)).1⟩

/-- C15: for a non-empty user whose stored record of recovery codes decodes to
`rc`, `GetRecoveryCodes` without secrets returns `rc` with an empty list of
codes and every other field as stored, and with secrets returns `rc`. And over
the in-memory store, for a record `rc` that passes validation as `rc'`, whose
encoding `v` decodes to a record `r` with the codes of `rc` (`r` need not be
`rc'` in its other fields): `UpsertRecoveryCodes` succeeds and puts `v` under
the key of the recovery codes of the user; afterwards `GetRecoveryCodes` with
secrets returns `r`, a record with exactly the codes that were passed, and
without secrets it returns `r` with an empty list of codes. -/
theorem GetRecoveryCodes_secrets {σ : Type} (B : Backend σ) (L : RecoveryCodesLib) (s : σ)
    (user : Bytes) (huser : user ≠ []) :
    (∀ item rc, B.Get s (Key [ webPrefix, usersPrefix, user, recoveryCodesPrefix]) = .ok item →
      L.Unmarshal item.Value = .ok rc →
      GetRecoveryCodes B L s user false = .ok { rc with Spec := { rc.Spec with Codes := [] } } ∧
        GetRecoveryCodes B L s user true = .ok rc) ∧
    (∀ (m : Store) (rc rc' r : RecoveryCodesV1) (v : Bytes),
      L.CheckAndSetDefaults rc = .ok rc' → L.Marshal rc' = .ok v → L.Unmarshal v = .ok r →
      r.Spec.Codes = rc.Spec.Codes →
      (UpsertRecoveryCodes memory L m user rc).1 = none ∧
      (UpsertRecoveryCodes memory L m user rc).2
        = { m with items :=
            (⟨Key [ webPrefix, usersPrefix, user, recoveryCodesPrefix], v, 0, 0⟩ ::
              Store.erase m.items (Key [ webPrefix, usersPrefix, user, recoveryCodesPrefix])) } ∧
      (∃ res, GetRecoveryCodes memory L (UpsertRecoveryCodes memory L m user rc).2 user true
          = .ok res ∧ res = r ∧ res.Spec.Codes = rc.Spec.Codes) ∧
      GetRecoveryCodes memory L (UpsertRecoveryCodes memory L m user rc).2 user false
        = .ok { r with Spec := { r.Spec with Codes := [] } }) := by
  have hread : ∀ {τ : Type} (B' : Backend τ) (t : τ) item rc,
      B'.Get t (Key [ webPrefix, usersPrefix, user, recoveryCodesPrefix]) = .ok item →
      L.Unmarshal item.Value = .ok rc →
      GetRecoveryCodes B' L t user false
          = .ok { rc with Spec := { rc.Spec with Codes := [] } } ∧
        GetRecoveryCodes B' L t user true = .ok rc := by
    intro τ B' t item rc hget hdec
    simp [GetRecoveryCodes, huser, hget, hdec]
  refine ⟨hread B s, ?_⟩
  intro m rc rc' r v hcheck hm hdec hcodes
  have hup : UpsertRecoveryCodes memory L m user rc
      = (none, { m with items :=
          (⟨Key [ webPrefix, usersPrefix, user, recoveryCodesPrefix], v, 0, 0⟩ ::
            Store.erase m.items (Key [ webPrefix, usersPrefix, user, recoveryCodesPrefix])) }) := by
    simp only [UpsertRecoveryCodes, huser, if_false, hcheck, hm, memory, Store.put]
  have hget : memory.Get (UpsertRecoveryCodes memory L m user rc).2
      (Key [ webPrefix, usersPrefix, user, recoveryCodesPrefix])
        = .ok ⟨Key [ webPrefix, usersPrefix, user, recoveryCodesPrefix], v, 0, 0⟩ := by
    have := Store.lookup_put_self m
      ⟨Key [ webPrefix, usersPrefix, user, recoveryCodesPrefix], v, 0, 0⟩
      (by simp [Store.live])
    rw [hup]
    simp only [memory, Store.get, this]
  obtain ⟨h1, h2⟩ := hread memory (UpsertRecoveryCodes memory L m user rc).2 _ r hget hdec
  refine ⟨?_, ?_, ⟨r, h2, rfl, hcodes⟩, h1⟩
  · rw [hup]
  · rw [hup]

/-- Witness of C15: the stored record of `alice` has one code, which is returned
only with secrets; and the record `passedCodes`, with two codes, is written for
`alice` on the empty store by `UpsertRecoveryCodes` and read back, with its two
codes when secrets are asked for, through a codec that leaves out the
namespace of the record. -/
theorem GetRecoveryCodes_secrets_witness :
    (GetRecoveryCodes memory Example.recoveryCodesLib Example.storeCodes Example.alice false
        = .ok { Example.aliceCodes with Spec := { Example.aliceCodes.Spec with Codes := [] } } ∧
      GetRecoveryCodes memory Example.recoveryCodesLib Example.storeCodes Example.alice true
        = .ok Example.aliceCodes) ∧
    ((UpsertRecoveryCodes memory Example.codesLib Example.emptyStore Example.alice
        Example.passedCodes).1 = none ∧
      (UpsertRecoveryCodes memory Example.codesLib Example.emptyStore Example.alice
        Example.passedCodes).2
        = { Example.emptyStore with items :=
            (⟨Key [ webPrefix, usersPrefix, Example.alice, recoveryCodesPrefix],
              5 :: (Example.alice ++ 7 :: Example.encodeCodes Example.twoCodes), 0, 0⟩ ::
              Store.erase Example.emptyStore.items
                (Key [ webPrefix, usersPrefix, Example.alice, recoveryCodesPrefix])) } ∧
      (∃ res, GetRecoveryCodes memory Example.codesLib
          (UpsertRecoveryCodes memory Example.codesLib Example.emptyStore Example.alice
            Example.passedCodes).2 Example.alice true = .ok res ∧
          res = { Kind := str "recovery_codes", Version := str "v1",
                  Metadata := { Name := Example.alice, Namespace := [], Description := [] },
                  Spec := { Codes := Example.twoCodes, Created := 7 } } ∧
          res.Spec.Codes = Example.passedCodes.Spec.Codes) ∧
      GetRecoveryCodes memory Example.codesLib
          (UpsertRecoveryCodes memory Example.codesLib Example.emptyStore Example.alice
            Example.passedCodes).2 Example.alice false
        = .ok { Kind := str "recovery_codes", Version := str "v1",
                Metadata := { Name := Example.alice, Namespace := [], Description := [] },
                Spec := { Codes := [], Created := 7 } }) :=
  ⟨(GetRecoveryCodes_secrets memory Example.recoveryCodesLib Example.storeCodes
      Example.alice (by decide)).1
      ⟨Key [ webPrefix, usersPrefix, Example.alice, recoveryCodesPrefix], [1], 0, 0⟩
      Example.aliceCodes (by decide) (by decide),
    (GetRecoveryCodes_secrets memory Example.codesLib Example.emptyStore
      Example.alice (by decide)).2 Example.emptyStore Example.passedCodes
      { Kind := str "recovery_codes", Version := str "v1",
        Metadata := { Name := Example.alice, Namespace := str "default", Description := [] },
        Spec := { Codes := Example.twoCodes, Created := 7 } }
      { Kind := str "recovery_codes", Version := str "v1",
        Metadata := { Name := Example.alice, Namespace := [], Description := [] },
        Spec := { Codes := Example.twoCodes, Created := 7 } }
      (5 :: (Example.alice ++ 7 :: Example.encodeCodes Example.twoCodes))
      (by decide) (by decide) (by decide) (by decide)⟩

/-! ## Creating and deleting users -/

theorem GetUser_stored {σ : Type} (B : Backend σ) (L : UserLib) (s : σ) (user : Bytes)
    (item : Item) (stored : User) (huser : user ≠ [])
    (hget : B.Get s (Key [ webPrefix, usersPrefix, user, paramsPrefix]) = .ok item)
    (hdecode : L.UnmarshalUser item.Value item.ID item.Expires = .ok stored) :
    GetUser B L s user false = .ok (stored.SetLocalAuth none) := by
  simp [GetUser, huser, hget, hdecode]

/-- C16: for a user that passes validation (`u'` is the user with its defaults set)
and whose primary record is stored and decodes, `CreateUser` fails with
AlreadyExists and returns the state of the backend as it was, whatever the
backend: nothing is written. -/
theorem CreateUser_existing_user_AlreadyExists {σ : Type} (B : Backend σ) (L : UserLib)
    (N : SecretsLib) (M : MFADeviceLib) (s : σ) (user u' : User) (item : Item) (stored : User)
    (hvalid : L.ValidateUser user = .ok u') (hname : u'.GetName ≠ [])
    (hget : B.Get s (Key [ webPrefix, usersPrefix, u'.GetName, paramsPrefix]) = .ok item)
    (hdecode : L.UnmarshalUser item.Value item.ID item.Expires = .ok stored) :
    CreateUser B L N M s user
        = (some (trace.AlreadyExists "user %q already registered" [u'.GetName]), s) ∧
      (trace.AlreadyExists "user %q already registered" [u'.GetName]).kind
        = ErrorKind.AlreadyExists := by
  have hg := GetUser_stored B L s u'.GetName item stored hname hget hdecode
  simp [CreateUser, CreateUser.create, hvalid, hg, trace.AlreadyExists]

/-- Witness of C16: `alice` is stored; creating `alice` again, with secrets, on the
traced in-memory store fails and writes nothing. -/
theorem CreateUser_existing_user_witness :
    CreateUser memory.traced Example.namesLib Example.secretsLib Example.lib
        (Example.storeTwoUsers, [])
        { Example.userNamed Example.alice 0 0 with LocalAuth := Example.carol.LocalAuth }
      = (some (trace.AlreadyExists "user %q already registered" [Example.alice]),
          (Example.storeTwoUsers, [])) :=
  (CreateUser_existing_user_AlreadyExists memory.traced Example.namesLib Example.secretsLib
    Example.lib (Example.storeTwoUsers, [])
    { Example.userNamed Example.alice 0 0 with LocalAuth := Example.carol.LocalAuth }
    { Example.userNamed Example.alice 0 0 with LocalAuth := Example.carol.LocalAuth }
    (Example.primary Example.alice) (Example.userNamed Example.alice 0 0)
    (by decide) (by decide) (by decide) (by decide)).1

/-- C17, at a store with the users `alice` and `alice2`: both are read before;
`DeleteUser` of `alice` succeeds, its range from `/web/users/alice` to
`/web/users/alicf` holds the key of the primary record of `alice2`, and
afterwards the store is empty and `alice2` is not found. -/
theorem DeleteUser_deletes_user_with_name_as_prefix :
    GetUser memory Example.namesLib Example.storeTwoUsers (str "alice2") false
        = .ok (Example.userNamed (str "alice2") 0 0) ∧
      RangeEnd (Key [ webPrefix, usersPrefix, str "alice"]) = str "/web/users/alicf" ∧
      inRange (Key [ webPrefix, usersPrefix, str "alice"])
        (RangeEnd (Key [ webPrefix, usersPrefix, str "alice"]))
        (Key [ webPrefix, usersPrefix, str "alice2", paramsPrefix]) = true ∧
      DeleteUser memory Example.namesLib Example.storeTwoUsers (str "alice")
        = (none, { items := [], now := 100 }) ∧
      GetUser memory Example.namesLib { items := [], now := 100 } (str "alice2") false
        = .error (trace.NotFound "user %q is not found" [str "alice2"]) := by
  decide

/-! ## Preconditions of the registration flow -/

/-- C20: `Finish` checks the user, then the device name, then the response, each a
BadParameter failure with a message of its own, and `Begin` fails with
BadParameter on an empty user; the result is the same whatever the identity of
the flow, and the state is returned as it was: no session data and no device
is read or written. -/
theorem RegistrationFlow_preconditions {σ : Type} (F : webauthn.RegistrationFlow σ) (s : σ)
    (user deviceName : Bytes) (resp : Option webauthn.CredentialCreationResponse) :
    F.Finish s [] deviceName resp = (.error (trace.BadParameter "user required" []), s) ∧
    (user ≠ [] →
      F.Finish s user [] resp = (.error (trace.BadParameter "device name required" []), s)) ∧
    (user ≠ [] → deviceName ≠ [] →
      F.Finish s user deviceName none
        = (.error (trace.BadParameter "response required" []), s)) ∧
    F.Begin s [] = (.error (trace.BadParameter "user required" []), s) ∧
    (trace.BadParameter "user required" []).kind = ErrorKind.BadParameter ∧
    (trace.BadParameter "device name required" []).kind = ErrorKind.BadParameter ∧
    (trace.BadParameter "response required" []).kind = ErrorKind.BadParameter := by
  refine ⟨by simp [webauthn.RegistrationFlow.Finish], ?_, ?_,
    by simp [webauthn.RegistrationFlow.Begin], rfl, rfl, rfl⟩
  · intro hu
    simp [webauthn.RegistrationFlow.Finish, hu]
  · intro hu hd
    simp [webauthn.RegistrationFlow.Finish, hu, hd]

/-- Witness of C20: the flow over the in-memory store, for the user `alice`, with
an empty device name and with a nil response. -/
theorem RegistrationFlow_preconditions_witness :
    Example.flow.Finish Example.emptyStore Example.alice [] none
        = (.error (trace.BadParameter "device name required" []), Example.emptyStore) ∧
      Example.flow.Finish Example.emptyStore Example.alice (str "webauthn2") none
        = (.error (trace.BadParameter "response required" []), Example.emptyStore) :=
  ⟨(RegistrationFlow_preconditions Example.flow Example.emptyStore Example.alice
      (str "webauthn2") none).2.1 (by decide),
    (RegistrationFlow_preconditions Example.flow Example.emptyStore Example.alice
      (str "webauthn2") none).2.2.1 (by decide) (by decide)⟩

/-! ## The writes of the operations on users and their secrets -/

theorem traced_Put {σ : Type} (B : Backend σ) (st : σ × List WriteOp) (item : Item) :
    (∃ err, B.traced.Put st item = .error err) ∨
      (∃ s1, B.Put st.1 item = .ok s1 ∧
        B.traced.Put st item = .ok (s1, st.2 ++ [WriteOp.Put item])) := by
  simp only [Backend.traced]
  cases h : B.Put st.1 item with
  | error e => exact Or.inl ⟨e, rfl⟩
  | ok s1 => exact Or.inr ⟨s1, rfl, rfl⟩

theorem traced_Create {σ : Type} (B : Backend σ) (st : σ × List WriteOp) (item : Item) :
    (∃ err, B.traced.Create st item = .error err) ∨
      (∃ s1, B.Create st.1 item = .ok s1 ∧
        B.traced.Create st item = .ok (s1, st.2 ++ [WriteOp.Create item])) := by
  simp only [Backend.traced]
  cases h : B.Create st.1 item with
  | error e => exact Or.inl ⟨e, rfl⟩
  | ok s1 => exact Or.inr ⟨s1, rfl, rfl⟩

theorem traced_Update {σ : Type} (B : Backend σ) (st : σ × List WriteOp) (item : Item) :
    (∃ err, B.traced.Update st item = .error err) ∨
      (∃ s1, B.Update st.1 item = .ok s1 ∧
        B.traced.Update st item = .ok (s1, st.2 ++ [WriteOp.Update item])) := by
  simp only [Backend.traced]
  cases h : B.Update st.1 item with
  | error e => exact Or.inl ⟨e, rfl⟩
  | ok s1 => exact Or.inr ⟨s1, rfl, rfl⟩

/-- On a traced backend `UpsertMFADevice` either fails and leaves the state as it
was, or succeeds with one write, the `Put` of the record of the device. -/
theorem UpsertMFADevice_traced {σ : Type} (B : Backend σ) (M : MFADeviceLib)
    (st : σ × List WriteOp) (user : Bytes) (d : MFADevice) :
    (∃ err, UpsertMFADevice B.traced M st user d = (some err, st)) ∨
      (∃ d' v s1, M.CheckAndSetDefaults d = .ok d' ∧ M.Marshal d' = .ok v ∧
        UpsertMFADevice B.traced M st user d
          = (none, (s1, st.2 ++ [WriteOp.Put ⟨mfaDeviceKey user d'.Id, v, 0, 0⟩]))) := by
  unfold UpsertMFADevice
  by_cases hu : user = []
  · exact Or.inl ⟨trace.BadParameter "missing parameter user" [], by simp [hu]⟩
  · simp only [hu, if_false]
    cases hc : M.CheckAndSetDefaults d with
    | error e => exact Or.inl ⟨_, rfl⟩
    | ok d' =>
      dsimp only
      cases hg : GetMFADevices B.traced M st user false with
      | error e => exact Or.inl ⟨_, rfl⟩
      | ok devs =>
        dsimp only
        cases hl : UpsertMFADevice.loop d' devs with
        | some e => exact Or.inl ⟨_, rfl⟩
        | none =>
          dsimp only
          cases hm : M.Marshal d' with
          | error e => exact Or.inl ⟨_, rfl⟩
          | ok v =>
            dsimp only
            rcases traced_Put B st ⟨mfaDeviceKey user d'.Id, v, 0, 0⟩ with ⟨e, he⟩ | ⟨s1, -, hs1⟩
            · rw [he]
              exact Or.inl ⟨_, rfl⟩
            · rw [hs1]
              exact Or.inr ⟨d', v, s1, rfl, hm, rfl⟩

/-- On a traced backend the loop of `upsertLocalAuthSecrets` adds to the log only
records of devices, and, when it succeeds, the record of every device. -/
theorem upsertLocalAuthSecrets_loop_traced {σ : Type} (B : Backend σ) (M : MFADeviceLib)
    (user : Bytes) : ∀ (ds : List MFADevice) (st : σ × List WriteOp),
    ∃ ops, (upsertLocalAuthSecrets.loop B.traced M user st ds).2.2 = st.2 ++ ops ∧
      (∀ op ∈ ops, ∃ id v, op = WriteOp.Put ⟨mfaDeviceKey user id, v, 0, 0⟩) ∧
      ((upsertLocalAuthSecrets.loop B.traced M user st ds).1 = none →
        ∀ d ∈ ds, ∃ d' v, M.CheckAndSetDefaults d = .ok d' ∧ M.Marshal d' = .ok v ∧
          WriteOp.Put ⟨mfaDeviceKey user d'.Id, v, 0, 0⟩ ∈ ops)
  | [], st => ⟨[], by simp [upsertLocalAuthSecrets.loop]⟩
  | d :: ds, st => by
    rcases UpsertMFADevice_traced B M st user d with ⟨e, he⟩ | ⟨d', v, s1, hc, hm, hok⟩
    · refine ⟨[], ?_⟩
      simp [upsertLocalAuthSecrets.loop, he]
    · obtain ⟨ops, h1, h2, h3⟩ := upsertLocalAuthSecrets_loop_traced B M user ds
        (s1, st.2 ++ [WriteOp.Put ⟨mfaDeviceKey user d'.Id, v, 0, 0⟩])
      refine ⟨WriteOp.Put ⟨mfaDeviceKey user d'.Id, v, 0, 0⟩ :: ops, ?_, ?_, ?_⟩
      · simp only [upsertLocalAuthSecrets.loop, hok]
        rw [h1]
        simp
      · intro op hop
        rcases List.mem_cons.1 hop with rfl | hop
        · exact ⟨d'.Id, v, rfl⟩
        · exact h2 op hop
      · simp only [upsertLocalAuthSecrets.loop, hok]
        intro hnone x hx
        rcases List.mem_cons.1 hx with rfl | hx
        · exact ⟨d', v, hc, hm, List.mem_cons_self _ _⟩
        · obtain ⟨x', v', hx1, hx2, hx3⟩ := h3 hnone x hx
          exact ⟨x', v', hx1, hx2, List.mem_cons_of_mem _ hx3⟩

/-- On a traced backend `UpsertWebauthnLocalAuth` either fails and leaves the state
as it was, or succeeds with one write, the `Put` of the record. -/
theorem UpsertWebauthnLocalAuth_traced {σ : Type} (B : Backend σ) (N : SecretsLib)
    (st : σ × List WriteOp) (user : Bytes) (wla : WebauthnLocalAuth) :
    (∃ err, UpsertWebauthnLocalAuth B.traced N st user (some wla) = (some err, st)) ∨
      (∃ v s1, N.MarshalWebauthnLocalAuth wla = .ok v ∧
        UpsertWebauthnLocalAuth B.traced N st user (some wla)
          = (none, (s1, st.2 ++ [WriteOp.Put ⟨webauthnLocalAuthKey user, v, 0, 0⟩]))) := by
  unfold UpsertWebauthnLocalAuth
  by_cases hu : user = []
  · exact Or.inl ⟨trace.BadParameter "missing parameter user" [], by simp [hu]⟩
  · simp only [hu, if_false]
    cases hc : N.CheckWebauthnLocalAuth wla with
    | some e => exact Or.inl ⟨_, rfl⟩
    | none =>
      dsimp only
      cases hm : N.MarshalWebauthnLocalAuth wla with
      | error e => exact Or.inl ⟨_, rfl⟩
      | ok v =>
        dsimp only
        rcases traced_Put B st ⟨webauthnLocalAuthKey user, v, 0, 0⟩ with ⟨e, he⟩ | ⟨s1, -, hs1⟩
        · rw [he]
          exact Or.inl ⟨_, rfl⟩
        · rw [hs1]
          exact Or.inr ⟨v, s1, rfl, rfl⟩

/-- On a traced backend `CreateUser`, up to the creation of the primary record,
either fails and leaves the state as it was, or succeeds with one write, the
`Create` of the primary record. -/
theorem CreateUser_create_traced {σ : Type} (B : Backend σ) (L : UserLib)
    (st : σ × List WriteOp) (user : User) :
    (∃ err, CreateUser.create B.traced L st user = (.error err, st)) ∨
      (∃ u v s1, L.ValidateUser user = .ok u ∧ L.MarshalUser u.WithoutSecrets = .ok v ∧
        CreateUser.create B.traced L st user
          = (.ok u, (s1, st.2 ++ [WriteOp.Create (userItem u v 0)]))) := by
  unfold CreateUser.create
  cases hv : L.ValidateUser user with
  | error e => exact Or.inl ⟨_, rfl⟩
  | ok u =>
    dsimp only
    cases hg : GetUser B.traced L st u.GetName false with
    | ok found => exact Or.inl ⟨_, rfl⟩
    | error e =>
      dsimp only
      by_cases hnf : trace.IsNotFound e = true
      · simp only [hnf, Bool.not_true, Bool.false_eq_true, if_false]
        cases hm : L.MarshalUser u.WithoutSecrets with
        | error e => exact Or.inl ⟨_, rfl⟩
        | ok v =>
          dsimp only
          rcases traced_Create B st (userItem u v 0) with ⟨e, he⟩ | ⟨s1, -, hs1⟩
          · rw [he]
            exact Or.inl ⟨_, rfl⟩
          · rw [hs1]
            exact Or.inr ⟨u, v, s1, rfl, hm, rfl⟩
      · simp only [hnf, Bool.not_false, if_true]
        exact Or.inl ⟨_, rfl⟩

/-- On a traced backend `UpsertPasswordHash` writes at most the primary record of
the user prototype, by `Create`, and then, exactly when it succeeds, the hash
under the key of the password, by `Put`. -/
theorem UpsertPasswordHash_traced {σ : Type} (B : Backend σ) (L : UserLib) (N : SecretsLib)
    (st : σ × List WriteOp) (username hash : Bytes) :
    ∃ pre, pre.length ≤ 1 ∧ (∀ op ∈ pre, ∃ item, op = WriteOp.Create item) ∧
      (((UpsertPasswordHash B.traced L N st username hash).1 ≠ none ∧
          (UpsertPasswordHash B.traced L N st username hash).2.2 = st.2 ++ pre) ∨
        ((UpsertPasswordHash B.traced L N st username hash).1 = none ∧
          (UpsertPasswordHash B.traced L N st username hash).2.2
            = st.2 ++ pre ++
              [WriteOp.Put ⟨Key [ webPrefix, usersPrefix, username, pwdPrefix], hash, 0, 0⟩])) := by
  have hput : ∀ (st1 : σ × List WriteOp),
      ((UpsertPasswordHash.put B.traced st1 username hash).1 ≠ none ∧
          (UpsertPasswordHash.put B.traced st1 username hash).2.2 = st1.2) ∨
        ((UpsertPasswordHash.put B.traced st1 username hash).1 = none ∧
          (UpsertPasswordHash.put B.traced st1 username hash).2.2 = st1.2 ++
            [WriteOp.Put ⟨Key [ webPrefix, usersPrefix, username, pwdPrefix], hash, 0, 0⟩]) := by
    intro st1
    unfold UpsertPasswordHash.put
    rcases traced_Put B st1 ⟨Key [ webPrefix, usersPrefix, username, pwdPrefix], hash, 0, 0⟩
      with ⟨e, he⟩ | ⟨s1, -, hs1⟩
    · rw [he]
      exact Or.inl ⟨by simp, rfl⟩
    · rw [hs1]
      exact Or.inr ⟨rfl, rfl⟩
  unfold UpsertPasswordHash
  cases hn : N.NewUser username with
  | error e => exact ⟨[], by simp, by simp, Or.inl ⟨by simp, by simp⟩⟩
  | ok proto =>
    dsimp only
    rcases CreateUser_create_traced B L st proto with ⟨e, he⟩ | ⟨u, v, s1, -, -, hok⟩
    · rw [he]
      dsimp only
      by_cases hae : trace.IsAlreadyExists e = true
      · simp only [hae, Bool.not_true, Bool.false_eq_true, if_false]
        refine ⟨[], by simp, by simp, ?_⟩
        simpa using hput st
      · simp only [hae, Bool.not_false, if_true]
        exact ⟨[], by simp, by simp, Or.inl ⟨by simp, by simp⟩⟩
    · rw [hok]
      dsimp only
      refine ⟨[WriteOp.Create (userItem u v 0)], by simp, ?_, ?_⟩
      · intro op hop
        exact ⟨_, List.mem_singleton.1 hop⟩
      · simpa using hput (s1, st.2 ++ [WriteOp.Create (userItem u v 0)])

theorem mfaDeviceKey_ne_pwd (user id : Bytes) :
    mfaDeviceKey user id ≠ Key [ webPrefix, usersPrefix, user, pwdPrefix] := by
  have h1 : mfaDevicePrefix = [109, 102, 97] := by decide
  have h2 : pwdPrefix = [112, 119, 100] := by decide
  simp [mfaDeviceKey, Key, h1, h2]

theorem webauthnLocalAuthKey_ne_pwd (user : Bytes) :
    webauthnLocalAuthKey user ≠ Key [ webPrefix, usersPrefix, user, pwdPrefix] := by
  have h1 : webauthnLocalAuthPrefix
      = [119, 101, 98, 97, 117, 116, 104, 110, 108, 111, 99, 97, 108, 97, 117, 116, 104] := by
    decide
  have h2 : pwdPrefix = [112, 119, 100] := by decide
  simp [webauthnLocalAuthKey, Key, h1, h2]

/-- On a traced backend the steps of `upsertLocalAuthSecrets` after the password
hash write no record under the key of the password; when they succeed they
have written the record of every device and of the WebAuthn local auth. -/
theorem upsertLocalAuthSecrets_devices_traced {σ : Type} (B : Backend σ) (N : SecretsLib)
    (M : MFADeviceLib) (st : σ × List WriteOp) (user : Bytes) (auth : LocalAuthSecrets) :
    ∃ ops, (upsertLocalAuthSecrets.devices B.traced N M st user auth).2.2 = st.2 ++ ops ∧
      (∀ op ∈ ops, op.key? ≠ some (Key [ webPrefix, usersPrefix, user, pwdPrefix])) ∧
      ((upsertLocalAuthSecrets.devices B.traced N M st user auth).1 = none →
        (∀ d ∈ auth.MFA, ∃ d' v, M.CheckAndSetDefaults d = .ok d' ∧ M.Marshal d' = .ok v ∧
          WriteOp.Put ⟨mfaDeviceKey user d'.Id, v, 0, 0⟩ ∈ ops) ∧
        (∀ wla, auth.Webauthn = some wla → ∃ v, N.MarshalWebauthnLocalAuth wla = .ok v ∧
          WriteOp.Put ⟨webauthnLocalAuthKey user, v, 0, 0⟩ ∈ ops)) := by
  obtain ⟨ops, h1, h2, h3⟩ := upsertLocalAuthSecrets_loop_traced B M user auth.MFA st
  have hkeys : ∀ op ∈ ops, op.key? ≠ some (Key [ webPrefix, usersPrefix, user, pwdPrefix]) := by
    intro op hop
    obtain ⟨id, v, rfl⟩ := h2 op hop
    simpa [WriteOp.key?] using mfaDeviceKey_ne_pwd user id
  unfold upsertLocalAuthSecrets.devices
  cases hl : upsertLocalAuthSecrets.loop B.traced M user st auth.MFA with
  | mk e st1 =>
    rw [hl] at h1 h3
    cases e with
    | some err =>
      exact ⟨ops, h1, hkeys, by simp⟩
    | none =>
      dsimp only at h1 h3 ⊢
      cases hw : auth.Webauthn with
      | none =>
        exact ⟨ops, h1, hkeys, fun _ => ⟨h3 rfl, by simp⟩⟩
      | some wla =>
        dsimp only
        rcases UpsertWebauthnLocalAuth_traced B N st1 user wla with ⟨e, he⟩ | ⟨v, s2, hm, hok⟩
        · rw [he]
          exact ⟨ops, h1, hkeys, by simp⟩
        · rw [hok]
          refine ⟨ops ++ [WriteOp.Put ⟨webauthnLocalAuthKey user, v, 0, 0⟩], ?_, ?_, ?_⟩
          · simp [h1]
          · intro op hop
            rcases List.mem_append.1 hop with hop | hop
            · exact hkeys op hop
            · rw [List.mem_singleton.1 hop]
              simpa [WriteOp.key?] using webauthnLocalAuthKey_ne_pwd user
          · intro _
            refine ⟨?_, ?_⟩
            · intro d hd
              obtain ⟨d', v', hc, hm', hmem⟩ := h3 rfl d hd
              exact ⟨d', v', hc, hm', List.mem_append_left _ hmem⟩
            · intro wla' hwla'
              cases hwla'
              exact ⟨v, hm, List.mem_append_right _ (List.mem_singleton.2 rfl)⟩

/-- On a traced backend, when `upsertLocalAuthSecrets` succeeds the writes it has
added to the log hold the secrets of the bundle. -/
theorem upsertLocalAuthSecrets_traced {σ : Type} (B : Backend σ) (L : UserLib)
    (N : SecretsLib) (M : MFADeviceLib) (st : σ × List WriteOp) (user : Bytes)
    (auth : LocalAuthSecrets) :
    ∃ ops, (upsertLocalAuthSecrets B.traced L N M st user auth).2.2 = st.2 ++ ops ∧
      ((upsertLocalAuthSecrets B.traced L N M st user auth).1 = none →
        secretsWritten N M user auth ops) := by
  unfold upsertLocalAuthSecrets
  by_cases hp : auth.PasswordHash.length > 0
  · have hne : auth.PasswordHash ≠ [] := by
      intro h
      rw [h] at hp
      exact absurd hp (by decide)
    simp only [hp, if_true]
    obtain ⟨pre, -, -, hcase⟩ := UpsertPasswordHash_traced B L N st user auth.PasswordHash
    cases hr : UpsertPasswordHash B.traced L N st user auth.PasswordHash with
    | mk e st1 =>
      rw [hr] at hcase
      cases e with
      | some err =>
        rcases hcase with ⟨-, h2⟩ | ⟨h1, -⟩
        · exact ⟨pre, h2, by simp⟩
        · exact absurd h1 (by simp)
      | none =>
        rcases hcase with ⟨h1, -⟩ | ⟨-, h2⟩
        · exact absurd rfl h1
        · dsimp only at h2 ⊢
          obtain ⟨ops, h3, -, h5⟩ := upsertLocalAuthSecrets_devices_traced B N M st1 user auth
          refine ⟨pre ++ [WriteOp.Put
            ⟨Key [ webPrefix, usersPrefix, user, pwdPrefix], auth.PasswordHash, 0, 0⟩] ++ ops,
            ?_, ?_⟩
          · rw [h3, h2]
            simp
          · intro hnone
            obtain ⟨h6, h7⟩ := h5 hnone
            refine ⟨fun _ => ?_, fun h => absurd h hne, ?_, ?_⟩
            · exact List.mem_append_left _ (List.mem_append_right _ (List.mem_singleton.2 rfl))
            · intro d hd
              obtain ⟨d', v, hc, hm, hmem⟩ := h6 d hd
              exact ⟨d', v, hc, hm, List.mem_append_right _ hmem⟩
            · intro wla hwla
              obtain ⟨v, hm, hmem⟩ := h7 wla hwla
              exact ⟨v, hm, List.mem_append_right _ hmem⟩
  · have he : auth.PasswordHash = [] := by
      cases h : auth.PasswordHash with
      | nil => rfl
      | cons x xs => rw [h] at hp; exact absurd (Nat.succ_pos _) hp
    simp only [hp, if_false]
    obtain ⟨ops, h3, h4, h5⟩ := upsertLocalAuthSecrets_devices_traced B N M st user auth
    refine ⟨ops, h3, fun hnone => ?_⟩
    obtain ⟨h6, h7⟩ := h5 hnone
    exact ⟨fun h => absurd he h, fun _ => h4, h6, h7⟩

/-- On a traced backend the last step of `CreateUser`, `UpdateUser` and `UpsertUser`
writes nothing for a user without a bundle of secrets, and, when it succeeds
for a user with one, has written the secrets of the bundle. -/
theorem upsertUserSecrets_traced {σ : Type} (B : Backend σ) (L : UserLib) (N : SecretsLib)
    (M : MFADeviceLib) (st : σ × List WriteOp) (u : User) :
    ∃ rest, (upsertUserSecrets B.traced L N M st u).2.2 = st.2 ++ rest ∧
      (u.GetLocalAuth = none → rest = [] ∧ upsertUserSecrets B.traced L N M st u = (none, st)) ∧
      ((upsertUserSecrets B.traced L N M st u).1 = none →
        ∀ auth, u.GetLocalAuth = some auth → secretsWritten N M u.GetName auth rest) := by
  unfold upsertUserSecrets
  cases ha : u.GetLocalAuth with
  | none => exact ⟨[], by simp, by simp, by simp⟩
  | some auth =>
    dsimp only
    obtain ⟨ops, h1, h2⟩ := upsertLocalAuthSecrets_traced B L N M st u.GetName auth
    cases hr : upsertLocalAuthSecrets B.traced L N M st u.GetName auth with
    | mk e st1 =>
      rw [hr] at h1 h2
      cases e with
      | some err => exact ⟨ops, h1, by simp, by simp⟩
      | none =>
        refine ⟨ops, h1, by simp, ?_⟩
        intro _ auth' hauth'
        cases hauth'
        exact h2 rfl

/-! ## The number of writes of one call -/

/-- Counterexample to C18 as stated, with users that pass the validation of the
bundle of secrets. `alice` holds the device `webauthn1`, written by
`UpsertMFADevice`; `UpsertUser` of `alice` with two TOTP devices, the second
under the name of `webauthn1`, fails at the second device with AlreadyExists,
after it has put the primary record and the record of the first device, which
stay in the store. And `UpsertUser` of `carol` on the empty store succeeds with
four writes. -/
theorem UpsertUser_several_writes :
    UpsertMFADevice memory Example.lib Example.emptyStore Example.alice Example.webauthn1
      = (none, Example.store1) ∧
    Example.namesLib.ValidateUser Example.aliceTwoDevices = .ok Example.aliceTwoDevices ∧
    UpsertUser memory.traced Example.namesLib Example.secretsLib Example.lib
        (Example.store1, []) Example.aliceTwoDevices
      = (some (trace.AlreadyExists "MFA device with name %q already exists" [str "key1"]),
          (⟨[Example.record (str "id4") [5], Example.primary Example.alice,
              Example.record (str "id1") [1]], 100⟩,
            [WriteOp.Put (Example.primary Example.alice),
              WriteOp.Put (Example.record (str "id4") [5])])) ∧
    Example.namesLib.ValidateUser Example.carol = .ok Example.carol ∧
    (UpsertUser memory.traced Example.namesLib Example.secretsLib Example.lib
      (Example.emptyStore, []) Example.carol).1 = none ∧
    (UpsertUser memory.traced Example.namesLib Example.secretsLib Example.lib
      (Example.emptyStore, []) Example.carol).2.2
      = [WriteOp.Put (Example.primary (str "carol")),
          WriteOp.Put
            ⟨Key [ webPrefix, usersPrefix, str "carol", pwdPrefix], Example.bcryptHash, 0, 0⟩,
          WriteOp.Put ⟨mfaDeviceKey (str "carol") (str "id1"), [1], 0, 0⟩,
          WriteOp.Put ⟨webauthnLocalAuthKey (str "carol"), [3, 3], 0, 0⟩] := by
  decide

theorem UpsertUser_without_secrets_traced {σ : Type} (B : Backend σ) (L : UserLib)
    (N : SecretsLib) (M : MFADeviceLib) (st : σ × List WriteOp) (user : User)
    (hnone : ∀ u, L.ValidateUser user = .ok u → u.GetLocalAuth = none) :
    (∃ err, UpsertUser B.traced L N M st user = (some err, st)) ∨
      (∃ u v s1, L.ValidateUser user = .ok u ∧ L.MarshalUser u.WithoutSecrets = .ok v ∧
        UpsertUser B.traced L N M st user
          = (none, (s1, st.2 ++ [WriteOp.Put (userItem u v u.GetResourceID)]))) := by
  unfold UpsertUser
  cases hv : L.ValidateUser user with
  | error e => exact Or.inl ⟨_, rfl⟩
  | ok u =>
    dsimp only
    cases hm : L.MarshalUser u.WithoutSecrets with
    | error e => exact Or.inl ⟨_, rfl⟩
    | ok v =>
      dsimp only
      rcases traced_Put B st (userItem u v u.GetResourceID) with ⟨e, he⟩ | ⟨s1, -, hs1⟩
      · rw [he]
        exact Or.inl ⟨_, rfl⟩
      · rw [hs1]
        dsimp only
        obtain ⟨_, -, h2, -⟩ := upsertUserSecrets_traced B L N M
          (s1, st.2 ++ [WriteOp.Put (userItem u v u.GetResourceID)]) u
        rw [(h2 (hnone u hv)).2]
        exact Or.inr ⟨u, v, s1, rfl, hm, rfl⟩

theorem UpdateUser_without_secrets_traced {σ : Type} (B : Backend σ) (L : UserLib)
    (N : SecretsLib) (M : MFADeviceLib) (st : σ × List WriteOp) (user : User)
    (hnone : ∀ u, L.ValidateUser user = .ok u → u.GetLocalAuth = none) :
    (∃ err, UpdateUser B.traced L N M st user = (some err, st)) ∨
      (∃ op s1, UpdateUser B.traced L N M st user = (none, (s1, st.2 ++ [op]))) := by
  unfold UpdateUser
  cases hv : L.ValidateUser user with
  | error e => exact Or.inl ⟨_, rfl⟩
  | ok u =>
    dsimp only
    cases hg : GetUser B.traced L st u.GetName false with
    | error e => exact Or.inl ⟨_, rfl⟩
    | ok found =>
      dsimp only
      cases hm : L.MarshalUser u.WithoutSecrets with
      | error e => exact Or.inl ⟨_, rfl⟩
      | ok v =>
        dsimp only
        rcases traced_Update B st (userItem u v u.GetResourceID) with ⟨e, he⟩ | ⟨s1, -, hs1⟩
        · rw [he]
          exact Or.inl ⟨_, rfl⟩
        · rw [hs1]
          dsimp only
          obtain ⟨_, -, h2, -⟩ := upsertUserSecrets_traced B L N M
            (s1, st.2 ++ [WriteOp.Update (userItem u v u.GetResourceID)]) u
          rw [(h2 (hnone u hv)).2]
          exact Or.inr ⟨_, s1, rfl⟩

theorem CreateUser_without_secrets_traced {σ : Type} (B : Backend σ) (L : UserLib)
    (N : SecretsLib) (M : MFADeviceLib) (st : σ × List WriteOp) (user : User)
    (hnone : ∀ u, L.ValidateUser user = .ok u → u.GetLocalAuth = none) :
    (∃ err, CreateUser B.traced L N M st user = (some err, st)) ∨
      (∃ op s1, CreateUser B.traced L N M st user = (none, (s1, st.2 ++ [op]))) := by
  unfold CreateUser
  rcases CreateUser_create_traced B L st user with ⟨e, he⟩ | ⟨u, v, s1, hv, -, hok⟩
  · rw [he]
    exact Or.inl ⟨_, rfl⟩
  · rw [hok]
    dsimp only
    obtain ⟨_, -, h2, -⟩ := upsertUserSecrets_traced B L N M
      (s1, st.2 ++ [WriteOp.Create (userItem u v 0)]) u
    rw [(h2 (hnone u hv)).2]
    exact Or.inr ⟨_, s1, rfl⟩

/-- C18, amended: for a user that has no bundle of local-auth secrets once
validated, one call of `UpsertUser`, `CreateUser` or `UpdateUser` on a traced
backend adds at most one write to the log, and none when it fails, the state
being then as it was; one call of `UpsertPasswordHash` adds at most two; and
for every user, with a bundle or not, once `UpsertUser` has put the primary
record, that write stays first in what the call adds to the log, whether the
writes of the secrets that follow succeed or fail, and nothing follows it for
a user without a bundle. -/
theorem user_calls_without_secrets_write_once {σ : Type} (B : Backend σ) (L : UserLib)
    (N : SecretsLib) (M : MFADeviceLib) (s : σ) (log : List WriteOp) (user : User)
    (hnone : ∀ u, L.ValidateUser user = .ok u → u.GetLocalAuth = none) :
    (∀ r, (r = UpsertUser B.traced L N M (s, log) user ∨
        r = CreateUser B.traced L N M (s, log) user ∨
        r = UpdateUser B.traced L N M (s, log) user) →
      (r.2.2 = log ∨ ∃ op, r.2.2 = log ++ [op]) ∧ (∀ err, r.1 = some err → r.2 = (s, log))) ∧
    (∀ username hash, ∃ ops,
      (UpsertPasswordHash B.traced L N (s, log) username hash).2.2 = log ++ ops ∧
        ops.length ≤ 2) ∧
    (∀ (other u : User) (v : Bytes) (s1 : σ), L.ValidateUser other = .ok u →
      L.MarshalUser u.WithoutSecrets = .ok v →
      B.Put s (userItem u v u.GetResourceID) = .ok s1 →
      ∃ rest, (UpsertUser B.traced L N M (s, log) other).2.2
          = log ++ WriteOp.Put (userItem u v u.GetResourceID) :: rest ∧
        (u.GetLocalAuth = none → rest = [])) := by
  refine ⟨?_, ?_, ?_⟩
  · have key : ∀ r : Option Error × σ × List WriteOp,
        ((∃ err, r = (some err, (s, log))) ∨ (∃ op s1, r = (none, (s1, log ++ [op])))) →
        (r.2.2 = log ∨ ∃ op, r.2.2 = log ++ [op]) ∧
          (∀ err, r.1 = some err → r.2 = (s, log)) := by
      rintro r (⟨err, rfl⟩ | ⟨op, s1, rfl⟩)
      · exact ⟨Or.inl rfl, fun _ _ => rfl⟩
      · exact ⟨Or.inr ⟨op, rfl⟩, fun err h => absurd h (by simp)⟩
    rintro r (rfl | rfl | rfl)
    · apply key
      rcases UpsertUser_without_secrets_traced B L N M (s, log) user hnone with
        ⟨e, he⟩ | ⟨u, v, s1, -, -, hok⟩
      · exact Or.inl ⟨e, he⟩
      · exact Or.inr ⟨_, s1, hok⟩
    · apply key
      rcases CreateUser_without_secrets_traced B L N M (s, log) user hnone with
        ⟨e, he⟩ | ⟨op, s1, hok⟩
      · exact Or.inl ⟨e, he⟩
      · exact Or.inr ⟨op, s1, hok⟩
    · apply key
      rcases UpdateUser_without_secrets_traced B L N M (s, log) user hnone with
        ⟨e, he⟩ | ⟨op, s1, hok⟩
      · exact Or.inl ⟨e, he⟩
      · exact Or.inr ⟨op, s1, hok⟩
  · intro username hash
    obtain ⟨pre, hlen, -, hcase⟩ := UpsertPasswordHash_traced B L N (s, log) username hash
    rcases hcase with ⟨-, h⟩ | ⟨-, h⟩
    · exact ⟨pre, h, by omega⟩
    · refine ⟨pre ++ [WriteOp.Put
        ⟨Key [ webPrefix, usersPrefix, username, pwdPrefix], hash, 0, 0⟩], ?_, ?_⟩
      · rw [h]
        simp
      · simp
        omega
  · intro other u v s1 hv hm hput
    have hp : B.traced.Put (s, log) (userItem u v u.GetResourceID)
        = .ok (s1, log ++ [WriteOp.Put (userItem u v u.GetResourceID)]) := by
      simp [Backend.traced, hput]
    obtain ⟨rest, h1, h2, -⟩ := upsertUserSecrets_traced B L N M
      (s1, log ++ [WriteOp.Put (userItem u v u.GetResourceID)]) u
    refine ⟨rest, ?_, fun hn => (h2 hn).1⟩
    simp only [UpsertUser, hv, hm, hp]
    rw [h1]
    simp

/-- Witness of C18, amended: `UpsertUser` of a user `dave` without secrets on the
empty store writes the primary record, and nothing else; and the call of
`UpsertUser` for `alice` with two devices that fails at the second device has
the `Put` of the primary record first among its writes. -/
theorem user_calls_without_secrets_write_once_witness :
    ((UpsertUser memory.traced Example.namesLib Example.secretsLib Example.lib
        (Example.emptyStore, []) (Example.userNamed (str "dave") 0 0)).2.2 = [] ∨
      ∃ op, (UpsertUser memory.traced Example.namesLib Example.secretsLib Example.lib
        (Example.emptyStore, []) (Example.userNamed (str "dave") 0 0)).2.2 = [] ++ [op]) ∧
    (UpsertUser memory.traced Example.namesLib Example.secretsLib Example.lib
        (Example.emptyStore, []) (Example.userNamed (str "dave") 0 0)).2.2
      = [WriteOp.Put (Example.primary (str "dave"))] ∧
    (UpsertUser memory.traced Example.namesLib Example.secretsLib Example.lib
        (Example.store1, []) Example.aliceTwoDevices).1 ≠ none ∧
    ∃ rest, (UpsertUser memory.traced Example.namesLib Example.secretsLib Example.lib
        (Example.store1, []) Example.aliceTwoDevices).2.2
      = [] ++ WriteOp.Put (userItem Example.aliceTwoDevices Example.alice
          Example.aliceTwoDevices.GetResourceID) :: rest ∧
      (Example.aliceTwoDevices.GetLocalAuth = none → rest = []) :=
  ⟨((user_calls_without_secrets_write_once memory Example.namesLib Example.secretsLib
      Example.lib Example.emptyStore [] (Example.userNamed (str "dave") 0 0)
      (fun u hu => by
        have h : Example.namesLib.ValidateUser (Example.userNamed (str "dave") 0 0)
            = .ok (Example.userNamed (str "dave") 0 0) := by decide
        rw [h] at hu
        rw [← Except.ok.inj hu]
        rfl)).1 _ (Or.inl rfl)).1,
    by decide, by decide,
    (user_calls_without_secrets_write_once memory Example.namesLib Example.secretsLib
      Example.lib Example.store1 [] (Example.userNamed (str "dave") 0 0)
      (fun u hu => by
        have h : Example.namesLib.ValidateUser (Example.userNamed (str "dave") 0 0)
            = .ok (Example.userNamed (str "dave") 0 0) := by decide
        rw [h] at hu
        rw [← Except.ok.inj hu]
        rfl)).2.2 Example.aliceTwoDevices Example.aliceTwoDevices Example.alice
      ⟨[Example.primary Example.alice, Example.record (str "id1") [1]], 100⟩
      (by decide) (by decide) (by decide)⟩

/-! ## What `UpsertUser` stores -/

/-- The writes of `UpsertUser` on a traced backend. A user that fails validation
is rejected with the state and the log as they were; and when `UpsertUser`
succeeds for a user that passes validation (`u` is the user with its defaults
set), its first write is the `Put`, under the key of the parameters of the user
and with the expiry of the user, of the encoding of `u.WithoutSecrets`, which
has no local-auth bundle; nothing else is written for a user without a bundle,
and for a user with one the writes that follow hold its secrets, each under a
key of its own. -/
theorem UpsertUser_writes {σ : Type} (B : Backend σ) (L : UserLib) (N : SecretsLib)
    (M : MFADeviceLib) (s : σ) (log : List WriteOp) (user : User) :
    (∀ err, L.ValidateUser user = .error err →
      UpsertUser B.traced L N M (s, log) user = (some err, (s, log))) ∧
    (∀ u st', L.ValidateUser user = .ok u →
      UpsertUser B.traced L N M (s, log) user = (none, st') →
      ∃ value rest, L.MarshalUser u.WithoutSecrets = .ok value ∧
        u.WithoutSecrets.GetLocalAuth = none ∧
        (userItem u value u.GetResourceID).Key
          = Key [ webPrefix, usersPrefix, u.GetName, paramsPrefix] ∧
        (userItem u value u.GetResourceID).Expires = u.Expiry ∧
        st'.2 = log ++ WriteOp.Put (userItem u value u.GetResourceID) :: rest ∧
        (u.GetLocalAuth = none → rest = []) ∧
        (∀ auth, u.GetLocalAuth = some auth → secretsWritten N M u.GetName auth rest)) := by
  constructor
  · intro err hv
    simp [UpsertUser, hv, trace.Wrap]
  · intro u st' hv hok
    simp only [UpsertUser, hv] at hok
    cases hm : L.MarshalUser u.WithoutSecrets with
    | error e => simp [hm] at hok
    | ok v =>
      simp only [hm] at hok
      rcases traced_Put B (s, log) (userItem u v u.GetResourceID) with ⟨e, he⟩ | ⟨s1, -, hs1⟩
      · simp [he] at hok
      · simp only [hs1] at hok
        obtain ⟨rest, h1, h2, h3⟩ := upsertUserSecrets_traced B L N M
          (s1, log ++ [WriteOp.Put (userItem u v u.GetResourceID)]) u
        rw [hok] at h1 h3
        refine ⟨v, rest, rfl, rfl, rfl, rfl, ?_, fun hn => (h2 hn).1, h3 rfl⟩
        rw [h1]
        simp

/-- The writes of `UpsertUser` of `carol`, who has a password hash, the device
`webauthn1` and a WebAuthn user handle, on the empty store. -/
theorem UpsertUser_writes_carol :
    ∃ value rest, Example.namesLib.MarshalUser Example.carol.WithoutSecrets = .ok value ∧
      Example.carol.WithoutSecrets.GetLocalAuth = none ∧
      (userItem Example.carol value Example.carol.GetResourceID).Key
        = Key [ webPrefix, usersPrefix, Example.carol.GetName, paramsPrefix] ∧
      (userItem Example.carol value Example.carol.GetResourceID).Expires
        = Example.carol.Expiry ∧
      (UpsertUser memory.traced Example.namesLib Example.secretsLib Example.lib
          (Example.emptyStore, []) Example.carol).2.2
        = [] ++ WriteOp.Put (userItem Example.carol value Example.carol.GetResourceID) :: rest ∧
      (Example.carol.GetLocalAuth = none → rest = []) ∧
      (∀ auth, Example.carol.GetLocalAuth = some auth →
        secretsWritten Example.secretsLib Example.lib Example.carol.GetName auth rest) :=
  (UpsertUser_writes memory Example.namesLib Example.secretsLib Example.lib
    Example.emptyStore [] Example.carol).2 Example.carol
    (UpsertUser memory.traced Example.namesLib Example.secretsLib Example.lib
      (Example.emptyStore, []) Example.carol).2
    (by decide) (by decide)

/-- The user `bob`, whose bundle holds a password hash that is not of the shape of
a bcrypt hash and a device without a name, fails validation: `UpsertUser`
rejects it with the store and the log of writes as they were. -/
theorem UpsertUser_rejects_invalid_bundle :
    UpsertUser memory.traced Example.namesLib Example.secretsLib Example.lib
        (Example.emptyStore, []) Example.bob
      = (some (trace.BadParameter "invalid password hash" []), (Example.emptyStore, [])) :=
  (UpsertUser_writes memory Example.namesLib Example.secretsLib Example.lib
    Example.emptyStore [] Example.bob).1 _ (by decide)

theorem pwdKey_ne_params (user : Bytes) :
    Key [ webPrefix, usersPrefix, user, pwdPrefix]
      ≠ Key [ webPrefix, usersPrefix, user, paramsPrefix] := by
  have h1 : pwdPrefix = [112, 119, 100] := by decide
  have h2 : paramsPrefix = [112, 97, 114, 97, 109, 115] := by decide
  simp [Key, h1, h2]

theorem mfaDeviceKey_ne_params (user id : Bytes) :
    mfaDeviceKey user id ≠ Key [ webPrefix, usersPrefix, user, paramsPrefix] := by
  have h1 : mfaDevicePrefix = [109, 102, 97] := by decide
  have h2 : paramsPrefix = [112, 97, 114, 97, 109, 115] := by decide
  simp [mfaDeviceKey, Key, h1, h2]

theorem webauthnLocalAuthKey_ne_params (user : Bytes) :
    webauthnLocalAuthKey user ≠ Key [ webPrefix, usersPrefix, user, paramsPrefix] := by
  have h1 : webauthnLocalAuthPrefix
      = [119, 101, 98, 97, 117, 116, 104, 110, 108, 111, 99, 97, 108, 97, 117, 116, 104] := by
    decide
  have h2 : paramsPrefix = [112, 97, 114, 97, 109, 115] := by decide
  simp [webauthnLocalAuthKey, Key, h1, h2]

/-- `UpsertMFADevice` on the in-memory store leaves the record at every key that is
not a key of a device of the user. -/
theorem UpsertMFADevice_memory_lookup (M : MFADeviceLib) (st : Store) (user : Bytes)
    (d : MFADevice) (k : Bytes) (hk : ∀ id, mfaDeviceKey user id ≠ k) :
    (UpsertMFADevice memory M st user d).2.lookup k = st.lookup k := by
  unfold UpsertMFADevice
  by_cases hu : user = []
  · simp [hu]
  · simp only [hu, if_false]
    cases M.CheckAndSetDefaults d with
    | error e => rfl
    | ok d' =>
      dsimp only
      cases GetMFADevices memory M st user false with
      | error e => rfl
      | ok devs =>
        dsimp only
        cases UpsertMFADevice.loop d' devs with
        | some e => rfl
        | none =>
          dsimp only
          cases M.Marshal d' with
          | error e => rfl
          | ok v =>
            exact Store.lookup_put_other st ⟨mfaDeviceKey user d'.Id, v, 0, 0⟩ k
              (fun e => hk d'.Id e.symm)

theorem upsertLocalAuthSecrets_loop_memory_lookup (M : MFADeviceLib) (user k : Bytes)
    (hk : ∀ id, mfaDeviceKey user id ≠ k) :
    ∀ (devs : List MFADevice) (st : Store),
      (upsertLocalAuthSecrets.loop memory M user st devs).2.lookup k = st.lookup k
  | [], _ => rfl
  | d :: devs, st => by
    have h1 := UpsertMFADevice_memory_lookup M st user d k hk
    cases hr : UpsertMFADevice memory M st user d with
    | mk e st1 =>
      rw [hr] at h1
      cases e with
      | some err =>
        simp only [upsertLocalAuthSecrets.loop, hr]
        exact h1
      | none =>
        simp only [upsertLocalAuthSecrets.loop, hr]
        rw [upsertLocalAuthSecrets_loop_memory_lookup M user k hk devs st1]
        exact h1

theorem UpsertWebauthnLocalAuth_memory_lookup (N : SecretsLib) (st : Store) (user k : Bytes)
    (wla : Option WebauthnLocalAuth) (hk : webauthnLocalAuthKey user ≠ k) :
    (UpsertWebauthnLocalAuth memory N st user wla).2.lookup k = st.lookup k := by
  unfold UpsertWebauthnLocalAuth
  by_cases hu : user = []
  · simp [hu]
  · simp only [hu, if_false]
    cases wla with
    | none => rfl
    | some w =>
      dsimp only
      cases N.CheckWebauthnLocalAuth w with
      | some e => rfl
      | none =>
        dsimp only
        cases N.MarshalWebauthnLocalAuth w with
        | error e => rfl
        | ok v =>
          exact Store.lookup_put_other st ⟨webauthnLocalAuthKey user, v, 0, 0⟩ k
            (fun e => hk e.symm)

theorem upsertLocalAuthSecrets_devices_memory_lookup (N : SecretsLib) (M : MFADeviceLib)
    (st : Store) (user k : Bytes) (auth : LocalAuthSecrets)
    (hk : ∀ id, mfaDeviceKey user id ≠ k) (hw : webauthnLocalAuthKey user ≠ k) :
    (upsertLocalAuthSecrets.devices memory N M st user auth).2.lookup k = st.lookup k := by
  have h1 := upsertLocalAuthSecrets_loop_memory_lookup M user k hk auth.MFA st
  unfold upsertLocalAuthSecrets.devices
  cases hr : upsertLocalAuthSecrets.loop memory M user st auth.MFA with
  | mk e st1 =>
    rw [hr] at h1
    cases e with
    | some err => exact h1
    | none =>
      dsimp only
      cases hwla : auth.Webauthn with
      | none => exact h1
      | some wla =>
        dsimp only
        have h2 := UpsertWebauthnLocalAuth_memory_lookup N st1 user k (some wla) hw
        cases hr2 : UpsertWebauthnLocalAuth memory N st1 user (some wla) with
        | mk e2 st2 =>
          rw [hr2] at h2
          cases e2 with
          | some err => exact h2.trans h1
          | none => exact h2.trans h1

/-- The creation of a primary record on the in-memory store leaves a record that is
live at another key, and creates nothing over a record that is live. -/
theorem CreateUser_create_memory_lookup (L : UserLib) (st : Store) (user : User) (k : Bytes)
    (item : Item) (h : st.lookup k = some item) :
    (CreateUser.create memory L st user).2.lookup k = some item := by
  unfold CreateUser.create
  cases L.ValidateUser user with
  | error e => exact h
  | ok u =>
    dsimp only
    cases GetUser memory L st u.GetName false with
    | ok found => exact h
    | error err =>
      dsimp only
      by_cases hnf : trace.IsNotFound err = true
      · simp only [hnf, Bool.not_true, Bool.false_eq_true, if_false]
        cases L.MarshalUser u.WithoutSecrets with
        | error e => exact h
        | ok v =>
          dsimp only
          simp only [memory, Store.create]
          cases hl : st.lookup (userItem u v 0).Key with
          | some found => exact h
          | none =>
            dsimp only
            have hne : k ≠ (userItem u v 0).Key := by
              intro e
              rw [e, hl] at h
              exact absurd h (by simp)
            rw [Store.lookup_put_other st (userItem u v 0) k hne]
            exact h
      · simp only [hnf, Bool.not_false, if_true]
        exact h

theorem UpsertPasswordHash_memory_lookup (L : UserLib) (N : SecretsLib) (st : Store)
    (username hash k : Bytes) (item : Item)
    (hk : Key [ webPrefix, usersPrefix, username, pwdPrefix] ≠ k)
    (h : st.lookup k = some item) :
    (UpsertPasswordHash memory L N st username hash).2.lookup k = some item := by
  have hput : ∀ st1 : Store, st1.lookup k = some item →
      (UpsertPasswordHash.put memory st1 username hash).2.lookup k = some item := by
    intro st1 h1
    simp only [UpsertPasswordHash.put, memory, Store.put]
    rw [Store.lookup_put_other st1
      ⟨Key [ webPrefix, usersPrefix, username, pwdPrefix], hash, 0, 0⟩ k (fun e => hk e.symm)]
    exact h1
  unfold UpsertPasswordHash
  cases N.NewUser username with
  | error e => exact h
  | ok proto =>
    dsimp only
    have hc := CreateUser_create_memory_lookup L st proto k item h
    cases hr : CreateUser.create memory L st proto with
    | mk res st1 =>
      rw [hr] at hc
      cases res with
      | error err =>
        dsimp only
        by_cases hae : trace.IsAlreadyExists err = true
        · simp only [hae, Bool.not_true, Bool.false_eq_true, if_false]
          exact hput st1 hc
        · simp only [hae, Bool.not_false, if_true]
          exact hc
      | ok created => exact hput st1 hc

theorem upsertUserSecrets_memory_lookup (L : UserLib) (N : SecretsLib) (M : MFADeviceLib)
    (st : Store) (u : User) (item : Item)
    (h : st.lookup (Key [ webPrefix, usersPrefix, u.GetName, paramsPrefix]) = some item) :
    (upsertUserSecrets memory L N M st u).2.lookup
        (Key [ webPrefix, usersPrefix, u.GetName, paramsPrefix]) = some item := by
  have hdev : ∀ (st1 : Store) (auth : LocalAuthSecrets),
      st1.lookup (Key [ webPrefix, usersPrefix, u.GetName, paramsPrefix]) = some item →
      (upsertLocalAuthSecrets.devices memory N M st1 u.GetName auth).2.lookup
        (Key [ webPrefix, usersPrefix, u.GetName, paramsPrefix]) = some item := by
    intro st1 auth h1
    rw [upsertLocalAuthSecrets_devices_memory_lookup N M st1 u.GetName _ auth
      (fun id => mfaDeviceKey_ne_params u.GetName id) (webauthnLocalAuthKey_ne_params u.GetName)]
    exact h1
  unfold upsertUserSecrets
  cases u.GetLocalAuth with
  | none => exact h
  | some auth =>
    dsimp only
    have hall : (upsertLocalAuthSecrets memory L N M st u.GetName auth).2.lookup
        (Key [ webPrefix, usersPrefix, u.GetName, paramsPrefix]) = some item := by
      unfold upsertLocalAuthSecrets
      by_cases hp : auth.PasswordHash.length > 0
      · simp only [hp, if_true]
        have h1 := UpsertPasswordHash_memory_lookup L N st u.GetName auth.PasswordHash _ item
          (pwdKey_ne_params u.GetName) h
        cases hr : UpsertPasswordHash memory L N st u.GetName auth.PasswordHash with
        | mk e st1 =>
          rw [hr] at h1
          cases e with
          | some err => exact h1
          | none => exact hdev st1 auth h1
      · simp only [hp, if_false]
        exact hdev st auth h
    cases hr : upsertLocalAuthSecrets memory L N M st u.GetName auth with
    | mk e st1 =>
      rw [hr] at hall
      cases e with
      | some err => exact hall
      | none => exact hall

/-- What `UpsertUser` stores for a user that is not expired: over the in-memory
store, for a user that passes validation as `u`, whose expiry is not set or is
not before the reading of the clock, and whose record encodes as `v`, after
`UpsertUser`, whether the writes of the secrets succeed or fail, the key of the
parameters of the user holds the encoding of `u.WithoutSecrets` with the expiry
and the resource id of `u`. -/
theorem UpsertUser_stores_live_record (L : UserLib) (N : SecretsLib) (M : MFADeviceLib)
    (s : Store) (user u : User) (v : Bytes)
    (hv : L.ValidateUser user = .ok u) (hm : L.MarshalUser u.WithoutSecrets = .ok v)
    (hlive : u.Expiry = 0 ∨ s.now ≤ u.Expiry) :
    (UpsertUser memory L N M s user).2.lookup
        (Key [ webPrefix, usersPrefix, u.GetName, paramsPrefix])
      = some (userItem u v u.GetResourceID) := by
  have hl : Store.live s.now (userItem u v u.GetResourceID) = true := by
    rcases hlive with h0 | h1
    · simp [Store.live, userItem, h0]
    · simp [Store.live, userItem, h1]
  have h1 := Store.lookup_put_self s (userItem u v u.GetResourceID) hl
  simp only [UpsertUser, hv, hm, memory, Store.put]
  exact upsertUserSecrets_memory_lookup L N M _ u (userItem u v u.GetResourceID) h1

/-- C19, at the user `erin`, who passes validation, has a password hash and an
expiry of 50, on the empty store with the clock at 100: `UpsertUser` succeeds;
it puts the primary record with the expiry 50, which reads as absent, so that
`UpsertPasswordHash` creates the primary record of the user prototype in its
place; afterwards the key of the parameters of `erin` holds the record of the
prototype, without an expiry, and not the record that `UpsertUser` built, and
`erin` is read back as a user that does not expire. With an expiry of 150 the
record that `UpsertUser` built stays. -/
theorem UpsertUser_expired_user_replaced_by_prototype :
    Example.namesLib.ValidateUser Example.erin = .ok Example.erin ∧
    Example.erin.Expiry = 50 ∧ Example.emptyStore.now = 100 ∧
    userItem Example.erin (str "erin") Example.erin.GetResourceID
      = ⟨Key [ webPrefix, usersPrefix, str "erin", paramsPrefix], str "erin", 50, 0⟩ ∧
    Example.secretsLib.NewUser (str "erin") = .ok (Example.userNamed (str "erin") 0 0) ∧
    UpsertUser memory.traced Example.namesLib Example.secretsLib Example.lib
        (Example.emptyStore, []) Example.erin
      = (none,
          (⟨[⟨Key [ webPrefix, usersPrefix, str "erin", pwdPrefix], Example.bcryptHash, 0, 0⟩,
              ⟨Key [ webPrefix, usersPrefix, str "erin", paramsPrefix], str "erin", 0, 0⟩],
            100⟩,
            [WriteOp.Put
                ⟨Key [ webPrefix, usersPrefix, str "erin", paramsPrefix], str "erin", 50, 0⟩,
              WriteOp.Create
                ⟨Key [ webPrefix, usersPrefix, str "erin", paramsPrefix], str "erin", 0, 0⟩,
              WriteOp.Put
                ⟨Key [ webPrefix, usersPrefix, str "erin", pwdPrefix], Example.bcryptHash,
                  0, 0⟩])) ∧
    Store.lookup (UpsertUser memory Example.namesLib Example.secretsLib Example.lib
        Example.emptyStore Example.erin).2
        (Key [ webPrefix, usersPrefix, str "erin", paramsPrefix])
      = some ⟨Key [ webPrefix, usersPrefix, str "erin", paramsPrefix], str "erin", 0, 0⟩ ∧
    GetUser memory Example.namesLib
        (UpsertUser memory Example.namesLib Example.secretsLib Example.lib
          Example.emptyStore Example.erin).2 (str "erin") false
      = .ok (Example.userNamed (str "erin") 0 0) ∧
    Store.lookup (UpsertUser memory Example.namesLib Example.secretsLib Example.lib
        Example.emptyStore { Example.erin with Expires := 150 }).2
        (Key [ webPrefix, usersPrefix, str "erin", paramsPrefix])
      = some ⟨Key [ webPrefix, usersPrefix, str "erin", paramsPrefix], str "erin", 150, 0⟩ := by
  decide

/-! ## Used TOTP tokens -/

theorem GetUsedTOTPToken_memory (m : Store) (user : Bytes) (huser : user ≠ []) :
    GetUsedTOTPToken memory m user =
      match m.lookup (Key [ webPrefix, usersPrefix, user, usedTOTPPrefix]) with
      | none => .ok (str "0")
      | some item => .ok item.Value := by
  simp only [GetUsedTOTPToken, huser, if_false, memory, Store.get]
  cases m.lookup (Key [ webPrefix, usersPrefix, user, usedTOTPPrefix]) with
  | none => rfl
  | some item => rfl

theorem Store.lookup_advance_put (m : Store) (item : Item) (elapsed : Nat) :
    Store.lookup
        (Store.advance { m with items := (item :: Store.erase m.items item.Key) } elapsed)
        item.Key
      = if Store.live (m.now + elapsed) item then some item else none := by
  have h := Store.lookup_erase_self m.items (m.now + elapsed) item.Key
  simp only [Store.lookup] at h
  simp only [Store.lookup, Store.advance, List.find?_cons, decide_True, Bool.true_and]
  cases hl : Store.live (m.now + elapsed) item with
  | true => simp
  | false => simpa using h

/-- C22: with an empty user `GetUsedTOTPToken` and `UpsertUsedTOTPToken` fail with
BadParameter; for a non-empty user `GetUsedTOTPToken` returns the string "0"
when the in-memory store holds no live record of a used token; and after a
successful `UpsertUsedTOTPToken(user, token)`, which writes the token with an
expiry of the time of the clock plus 30 seconds, it returns the token as long
as the clock has not passed that expiry, and "0" once it has. -/
theorem UsedTOTPToken_round_trip (m : Store) (user token : Bytes) :
    (∀ {σ : Type} (B : Backend σ) (s : σ),
      GetUsedTOTPToken B s [] = .error (trace.BadParameter "missing user name" []) ∧
      UpsertUsedTOTPToken B s [] token = (some (trace.BadParameter "missing user name" []), s)) ∧
    (user ≠ [] → m.lookup (Key [ webPrefix, usersPrefix, user, usedTOTPPrefix]) = none →
      GetUsedTOTPToken memory m user = .ok (str "0")) ∧
    (∀ m', UpsertUsedTOTPToken memory m user token = (none, m') →
      m'.lookup (Key [ webPrefix, usersPrefix, user, usedTOTPPrefix])
        = some ⟨Key [ webPrefix, usersPrefix, user, usedTOTPPrefix], token,
            m.now + 30 * time.Second, 0⟩ ∧
      (∀ elapsed, elapsed ≤ 30 * time.Second →
        GetUsedTOTPToken memory (m'.advance elapsed) user = .ok token) ∧
      (∀ elapsed, 30 * time.Second < elapsed →
        GetUsedTOTPToken memory (m'.advance elapsed) user = .ok (str "0"))) := by
  refine ⟨fun B s => ⟨by simp [GetUsedTOTPToken], by simp [UpsertUsedTOTPToken]⟩, ?_, ?_⟩
  · intro hu hl
    rw [GetUsedTOTPToken_memory m user hu, hl]
  · intro m' hok
    have hu : user ≠ [] := by
      intro hu
      simp [UpsertUsedTOTPToken, hu] at hok
    simp only [UpsertUsedTOTPToken, hu, if_false, memory, Store.put, Prod.mk.injEq,
      true_and, usedTOTPTTL] at hok
    have hadv := Store.lookup_advance_put m
      ⟨Key [ webPrefix, usersPrefix, user, usedTOTPPrefix], token, m.now + 30 * time.Second, 0⟩
    rw [hok] at hadv
    have hpos : 0 < 30 * time.Second := by decide
    refine ⟨?_, ?_, ?_⟩
    · have h0 := hadv 0
      simp only [Store.advance, Nat.add_zero] at h0
      rw [h0]
      simp [Store.live]
    · intro elapsed he
      rw [GetUsedTOTPToken_memory _ user hu, hadv elapsed]
      have : Store.live (m.now + elapsed)
          ⟨Key [ webPrefix, usersPrefix, user, usedTOTPPrefix], token,
            m.now + 30 * time.Second, 0⟩ = true := by
        simp [Store.live]
        omega
      simp [this]
    · intro elapsed he
      rw [GetUsedTOTPToken_memory _ user hu, hadv elapsed]
      have : Store.live (m.now + elapsed)
          ⟨Key [ webPrefix, usersPrefix, user, usedTOTPPrefix], token,
            m.now + 30 * time.Second, 0⟩ = false := by
        simp [Store.live]
        omega
      simp [this]

/-- Witness of C22: the token `123456` of `alice` is written to the empty store at
time 100 and read one second later. -/
theorem UsedTOTPToken_round_trip_witness :
    GetUsedTOTPToken memory
        ((UpsertUsedTOTPToken memory Example.emptyStore Example.alice (str "123456")).2.advance
          time.Second) Example.alice
      = .ok (str "123456") :=
  ((UsedTOTPToken_round_trip Example.emptyStore Example.alice (str "123456")).2.2
    (UpsertUsedTOTPToken memory Example.emptyStore Example.alice (str "123456")).2
    (by decide)).2.1 time.Second (by decide)

/-! ## Rejection by `UpsertMFADevice` -/

/-- C23: whenever `UpsertMFADevice` returns an error, from its parameter check, the
validation of the device, the listing of the devices, either uniqueness check,
the encoding or the write, the state of the backend it returns is the state it
was given, whatever the backend: nothing has been written. -/
theorem UpsertMFADevice_rejection_atomic {σ : Type} (B : Backend σ) (M : MFADeviceLib) (s : σ)
    (user : Bytes) (d : MFADevice) (err : Error)
    (h : (UpsertMFADevice B M s user d).1 = some err) :
    (UpsertMFADevice B M s user d).2 = s := by
  unfold UpsertMFADevice at h ⊢
  by_cases hu : user = []
  · simp [hu]
  · simp only [hu, if_false] at h ⊢
    cases hc : M.CheckAndSetDefaults d with
    | error e => rfl
    | ok d' =>
      rw [hc] at h
      dsimp only at h ⊢
      cases hg : GetMFADevices B M s user false with
      | error e => rfl
      | ok devs =>
        rw [hg] at h
        dsimp only at h ⊢
        cases hl : UpsertMFADevice.loop d' devs with
        | some e => rfl
        | none =>
          rw [hl] at h
          dsimp only at h ⊢
          cases hm : M.Marshal d' with
          | error e => rfl
          | ok v =>
            rw [hm] at h
            dsimp only at h ⊢
            cases hp : B.Put s ⟨mfaDeviceKey user d'.Id, v, 0, 0⟩ with
            | error e => rfl
            | ok s' =>
              rw [hp] at h
              exact absurd h (by simp)

/-- Witness of C23: `alice` holds `webauthn1`; a device with its name and another
id is refused on the traced in-memory store, which stays as it was. -/
theorem UpsertMFADevice_rejection_atomic_witness :
    (UpsertMFADevice memory.traced Example.lib (Example.store1, []) Example.alice
        Example.sameName5).2 = (Example.store1, []) :=
  UpsertMFADevice_rejection_atomic memory.traced Example.lib (Example.store1, [])
    Example.alice Example.sameName5
    (trace.AlreadyExists "MFA device with name %q already exists" [str "key1"]) (by decide)

/-! ## The recovery attempts that are listed -/

theorem GetUserRecoveryAttempts_loop_ok_iff (L : RecoveryAttemptLib) (items : List Item)
    (out : List RecoveryAttempt) :
    GetUserRecoveryAttempts.loop L items = .ok out ↔
      List.Forall₂ (fun it a => L.Unmarshal it.Value = .ok a) items out := by
  induction items generalizing out with
  | nil =>
    simp only [GetUserRecoveryAttempts.loop, List.forall₂_nil_left_iff]
    constructor
    · intro h; injection h with h; exact h.symm
    · intro h; rw [h]
  | cons it items ih =>
    simp only [GetUserRecoveryAttempts.loop, List.forall₂_cons_left_iff]
    cases hb : L.Unmarshal it.Value with
    | error e => simp
    | ok d =>
      cases hl : GetUserRecoveryAttempts.loop L items with
      | error e =>
        simp only [false_iff, reduceCtorEq]
        rintro ⟨b, u, -, hu, -⟩
        rw [hl] at ih
        exact absurd ((ih u).2 hu) (by simp)
      | ok ds =>
        simp only [Except.ok.injEq]
        constructor
        · intro h
          exact ⟨d, ds, rfl, (ih ds).1 hl, h.symm⟩
        · rintro ⟨b, u, hb', hu, rfl⟩
          rw [hl] at ih
          have := (ih u).2 hu
          simp only [Except.ok.injEq] at this
          rw [hb', this]

/-- The range read by `GetUserRecoveryAttempts` holds exactly the keys that start
with the prefix of the recovery attempts of the user. -/
theorem recoveryAttempts_inRange_iff (user key : Bytes) :
    inRange (Key [ webPrefix, usersPrefix, user, recoveryAttemptsPrefix])
      (RangeEnd (Key [ webPrefix, usersPrefix, user, recoveryAttemptsPrefix])) key
      = (Key [ webPrefix, usersPrefix, user, recoveryAttemptsPrefix]).isPrefixOf key := by
  have hk : Key [ webPrefix, usersPrefix, user, recoveryAttemptsPrefix]
      = (Key [ webPrefix, usersPrefix, user] ++ [Separator, 114, 101, 99, 111, 118, 101, 114,
          121, 97, 116, 116, 101, 109, 112, 116]) ++ [115] := by
    have : recoveryAttemptsPrefix
        = [114, 101, 99, 111, 118, 101, 114, 121, 97, 116, 116, 101, 109, 112, 116, 115] := by
      decide
    simp [Key, this]
  rw [Bool.eq_iff_iff, List.isPrefixOf_iff_prefix, hk, RangeEnd_snoc _ 115 (by decide)]
  exact inRange_iff_isPrefix 115 _ key

/-- C25: when `GetUserRecoveryAttempts` succeeds for a user on the in-memory store,
the user is not empty and the list returned is, entry by entry, the decoding of
a permutation of the live items of the store whose key starts with the prefix
of the recovery attempts of the user, so it has as many entries as there are
such items; and after a successful `DeleteUserRecoveryAttempts` for the user it
returns the empty list. -/
theorem GetUserRecoveryAttempts_permutation (L : RecoveryAttemptLib) (s : Store) (user : Bytes)
    (out : List RecoveryAttempt) (h : GetUserRecoveryAttempts memory L s user = .ok out) :
    user ≠ [] ∧
    (∃ items : List Item,
      items.Perm (s.items.filter (fun it =>
        (Key [ webPrefix, usersPrefix, user, recoveryAttemptsPrefix]).isPrefixOf it.Key
          && Store.live s.now it)) ∧
      List.Forall₂ (fun it a => L.Unmarshal it.Value = .ok a) items out) ∧
    out.length = (s.items.filter (fun it =>
        (Key [ webPrefix, usersPrefix, user, recoveryAttemptsPrefix]).isPrefixOf it.Key
          && Store.live s.now it)).length ∧
    (∀ s', DeleteUserRecoveryAttempts memory s user = (none, s') →
      GetUserRecoveryAttempts memory L s' user = .ok []) := by
  obtain ⟨hu, items, decoded, hitems, hdecoded, hout⟩ :=
    GetUserRecoveryAttempts_ok memory L s user out h
  have hrange : items.Perm (s.items.filter (fun it =>
      (Key [ webPrefix, usersPrefix, user, recoveryAttemptsPrefix]).isPrefixOf it.Key
        && Store.live s.now it)) := by
    simp only [memory, Store.getRange, NoLimit, if_true, Except.ok.injEq] at hitems
    rw [← hitems]
    have hp := Store.range_perm s (Key [ webPrefix, usersPrefix, user, recoveryAttemptsPrefix])
      (RangeEnd (Key [ webPrefix, usersPrefix, user, recoveryAttemptsPrefix]))
    have hf : s.items.filter (fun it =>
        inRange (Key [ webPrefix, usersPrefix, user, recoveryAttemptsPrefix])
          (RangeEnd (Key [ webPrefix, usersPrefix, user, recoveryAttemptsPrefix])) it.Key
          && Store.live s.now it)
        = s.items.filter (fun it =>
          (Key [ webPrefix, usersPrefix, user, recoveryAttemptsPrefix]).isPrefixOf it.Key
            && Store.live s.now it) := by
      apply List.filter_congr
      intro it _
      rw [recoveryAttempts_inRange_iff]
    rw [hf] at hp
    exact hp
  have hdec := (GetUserRecoveryAttempts_loop_ok_iff L items decoded).1 hdecoded
  have hperm : out.Perm decoded := by
    rw [hout]
    exact List.perm_insertionSort _ _
  obtain ⟨items', hitems', hperm'⟩ := List.perm_comp_forall₂ hperm hdec.flip
  have hlen : out.length = items.length := by
    rw [hperm.length_eq]
    exact hdec.length_eq.symm
  refine ⟨hu, ⟨items', hperm'.trans hrange, hitems'.flip⟩, ?_, ?_⟩
  · rw [hlen, hrange.length_eq]
  · intro s' hdel
    simp only [DeleteUserRecoveryAttempts, hu, if_false, memory, Store.deleteRange,
      Prod.mk.injEq, true_and] at hdel
    have hempty : s'.range (Key [ webPrefix, usersPrefix, user, recoveryAttemptsPrefix])
        (RangeEnd (Key [ webPrefix, usersPrefix, user, recoveryAttemptsPrefix])) = [] := by
      rw [← hdel]
      simp only [Store.range, List.filter_filter]
      have : ∀ l : List Item, l.filter (fun it =>
          (inRange (Key [ webPrefix, usersPrefix, user, recoveryAttemptsPrefix])
            (RangeEnd (Key [ webPrefix, usersPrefix, user, recoveryAttemptsPrefix])) it.Key
            && Store.live s.now it)
          && !inRange (Key [ webPrefix, usersPrefix, user, recoveryAttemptsPrefix])
            (RangeEnd (Key [ webPrefix, usersPrefix, user, recoveryAttemptsPrefix])) it.Key)
          = [] := by
        intro l
        rw [List.filter_eq_nil_iff]
        intro it _
        cases inRange (Key [ webPrefix, usersPrefix, user, recoveryAttemptsPrefix])
          (RangeEnd (Key [ webPrefix, usersPrefix, user, recoveryAttemptsPrefix])) it.Key
          <;> simp
      rw [this]
      rfl
    simp only [GetUserRecoveryAttempts, hu, if_false, memory, Store.getRange, NoLimit, if_true,
      hempty, GetUserRecoveryAttempts.loop, sortSort, List.insertionSort]

/-- Witness of C25: the three recovery attempts of `alice` are listed, and none
after they have been deleted. -/
theorem GetUserRecoveryAttempts_permutation_witness :
    GetUserRecoveryAttempts memory Example.attemptLib Example.storeAttempts Example.alice
        = .ok [⟨10, 0⟩, ⟨20, 0⟩, ⟨30, 0⟩] ∧
      GetUserRecoveryAttempts memory Example.attemptLib
        (DeleteUserRecoveryAttempts memory Example.storeAttempts Example.alice).2 Example.alice
        = .ok [] :=
  ⟨by decide,
    (GetUserRecoveryAttempts_permutation Example.attemptLib Example.storeAttempts
      Example.alice [⟨10, 0⟩, ⟨20, 0⟩, ⟨30, 0⟩] (by decide)).2.2.2
      (DeleteUserRecoveryAttempts memory Example.storeAttempts Example.alice).2 (by decide)⟩

/-! ## A registration that succeeds -/

theorem RegistrationFlow_Begin_ok {σ : Type} (F : webauthn.RegistrationFlow σ) (s s1 : σ)
    (user : Bytes) (cc : webauthn.CredentialCreation) (h : F.Begin s user = (.ok cc, s1)) :
    user ≠ [] ∧ ∃ handle s0,
      F.Identity.UpsertWebauthnSessionData s0 user F.SessionID
        (some ⟨F.NewChallenge, handle, []⟩) = (none, s1) := by
  unfold webauthn.RegistrationFlow.Begin at h
  by_cases hu : user = []
  · simp [hu] at h
  · simp only [hu, if_false] at h
    split at h
    · simp at h
    · rename_i handle s0 _
      split at h
      · simp at h
      · rename_i s2 hup
        simp only [Prod.mk.injEq] at h
        rw [h.2] at hup
        exact ⟨hu, handle, s0, hup⟩

theorem RegistrationFlow_Finish_ok {σ : Type} (F : webauthn.RegistrationFlow σ) (s s2 : σ)
    (user deviceName : Bytes) (resp : webauthn.CredentialCreationResponse) (dev : MFADevice)
    (h : F.Finish s user deviceName (some resp) = (.ok dev, s2)) :
    user ≠ [] ∧ deviceName ≠ [] ∧ dev = F.newDevice deviceName resp ∧ ∃ sd s1,
      F.Identity.GetWebauthnSessionData s user F.SessionID = .ok sd ∧
      F.validate sd resp = none ∧
      F.Identity.UpsertMFADevice s user dev = (none, s1) ∧
      F.Identity.DeleteWebauthnSessionData s1 user F.SessionID = (none, s2) := by
  unfold webauthn.RegistrationFlow.Finish at h
  by_cases hu : user = []
  · simp [hu] at h
  · by_cases hd : deviceName = []
    · simp [hu, hd] at h
    · simp only [hu, hd, if_false] at h
      split at h
      · simp at h
      · rename_i sd hsd
        split at h
        · simp at h
        · rename_i hval
          split at h
          · simp at h
          · rename_i s1 hup
            split at h
            · simp at h
            · rename_i s3 hdel
              simp only [Prod.mk.injEq, Except.ok.injEq] at h
              rw [h.2] at hdel
              rw [h.1] at hup
              exact ⟨hu, hd, h.1.symm, sd, s1, hsd, hval, hup, hdel⟩

theorem UpsertWebauthnSessionData_traced_ok {σ : Type} (B : Backend σ) (L : SessionDataLib)
    (timeout : Nat) (st st' : σ × List WriteOp) (user sessionID : Bytes)
    (sd : Option SessionData)
    (h : UpsertWebauthnSessionData B.traced L timeout st user sessionID sd = (none, st')) :
    UpsertWebauthnSessionData B L timeout st.1 user sessionID sd = (none, st'.1) := by
  unfold UpsertWebauthnSessionData at h ⊢
  by_cases hu : user = []
  · simp [hu] at h
  · by_cases hs : sessionID = []
    · simp [hu, hs] at h
    · simp only [hu, hs, if_false] at h ⊢
      cases sd with
      | none => simp at h
      | some d =>
        dsimp only at h ⊢
        cases hm : L.Marshal d with
        | error e => simp [hm] at h
        | ok v =>
          simp only [hm, Backend.traced] at h ⊢
          cases hp : B.Put st.1 ⟨sessionDataKey user sessionID, v, B.Now st.1 + timeout, 0⟩ with
          | error e => simp [hp] at h
          | ok s1 =>
            simp only [hp, Prod.mk.injEq, true_and] at h
            rw [← h]

theorem DeleteWebauthnSessionData_traced_ok {σ : Type} (B : Backend σ)
    (st st' : σ × List WriteOp) (user sessionID : Bytes)
    (h : DeleteWebauthnSessionData B.traced st user sessionID = (none, st')) :
    DeleteWebauthnSessionData B st.1 user sessionID = (none, st'.1) ∧
      st'.2 = st.2 ++ [WriteOp.Delete (sessionDataKey user sessionID)] := by
  unfold DeleteWebauthnSessionData at h ⊢
  by_cases hu : user = []
  · simp [hu] at h
  · by_cases hs : sessionID = []
    · simp [hu, hs] at h
    · simp only [hu, hs, if_false, Backend.traced] at h ⊢
      cases hp : B.Delete st.1 (sessionDataKey user sessionID) with
      | error e => simp [hp] at h
      | ok s1 =>
        simp only [hp, Prod.mk.injEq, true_and] at h
        rw [← h]
        exact ⟨rfl, rfl⟩

/-- C21: for a flow over the identity service on the traced in-memory store, when
`Begin` succeeds for a user and `Finish` then succeeds for that user, a device
name and a response, the device returned is a WebAuthn device with the
credential id of the response, a signature counter of 0 and, when the response
carries no AAGUID, an AAGUID of 16 zero bytes; `UpsertMFADevice` succeeds on
that device and the writes of `Finish` are one write of the record of the
device, as validated and encoded, followed by the deletion of the session
data; and the session data that `Begin` stored under the user and the session
id of the flow is no longer stored: reading it fails with NotFound. -/
theorem Finish_registers_device (N : SecretsLib) (S : SessionDataLib) (M : MFADeviceLib)
    (timeout : Nat) (F : webauthn.RegistrationFlow (Store × List WriteOp))
    (hF : F.Identity = registrationIdentity memory.traced N S M timeout)
    (s0 s1 s2 : Store × List WriteOp) (user deviceName : Bytes)
    (resp : webauthn.CredentialCreationResponse) (cc : webauthn.CredentialCreation)
    (dev : MFADevice)
    (hbegin : F.Begin s0 user = (.ok cc, s1))
    (hfinish : F.Finish s1 user deviceName (some resp) = (.ok dev, s2)) :
    (∃ w, dev.Device = .MFADevice_Webauthn w ∧ w.CredentialId = resp.CredentialId ∧
      w.SignatureCounter = 0 ∧ (resp.Aaguid = none → w.Aaguid = List.replicate 16 0)) ∧
    (∃ sm d' v, UpsertMFADevice memory.traced M s1 user dev = (none, sm) ∧
      M.CheckAndSetDefaults dev = .ok d' ∧ M.Marshal d' = .ok v ∧
      s2.2 = s1.2 ++ [WriteOp.Put ⟨mfaDeviceKey user d'.Id, v, 0, 0⟩,
        WriteOp.Delete (sessionDataKey user F.SessionID)]) ∧
    (∃ item, s1.1.lookup (sessionDataKey user F.SessionID) = some item) ∧
    s2.1.lookup (sessionDataKey user F.SessionID) = none ∧
    (∃ err, GetWebauthnSessionData memory.traced S s2 user F.SessionID = .error err ∧
      trace.IsNotFound err = true) := by
  obtain ⟨hu, hd, hdev, sd, sm, hget, -, hup, hdel⟩ :=
    RegistrationFlow_Finish_ok F s1 s2 user deviceName resp dev hfinish
  obtain ⟨-, handle, sb, hsess⟩ := RegistrationFlow_Begin_ok F s0 s1 user cc hbegin
  rw [hF] at hget hup hdel hsess
  simp only [registrationIdentity] at hget hup hdel hsess
  obtain ⟨hdel1, hlog2⟩ := DeleteWebauthnSessionData_traced_ok memory sm s2 user F.SessionID hdel
  obtain ⟨-, hs, hs2⟩ := DeleteWebauthnSessionData_memory_ok sm.1 s2.1 user F.SessionID hdel1
  have hnone : s2.1.lookup (sessionDataKey user F.SessionID) = none := by
    rw [hs2]
    exact Store.lookup_erase_self _ _ _
  refine ⟨?_, ?_, ?_, hnone, ?_⟩
  · rw [hdev]
    refine ⟨_, rfl, rfl, rfl, ?_⟩
    intro ha
    simp [ha]
  · rcases UpsertMFADevice_traced memory M s1 user dev with ⟨err, he⟩ | ⟨d', v, sx, hc, hm, he⟩
    · rw [he] at hup
      simp at hup
    · rw [he] at hup
      simp only [Prod.mk.injEq, true_and] at hup
      refine ⟨sm, d', v, by rw [he, hup], hc, hm, ?_⟩
      rw [hlog2, ← hup]
      simp
  · have hmem := UpsertWebauthnSessionData_traced_ok memory S timeout sb s1 user F.SessionID
      _ hsess
    obtain ⟨-, -, d, v, -, -, hs1⟩ :=
      UpsertWebauthnSessionData_memory_ok S timeout sb.1 s1.1 user F.SessionID _ hmem
    refine ⟨⟨sessionDataKey user F.SessionID, v, sb.1.now + timeout, 0⟩, ?_⟩
    rw [hs1]
    exact Store.lookup_put_self sb.1 ⟨sessionDataKey user F.SessionID, v, sb.1.now + timeout, 0⟩
      (by simp [Store.live])
  · have hg : GetWebauthnSessionData memory.traced S s2 user F.SessionID
        = GetWebauthnSessionData memory S s2.1 user F.SessionID := rfl
    rw [hg, GetWebauthnSessionData_memory S s2.1 user F.SessionID hu hs, hnone]
    exact ⟨_, rfl, rfl⟩

/-- Witness of C21: `alice` registers the device `webauthn1` on the empty store;
the session data of the ceremony is gone afterwards. -/
theorem Finish_registers_device_witness :
    (Example.registration.Finish (Example.registration.Begin (Example.emptyStore, [])
        Example.alice).2 Example.alice (str "webauthn1") (some Example.response)).1
      = .ok Example.registered ∧
    Store.lookup (Example.registration.Finish (Example.registration.Begin
        (Example.emptyStore, []) Example.alice).2 Example.alice (str "webauthn1")
        (some Example.response)).2.1
      (sessionDataKey Example.alice (str "registration")) = none :=
  ⟨by decide,
    (Finish_registers_device Example.secretsLib Example.sessionLib
      (Example.tableLib [([9], Example.registered)]) 300 Example.registration rfl
      (Example.emptyStore, [])
      (Example.registration.Begin (Example.emptyStore, []) Example.alice).2
      (Example.registration.Finish (Example.registration.Begin (Example.emptyStore, [])
        Example.alice).2 Example.alice (str "webauthn1") (some Example.response)).2
      Example.alice (str "webauthn1") Example.response
      ⟨[4, 2], str "localhost", [5, 5]⟩ Example.registered
      (by decide) (by decide)).2.2.2.1⟩

/-! ## The users that are listed -/

theorem GetUsers_loop_decodes (L : UserLib) (item : Item)
    (hsuffix : paramsPrefix.isSuffixOf item.Key = true) :
    ∀ items : List Item, item ∈ items →
      (∃ err, GetUsers.loop L false items = .error err) ∨
      ∃ out u, GetUsers.loop L false items = .ok out ∧
        L.UnmarshalUser item.Value item.ID item.Expires = .ok u ∧ u.SetLocalAuth none ∈ out
  | [], h => by simp at h
  | it :: rest, h => by
    by_cases hs : paramsPrefix.isSuffixOf it.Key = true
    · simp only [GetUsers.loop, hs, Bool.not_true, Bool.false_eq_true, if_false]
      cases hd : L.UnmarshalUser it.Value it.ID it.Expires with
      | error e => exact Or.inl ⟨_, rfl⟩
      | ok u0 =>
        cases hl : GetUsers.loop L false rest with
        | error e => exact Or.inl ⟨_, rfl⟩
        | ok out0 =>
          refine Or.inr ?_
          rcases List.mem_cons.1 h with heq | hmem
          · subst heq
            exact ⟨_, u0, rfl, hd, by simp⟩
          · rcases GetUsers_loop_decodes L item hsuffix rest hmem with ⟨err, he⟩ | ⟨out, u, ho, hu, hin⟩
            · rw [hl] at he
              exact absurd he (by simp)
            · rw [hl] at ho
              simp only [Except.ok.injEq] at ho
              subst ho
              exact ⟨_, u, rfl, hu, List.mem_cons_of_mem _ hin⟩
    · have hne : item ≠ it := by
        intro e
        rw [e] at hsuffix
        exact hs hsuffix
      have hmem : item ∈ rest := by
        rcases List.mem_cons.1 h with heq | hmem
        · exact absurd heq hne
        · exact hmem
      simp only [Bool.not_eq_true] at hs
      simp only [GetUsers.loop, hs, Bool.not_false, if_true]
      exact GetUsers_loop_decodes L item hsuffix rest hmem

/-- Whatever the codec of users: when the in-memory store holds a live record of
session data under the session id `params`, `GetUsers` without secrets fails, or
it succeeds with an entry decoded from that record. -/
theorem GetUsers_reads_session_record (L : UserLib) (C : UserItemsLib) (s : Store)
    (user : Bytes) (item : Item) (hitem : item ∈ s.items)
    (hlive : Store.live s.now item = true)
    (hkey : item.Key = sessionDataKey user (str "params")) :
    (∃ err, GetUsers memory L C s false = .error err) ∨
    ∃ out u, GetUsers memory L C s false = .ok out ∧
      L.UnmarshalUser item.Value item.ID item.Expires = .ok u ∧ u.SetLocalAuth none ∈ out := by
  have hsuffix : paramsPrefix.isSuffixOf item.Key = true := by
    rw [hkey, List.isSuffixOf_iff_suffix]
    refine ⟨Key [ webPrefix, usersPrefix, user, webauthnSessionData] ++ [Separator], ?_⟩
    simp [sessionDataKey, Key, paramsPrefix, str]
  have hrange : inRange (Key [ webPrefix, usersPrefix]) (RangeEnd (Key [ webPrefix, usersPrefix]))
      item.Key = true := by
    have hk : Key [ webPrefix, usersPrefix]
        = [Separator, 119, 101, 98, Separator, 117, 115, 101, 114] ++ [115] := by decide
    rw [hk, RangeEnd_snoc _ 115 (by decide), inRange_iff_isPrefix, ← hk, hkey, sessionDataKey_eq,
      List.append_assoc]
    exact List.prefix_append _ _
  have hmem : item ∈ s.range (Key [ webPrefix, usersPrefix])
      (RangeEnd (Key [ webPrefix, usersPrefix])) := by
    rw [(Store.range_perm s _ _).mem_iff, List.mem_filter]
    exact ⟨hitem, by simp [hrange, hlive]⟩
  simp only [GetUsers, Bool.false_eq_true, if_false, memory, Store.getRange, NoLimit, if_true]
  exact GetUsers_loop_decodes L item hsuffix _ hmem

/-- C26, at the store that `UpsertUser` of `alice` and `UpsertWebauthnSessionData`
of `alice` under the session id `params` build from the empty store: the key of
the session data ends in `params`, and `GetUsers` without secrets returns two
entries for the one primary record, the second decoded from the session data. -/
theorem GetUsers_decodes_session_data :
    UpsertUser memory Example.namesLib Example.secretsLib Example.lib Example.emptyStore
        (Example.userNamed Example.alice 0 0)
      = (none, { items := [Example.primary Example.alice], now := 100 }) ∧
    UpsertWebauthnSessionData memory Example.sessionLib 300
        { items := [Example.primary Example.alice], now := 100 } Example.alice (str "params")
        (some ⟨[4, 2], [5, 5], []⟩)
      = (none, Example.storeSessionParams) ∧
    sessionDataKey Example.alice (str "params")
      = str "/web/users/alice/webauthnsessiondata/params" ∧
    paramsPrefix.isSuffixOf (sessionDataKey Example.alice (str "params")) = true ∧
    GetUsers memory Example.namesLib Example.userItemsLib Example.storeSessionParams false
      = .ok [Example.userNamed Example.alice 0 0,
          Example.userNamed [2, 4, 2, 5, 5] 0 400] := by
  decide

/-! ## The record that `UpsertMFADevice` writes -/

theorem forall₂_filter {α β : Type} (R : α → β → Prop) (q : α → Bool) (p : β → Bool) :
    ∀ (l : List α) (ds : List β), List.Forall₂ R l ds →
      (∀ x ∈ l, ∀ d, R x d → q x = p d) → List.Forall₂ R (l.filter q) (ds.filter p)
  | [], _, h, _ => by
    cases h
    exact List.Forall₂.nil
  | x :: l, _, h, hqp => by
    cases h with
    | cons hx hl =>
      rename_i d ds
      have ih := forall₂_filter R q p l ds hl
        (fun y hy e hr => hqp y (List.mem_cons_of_mem _ hy) e hr)
      have hxd := hqp x (List.mem_cons_self _ _) d hx
      cases hp : p d with
      | true =>
        rw [hp] at hxd
        simpa [List.filter, hxd, hp] using List.Forall₂.cons hx ih
      | false =>
        rw [hp] at hxd
        simpa [List.filter, hxd, hp] using ih

/-- A listing that succeeds without secrets succeeds with secrets. -/
theorem GetMFADevices_loop_with_secrets (L : MFADeviceLib) :
    ∀ (items : List Item) (devs : List MFADevice),
      GetMFADevices.loop L false items = .ok devs →
      ∃ devsT, GetMFADevices.loop L true items = .ok devsT
  | [], _, _ => ⟨[], rfl⟩
  | it :: items, devs, h => by
    rw [GetMFADevices_loop_ok_iff] at h
    cases h with
    | cons hx hl =>
      rename_i d ds
      obtain ⟨d0, hd0, -⟩ := GetMFADevices_body_ok L false it d hx
      obtain ⟨devsT, hT⟩ := GetMFADevices_loop_with_secrets L items ds
        ((GetMFADevices_loop_ok_iff _ _ _ _).2 hl)
      exact ⟨d0 :: devsT, by simp [GetMFADevices.loop, GetMFADevices.body, hd0,
        GetMFADevices.strip, hT]⟩

/-- The traced backend returns the error and the state of the backend it traces. -/
theorem UpsertMFADevice_traced_eq {σ : Type} (B : Backend σ) (M : MFADeviceLib)
    (st : σ × List WriteOp) (user : Bytes) (d : MFADevice) :
    (UpsertMFADevice B.traced M st user d).1 = (UpsertMFADevice B M st.1 user d).1 ∧
      (UpsertMFADevice B.traced M st user d).2.1 = (UpsertMFADevice B M st.1 user d).2 := by
  have hget : GetMFADevices B.traced M st user false = GetMFADevices B M st.1 user false := rfl
  unfold UpsertMFADevice
  by_cases hu : user = []
  · simp [hu]
  · simp only [hu, if_false]
    cases hc : M.CheckAndSetDefaults d with
    | error e => exact ⟨rfl, rfl⟩
    | ok d' =>
      dsimp only
      rw [hget]
      cases hg : GetMFADevices B M st.1 user false with
      | error e => exact ⟨rfl, rfl⟩
      | ok devs =>
        dsimp only
        cases hl : UpsertMFADevice.loop d' devs with
        | some e => exact ⟨rfl, rfl⟩
        | none =>
          dsimp only
          cases hm : M.Marshal d' with
          | error e => exact ⟨rfl, rfl⟩
          | ok v =>
            dsimp only
            simp only [Backend.traced]
            cases hp : B.Put st.1 ⟨mfaDeviceKey user d'.Id, v, 0, 0⟩ with
            | error e => exact ⟨rfl, rfl⟩
            | ok s1 => exact ⟨rfl, rfl⟩

/-- C24: over the in-memory store, when `UpsertMFADevice` succeeds for a user and a
device `d` that passes validation (`d'` is `d` with its defaults set), its
encoding decoding to `d'` and every stored record of the user lying under the
key of the id of its device, the user is not empty; the call performs one
write, a `Put` of the record of `d'` under the key of `(user, d'.Id)`; every
other key reads as before; and the devices listed with secrets afterwards are,
up to order, `d'` itself and the devices listed with secrets before, those of
id `d'.Id` removed. -/
theorem UpsertMFADevice_writes_one_record (L : MFADeviceLib) (s s' : Store) (user : Bytes)
    (d d' : MFADevice)
    (hvalid : L.CheckAndSetDefaults d = .ok d')
    (hcodec : ∀ v, L.Marshal d' = .ok v → L.Unmarshal v = .ok d')
    (hkeyed : recordsKeyedByID L user (s.mfaRecords user) = true)
    (hok : UpsertMFADevice memory L s user d = (none, s')) :
    user ≠ [] ∧
    (∃ v, L.Marshal d' = .ok v ∧
      s' = { s with items := (⟨mfaDeviceKey user d'.Id, v, 0, 0⟩ ::
        Store.erase s.items (mfaDeviceKey user d'.Id)) } ∧
      s'.lookup (mfaDeviceKey user d'.Id) = some ⟨mfaDeviceKey user d'.Id, v, 0, 0⟩ ∧
      (UpsertMFADevice memory.traced L (s, []) user d).2.2
        = [WriteOp.Put ⟨mfaDeviceKey user d'.Id, v, 0, 0⟩]) ∧
    (∀ key, key ≠ mfaDeviceKey user d'.Id → s'.lookup key = s.lookup key) ∧
    ∃ before after, GetMFADevices memory L s user true = .ok before ∧
      GetMFADevices memory L s' user true = .ok after ∧
      after.Perm (d' :: before.filter (fun dd => decide (dd.Id ≠ d'.Id))) := by
  have huser : user ≠ [] := by
    intro hu
    simp [UpsertMFADevice, hu] at hok
  cases hdevs : GetMFADevices memory L s user false with
  | error e => simp [UpsertMFADevice, huser, hvalid, hdevs] at hok
  | ok devs =>
    rw [UpsertMFADevice_of_listed memory L s user d d' devs huser hvalid hdevs] at hok
    cases hl : UpsertMFADevice.loop d' devs with
    | some err => simp [hl] at hok
    | none =>
      simp only [hl] at hok
      cases hm : L.Marshal d' with
      | error err => simp [hm] at hok
      | ok v =>
        simp only [hm, memory, Store.put, Prod.mk.injEq, true_and] at hok
        refine ⟨huser, ⟨v, rfl, hok.symm, ?_, ?_⟩, ?_, ?_⟩
        · rw [← hok]
          exact Store.lookup_put_self s ⟨mfaDeviceKey user d'.Id, v, 0, 0⟩ (by simp [Store.live])
        · rcases UpsertMFADevice_traced memory L (s, []) user d with
            ⟨err, he⟩ | ⟨d2, v2, s1, hc2, hm2, he⟩
          · have h1 := (UpsertMFADevice_traced_eq memory L (s, []) user d).1
            rw [he, UpsertMFADevice_of_listed memory L s user d d' devs huser hvalid hdevs] at h1
            simp [hl, hm, memory, Store.put] at h1
          · rw [hvalid] at hc2
            injection hc2 with hc2
            subst hc2
            rw [hm] at hm2
            injection hm2 with hm2
            subst hm2
            rw [he]
            rfl
        · intro key hkey
          rw [← hok]
          exact Store.lookup_put_other s ⟨mfaDeviceKey user d'.Id, v, 0, 0⟩ key hkey
        · rw [GetMFADevices_memory L s user false huser] at hdevs
          obtain ⟨before, hbefore⟩ := GetMFADevices_loop_with_secrets L _ devs hdevs
          have hrel := (GetMFADevices_loop_ok_iff L true _ before).1 hbefore
          have hfilter := forall₂_filter _
            (fun it : Item => !decide (it.Key = mfaDeviceKey user d'.Id))
            (fun dd : MFADevice => decide (dd.Id ≠ d'.Id)) _ _ hrel (by
              intro it hit dd hbody
              obtain ⟨d0, hd0, hstrip⟩ := GetMFADevices_body_ok L true it dd hbody
              have hdd : d0 = dd := by simpa [GetMFADevices.strip] using hstrip
              rw [hdd] at hd0
              have hk := recordsKeyedByID_key L user _ hkeyed it hit dd hd0
              by_cases hid : dd.Id = d'.Id
              · simp [hk, hid]
              · have : mfaDeviceKey user dd.Id ≠ mfaDeviceKey user d'.Id :=
                  fun e => hid (mfaDeviceKey_injective user _ _ e)
                simp [hk, hid, this])
          have hbody : GetMFADevices.body L true ⟨mfaDeviceKey user d'.Id, v, 0, 0⟩ = .ok d' := by
            simp [GetMFADevices.body, hcodec v hm, GetMFADevices.strip]
          have hp : (s'.mfaRecords user).Perm
              (⟨mfaDeviceKey user d'.Id, v, 0, 0⟩ ::
                Store.erase (s.mfaRecords user) (mfaDeviceKey user d'.Id)) := by
            rw [← hok]
            exact Store.range_put s _ _ _ (mfaDeviceKey_inRange user d'.Id) rfl
          obtain ⟨after, hafter, hperm⟩ :=
            List.perm_comp_forall₂ hp (List.Forall₂.cons hbody hfilter)
          refine ⟨before, after, ?_, ?_, hperm⟩
          · rw [GetMFADevices_memory L s user true huser]
            exact hbefore
          · rw [GetMFADevices_memory L s' user true huser]
            exact (GetMFADevices_loop_ok_iff _ _ _ _).2 hafter

/-- Witness of C24: `alice` holds `webauthn1` and `totp4`; `totp4` is written again,
and is listed with its seed afterwards, next to `webauthn1`. -/
theorem UpsertMFADevice_writes_one_record_witness :
    ∃ before after,
      GetMFADevices memory Example.lib Example.store14 Example.alice true = .ok before ∧
      GetMFADevices memory Example.lib
        (UpsertMFADevice memory Example.lib Example.store14 Example.alice Example.totp4).2
        Example.alice true = .ok after ∧
      after.Perm (Example.totp4 ::
        before.filter (fun dd => decide (dd.Id ≠ Example.totp4.Id))) :=
  (UpsertMFADevice_writes_one_record Example.lib Example.store14
    (UpsertMFADevice memory Example.lib Example.store14 Example.alice Example.totp4).2
    Example.alice Example.totp4 Example.totp4 (by decide)
    (fun v hv => by
      have h5 : Example.lib.Marshal Example.totp4 = .ok [5] := by decide
      rw [h5] at hv
      rw [← Except.ok.inj hv]
      decide)
    (by decide) (by decide)).2.2.2

/-! ## The devices of a user and the records of another user -/

/-- A key that starts with the device prefix of a user is not a key of a record of
another user, the names of both without the separator. -/
theorem not_underUser_of_mfa_prefix (A B : Bytes) (hA : Separator ∉ A) (hB : Separator ∉ B)
    (hAB : A ≠ B) (key : Bytes)
    (h : Key [ webPrefix, usersPrefix, A, mfaDevicePrefix] <+: key) :
    underUser B key = false := by
  cases hu : underUser B key with
  | false => rfl
  | true =>
    exfalso
    simp only [underUser, List.isPrefixOf_iff_prefix] at hu
    obtain ⟨r1, h1⟩ := h
    obtain ⟨r2, h2⟩ := hu
    have hk1 : Key [ webPrefix, usersPrefix, A, mfaDevicePrefix]
        = Key [ webPrefix, usersPrefix] ++ (Separator :: (A ++ Separator :: mfaDevicePrefix)) := by
      simp [Key]
    have hk2 : Key [ webPrefix, usersPrefix, B] ++ [Separator]
        = Key [ webPrefix, usersPrefix] ++ (Separator :: (B ++ [Separator])) := by
      simp [Key]
    rw [hk1] at h1
    rw [hk2, ← h1, List.append_assoc, List.append_assoc] at h2
    have h3 := List.append_cancel_left h2
    simp only [List.cons_append, List.cons.injEq, true_and, List.append_assoc,
      List.nil_append] at h3
    exact hAB (append_separator_inj Separator A B _ _ hA hB h3.symm).1

/-- The records of the devices of a user are the same in two stores that agree on
the clock and on the records outside the keys of another user. -/
theorem Store.mfaRecords_agree (A B : Bytes) (hA : Separator ∉ A) (hB : Separator ∉ B)
    (hAB : A ≠ B) (s1 s2 : Store) (hnow : s1.now = s2.now)
    (hagree : s1.items.filter (fun it => !underUser B it.Key)
      = s2.items.filter (fun it => !underUser B it.Key)) :
    s1.mfaRecords A = s2.mfaRecords A := by
  have key : ∀ (now : Nat) (items : List Item),
      items.filter (fun it =>
        inRange (Key [ webPrefix, usersPrefix, A, mfaDevicePrefix])
          (RangeEnd (Key [ webPrefix, usersPrefix, A, mfaDevicePrefix])) it.Key
          && Store.live now it)
      = (items.filter (fun it => !underUser B it.Key)).filter (fun it =>
        inRange (Key [ webPrefix, usersPrefix, A, mfaDevicePrefix])
          (RangeEnd (Key [ webPrefix, usersPrefix, A, mfaDevicePrefix])) it.Key
          && Store.live now it) := by
    intro now items
    rw [List.filter_filter]
    apply List.filter_congr
    intro it _
    cases hr : inRange (Key [ webPrefix, usersPrefix, A, mfaDevicePrefix])
        (RangeEnd (Key [ webPrefix, usersPrefix, A, mfaDevicePrefix])) it.Key with
    | false => simp
    | true =>
      have := not_underUser_of_mfa_prefix A B hA hB hAB it.Key ((mfa_inRange_iff A it.Key).1 hr)
      simp [this]
  simp only [Store.mfaRecords, Store.range]
  rw [key s1.now s1.items, key s2.now s2.items, hagree, hnow]

/-- C27: for distinct user names `A` and `B` without the separator, a device `d`
and two states of the in-memory store with the same clock that agree on every
record outside the keys of `B`: `UpsertMFADevice(A, d)` returns the same error,
or none, on both; it leaves the records under the keys of `B` as they were; the
two states still agree outside the keys of `B` afterwards; `GetMFADevices(A, _)`
returns the same result on both, so nothing it returns depends on a record of
`B`; and no record it reads lies under the keys of `B`. -/
theorem MFADevices_scoped_per_user (L : MFADeviceLib) (A B : Bytes) (hA : Separator ∉ A)
    (hB : Separator ∉ B) (hAB : A ≠ B) (s1 s2 : Store) (hnow : s1.now = s2.now)
    (hagree : s1.items.filter (fun it => !underUser B it.Key)
      = s2.items.filter (fun it => !underUser B it.Key))
    (d : MFADevice) :
    (UpsertMFADevice memory L s1 A d).1 = (UpsertMFADevice memory L s2 A d).1 ∧
    (UpsertMFADevice memory L s1 A d).2.items.filter (fun it => underUser B it.Key)
      = s1.items.filter (fun it => underUser B it.Key) ∧
    (UpsertMFADevice memory L s1 A d).2.items.filter (fun it => !underUser B it.Key)
      = (UpsertMFADevice memory L s2 A d).2.items.filter (fun it => !underUser B it.Key) ∧
    (∀ withSecrets, GetMFADevices memory L s1 A withSecrets
      = GetMFADevices memory L s2 A withSecrets) ∧
    (∀ it ∈ s1.mfaRecords A, underUser B it.Key = false) := by
  have hrec := Store.mfaRecords_agree A B hA hB hAB s1 s2 hnow hagree
  have hget : ∀ withSecrets, GetMFADevices memory L s1 A withSecrets
      = GetMFADevices memory L s2 A withSecrets := by
    intro w
    by_cases hu : A = []
    · simp [GetMFADevices, hu]
    · rw [GetMFADevices_memory L s1 A w hu, GetMFADevices_memory L s2 A w hu, hrec]
  have hkey : ∀ id, underUser B (mfaDeviceKey A id) = false := fun id =>
    not_underUser_of_mfa_prefix A B hA hB hAB _ ((mfa_inRange_iff A _).1 (mfaDeviceKey_inRange A id))
  have hput_in : ∀ (items : List Item) (item : Item), underUser B item.Key = false →
      (item :: Store.erase items item.Key).filter (fun it => underUser B it.Key)
        = items.filter (fun it => underUser B it.Key) := by
    intro items item hitem
    simp only [List.filter_cons, hitem, Bool.false_eq_true, if_false, Store.erase,
      List.filter_filter]
    apply List.filter_congr
    intro it _
    by_cases hk : it.Key = item.Key
    · rw [hk, hitem]
      rfl
    · simp [hk]
  have hput_out : ∀ (items : List Item) (item : Item), underUser B item.Key = false →
      (item :: Store.erase items item.Key).filter (fun it => !underUser B it.Key)
        = item :: Store.erase (items.filter (fun it => !underUser B it.Key)) item.Key := by
    intro items item hitem
    simp only [List.filter_cons, hitem, Bool.not_false, if_true, Store.erase_filter]
  refine ⟨?_, ?_, ?_, hget, ?_⟩
  · unfold UpsertMFADevice
    rw [hget false]
    by_cases hu : A = []
    · simp [hu]
    · simp only [hu, if_false]
      cases L.CheckAndSetDefaults d with
      | error e => rfl
      | ok d' =>
        dsimp only
        cases GetMFADevices memory L s2 A false with
        | error e => rfl
        | ok devs =>
          dsimp only
          cases UpsertMFADevice.loop d' devs with
          | some e => rfl
          | none =>
            dsimp only
            cases L.Marshal d' with
            | error e => rfl
            | ok v => rfl
  · unfold UpsertMFADevice
    by_cases hu : A = []
    · simp [hu]
    · simp only [hu, if_false]
      cases L.CheckAndSetDefaults d with
      | error e => rfl
      | ok d' =>
        dsimp only
        cases GetMFADevices memory L s1 A false with
        | error e => rfl
        | ok devs =>
          dsimp only
          cases UpsertMFADevice.loop d' devs with
          | some e => rfl
          | none =>
            dsimp only
            cases L.Marshal d' with
            | error e => rfl
            | ok v => exact hput_in s1.items ⟨mfaDeviceKey A d'.Id, v, 0, 0⟩ (hkey d'.Id)
  · unfold UpsertMFADevice
    rw [hget false]
    by_cases hu : A = []
    · simpa [hu] using hagree
    · simp only [hu, if_false]
      cases L.CheckAndSetDefaults d with
      | error e => exact hagree
      | ok d' =>
        dsimp only
        cases GetMFADevices memory L s2 A false with
        | error e => exact hagree
        | ok devs =>
          dsimp only
          cases UpsertMFADevice.loop d' devs with
          | some e => exact hagree
          | none =>
            dsimp only
            cases L.Marshal d' with
            | error e => exact hagree
            | ok v =>
              have h1 := hput_out s1.items ⟨mfaDeviceKey A d'.Id, v, 0, 0⟩ (hkey d'.Id)
              have h2 := hput_out s2.items ⟨mfaDeviceKey A d'.Id, v, 0, 0⟩ (hkey d'.Id)
              rw [hagree] at h1
              exact h1.trans h2.symm
  · intro it hit
    have hmem := (Store.range_perm s1 _ _).mem_iff.1 hit
    rw [List.mem_filter] at hmem
    have hr : inRange (Key [ webPrefix, usersPrefix, A, mfaDevicePrefix])
        (RangeEnd (Key [ webPrefix, usersPrefix, A, mfaDevicePrefix])) it.Key = true := by
      have := hmem.2
      simp only [Bool.and_eq_true] at this
      exact this.1
    exact not_underUser_of_mfa_prefix A B hA hB hAB it.Key ((mfa_inRange_iff A it.Key).1 hr)

/-- Witness of C27: `bob` holds the device `webauthn7`; `alice`, who holds
`webauthn1`, enrolls `webauthn7` with the same result as on the store without
the record of `bob`, and the record of `bob` stays. -/
theorem MFADevices_scoped_per_user_witness :
    (UpsertMFADevice memory Example.lib Example.storeAliceBob Example.alice
        Example.webauthn7).1 = none ∧
      (UpsertMFADevice memory Example.lib Example.storeAliceBob Example.alice
        Example.webauthn7).2.items.filter (fun it => underUser (str "bob") it.Key)
        = [⟨mfaDeviceKey (str "bob") (str "id7"), [8], 0, 0⟩] :=
  ⟨((MFADevices_scoped_per_user Example.lib Example.alice (str "bob") (by decide) (by decide)
      (by decide) Example.storeAliceBob Example.store1 rfl (by decide)
      Example.webauthn7).1).trans (by decide),
    ((MFADevices_scoped_per_user Example.lib Example.alice (str "bob") (by decide) (by decide)
      (by decide) Example.storeAliceBob Example.store1 rfl (by decide)
      Example.webauthn7).2.1).trans (by decide)⟩

end Teleport
